import Mathlib

/-!
Verification of the grabbiel content publish pipeline
(`src/article_publisher.cpp`) via a shallow embedding in Lean.

Strings are modelled as `List Char` (the code manipulates `std::string`
byte-wise; ASCII is assumed, so one `Char` per byte).  The SQLite store is
modelled as in-memory tables (lists of rows, in insertion order); a SQL
`SELECT ... WHERE` returning a single row is `List.find?` (first match),
`UPDATE ... WHERE` maps over all matching rows, `INSERT` appends, and
`last_insert_rowid` is modelled by explicit next-id counters
(`content_blocks.id` and `tags.id` are `INTEGER PRIMARY KEY` surrogates;
`images.id` / `videos.id` are inserted explicitly, so their rowid is the
inserted id).  The filesystem below one content directory is an association
list from relative path to file content, listed in directory-iteration
order.  External collaborators (`std::hash`, ImageMagick `identify`,
`ffprobe`, `gsutil`, local copies) are abstracted as a `Collab` record of
pure functions; uploads are accumulated in an `uploads` log.
-/

namespace Pub

/-- Str is the byte-string model used throughout: a list of characters. -/
abbrev Str := List Char

/-- natToStr renders a natural number in decimal, as `std::to_string` does. -/
def natToStr (n : Nat) : Str := Nat.toDigits 10 n

/-- intToStr renders an integer in decimal, as `std::to_string` does. -/
def intToStr : Int → Str
  | Int.ofNat n => natToStr n
  | Int.negSucc n => '-' :: natToStr (n + 1)

/-- containsSub needle hay decides whether needle occurs contiguously in hay. -/
def containsSub (needle : Str) : Str → Bool
  | [] => needle.isEmpty
  | c :: rest => needle.isPrefixOf (c :: rest) || containsSub needle rest

/-!
Literal text substitution.  `std::regex_replace(content, std::regex(regex_escape(key)), url)`
replaces the leftmost, non-overlapping occurrences of the literal string
`key` by `url`, scanning left to right (for keys whose characters are all
escaped by `regex_escape`; see `regex_escape` below).  `replaceAllF` is that
scan, written with a fuel parameter so that it is structurally recursive
(the fuel is initialised to the length of the subject string, which always
suffices because every step consumes at least one subject character).
-/

/-- replaceAllF is the fuelled leftmost non-overlapping literal replacement scan. -/
def replaceAllF (key url : Str) : Nat → Str → Str
  | _, [] => []
  | 0, _ :: _ => []
  | fuel + 1, c :: rest =>
    if !key.isEmpty && key.isPrefixOf (c :: rest) then
      url ++ replaceAllF key url fuel ((c :: rest).drop key.length)
    else
      c :: replaceAllF key url fuel rest

/-- replaceAll key url s replaces every leftmost non-overlapping literal
occurrence of key in s by url, exactly as the escaped-regex substitution in
`rewrite_media_references` does. -/
def replaceAll (key url s : Str) : Str := replaceAllF key url s.length s

theorem replaceAllF_nil (key url : Str) : ∀ f, replaceAllF key url f [] = [] := by
  intro f; cases f <;> rfl

theorem replaceAllF_fuel (key url : Str) :
    ∀ (f1 : Nat) (s : Str) (f2 : Nat), s.length ≤ f1 → s.length ≤ f2 →
      replaceAllF key url f1 s = replaceAllF key url f2 s := by
  intro f1
  induction f1 with
  | zero =>
    intro s f2 h1 _
    have hs : s = [] := List.eq_nil_of_length_eq_zero (Nat.le_zero.mp h1)
    subst hs
    rw [replaceAllF_nil, replaceAllF_nil]
  | succ a ih =>
    intro s f2 h1 h2
    cases s with
    | nil => rw [replaceAllF_nil, replaceAllF_nil]
    | cons c rest =>
      cases f2 with
      | zero => simp at h2
      | succ b =>
        simp only [replaceAllF]
        by_cases hg : (!key.isEmpty && key.isPrefixOf (c :: rest)) = true
        · rw [if_pos hg, if_pos hg]
          have hkey : 1 ≤ key.length := by
            have : key.isEmpty = false := by
              cases hk : key.isEmpty
              · rfl
              · rw [hk] at hg; simp at hg
            cases key with
            | nil => simp [List.isEmpty] at this
            | cons _ _ => simp
          have hlen : ((c :: rest).drop key.length).length ≤ a := by
            have h1a : rest.length + 1 ≤ a + 1 := by simpa using h1
            simp only [List.length_drop, List.length_cons]
            omega
          have hlenb : ((c :: rest).drop key.length).length ≤ b := by
            have h2b : rest.length + 1 ≤ b + 1 := by simpa using h2
            simp only [List.length_drop, List.length_cons]
            omega
          rw [ih _ b hlen hlenb]
        · rw [if_neg hg, if_neg hg]
          have h1a : rest.length ≤ a := by simpa using Nat.le_of_succ_le_succ (by simpa using h1)
          have h2b : rest.length ≤ b := by simpa using Nat.le_of_succ_le_succ (by simpa using h2)
          rw [ih _ b h1a h2b]

/-- noHitB key p s states that no occurrence of key starts inside the p
portion of the concatenation p ++ s. -/
def noHitB (key p s : Str) : Bool :=
  (List.range p.length).all (fun i => !(key.isPrefixOf ((p ++ s).drop i)))

theorem noHitB_cons (key : Str) (c : Char) (p s : Str)
    (h : noHitB key (c :: p) s = true) :
    key.isPrefixOf (c :: (p ++ s)) = false ∧ noHitB key p s = true := by
  simp only [noHitB, List.all_eq_true, List.mem_range] at h
  constructor
  · have h0 := h 0 (by simp)
    simpa using h0
  · simp only [noHitB, List.all_eq_true, List.mem_range]
    intro i hi
    have := h (i + 1) (by simpa using Nat.succ_lt_succ hi)
    simpa using this

theorem replaceAll_skip (key url : Str) :
    ∀ p s : Str, noHitB key p s = true →
      replaceAll key url (p ++ s) = p ++ replaceAll key url s := by
  intro p
  induction p with
  | nil => intro s _; simp
  | cons c p' ih =>
    intro s h
    obtain ⟨hpre, hrest⟩ := noHitB_cons key c p' s h
    show replaceAllF key url ((c :: p' ++ s).length) (c :: (p' ++ s)) = _
    have hlen : (c :: p' ++ s).length = (p' ++ s).length + 1 := by simp
    rw [hlen]
    simp only [replaceAllF]
    rw [if_neg (by simp [hpre])]
    rw [show replaceAllF key url ((p' ++ s).length) (p' ++ s) =
          replaceAll key url (p' ++ s) from rfl]
    rw [ih s hrest]
    simp

theorem replaceAll_hit (key url s : Str) (h : key ≠ []) :
    replaceAll key url (key ++ s) = url ++ replaceAll key url s := by
  cases key with
  | nil => exact absurd rfl h
  | cons k kt =>
    show replaceAllF (k :: kt) url ((k :: kt ++ s).length) (k :: (kt ++ s)) = _
    have hlen : (k :: kt ++ s).length = (kt.length + s.length) + 1 := by simp
    rw [hlen]
    simp only [replaceAllF]
    rw [if_pos]
    · rw [show (k :: (kt ++ s)) = (k :: kt) ++ s from rfl, List.drop_left]
      rw [replaceAllF_fuel (k :: kt) url (kt.length + s.length) s s.length
            (by omega) (Nat.le_refl _)]
      rfl
    · simp only [List.isEmpty, Bool.not_false, Bool.true_and]
      exact List.isPrefixOf_iff_prefix.mpr ⟨s, rfl⟩

/-- joinWith sep parts interleaves sep between the parts; with sep = key it
reconstructs a subject string from its greedy occurrence decomposition. -/
def joinWith (sep : Str) : List Str → Str
  | [] => []
  | [p] => p
  | p :: rest => p ++ sep ++ joinWith sep rest

/-- goodPartsB key parts states that parts is the greedy leftmost
decomposition of joinWith key parts: no occurrence of key starts strictly
inside any part (occurrences are exactly at the seams). -/
def goodPartsB (key : Str) : List Str → Bool
  | [] => true
  | [p] => noHitB key p []
  | p :: rest => noHitB key p (key ++ joinWith key rest) && goodPartsB key rest

/-- replaceAll_joinWith: on a subject in greedy decomposition form, the
leftmost non-overlapping literal scan replaces every occurrence of key by
url, yielding the same decomposition joined with url. -/
theorem replaceAll_joinWith (key url : Str) (hk : key ≠ []) :
    ∀ parts : List Str, goodPartsB key parts = true →
      replaceAll key url (joinWith key parts) = joinWith url parts := by
  intro parts
  induction parts with
  | nil => intro _; rfl
  | cons p rest ih =>
    intro hg
    cases rest with
    | nil =>
      simp only [goodPartsB] at hg
      have := replaceAll_skip key url p [] hg
      simpa [joinWith, show replaceAll key url [] = [] from rfl] using this
    | cons q rest2 =>
      simp only [goodPartsB, Bool.and_eq_true] at hg
      obtain ⟨h1, h2⟩ := hg
      show replaceAll key url (p ++ key ++ joinWith key (q :: rest2)) = _
      rw [List.append_assoc]
      rw [replaceAll_skip key url p (key ++ joinWith key (q :: rest2)) h1]
      rw [replaceAll_hit key url (joinWith key (q :: rest2)) hk]
      rw [ih h2]
      show p ++ (url ++ joinWith url (q :: rest2)) = joinWith url (p :: q :: rest2)
      simp [joinWith]

/-- dquote is the double-quote character. -/
def dquote : Char := Char.ofNat 34

/-- squote is the single-quote character. -/
def squote : Char := Char.ofNat 39

/-- isQuoteCh matches the regex character class consisting of both quote kinds. -/
def isQuoteCh (c : Char) : Bool := c = dquote || c = squote

/-- wsChar matches the ASCII whitespace accepted by the regex class \s. -/
def wsChar (c : Char) : Bool :=
  c = ' ' || c = '\t' || c = '\n' || c = '\r' || c = Char.ofNat 11 || c = Char.ofNat 12

/-- matchAttr attr ext s matches the anchored ECMAScript pattern
attr\s*=\s*["'](?:\.\/)?([^"']*\.EXT)["'] at the start of s (with EXT the
given suffix, e.g. ".css"): the attribute name, optional whitespace, =,
optional whitespace, an opening quote of either kind, an optional literal
"./" (consumed greedily and excluded from the capture), then a quote-free
run that must end in ext and be followed immediately by a quote of either
kind.  Because the run admits no quote characters, the greedy capture
[^"']*\.EXT followed by ["'] can only close at the next quote, so this
deterministic scan coincides with the backtracking regex semantics.  It
returns the captured group and the remainder of s after the whole match. -/
def matchAttr (attr ext s : Str) : Option (Str × Str) :=
  if attr.isEmpty then none
  else if attr.isPrefixOf s then
    let s1 := s.drop attr.length
    match s1.dropWhile wsChar with
    | [] => none
    | e :: s3 =>
      if e = '=' then
        match s3.dropWhile wsChar with
        | [] => none
        | q :: s5 =>
          if isQuoteCh q then
            let s6 := if ('.' :: '/' :: []).isPrefixOf s5 then s5.drop 2 else s5
            let run := s6.takeWhile (fun c => !(isQuoteCh c))
            match s6.dropWhile (fun c => !(isQuoteCh c)) with
            | [] => none
            | _ :: s7 =>
              if ext.isSuffixOf run then some (run, s7) else none
          else none
      else none
  else none

/-- scanAttrF is the fuelled left-to-right regex_replace scan for matchAttr:
at each position, if the pattern matches, emit the replacement built from
the capture and resume after the match; otherwise copy one character. -/
def scanAttrF (attr ext : Str) (repl : Str → Str) : Nat → Str → Str
  | _, [] => []
  | 0, _ :: _ => []
  | fuel + 1, c :: rest =>
    match matchAttr attr ext (c :: rest) with
    | some (cap, rem) => repl cap ++ scanAttrF attr ext repl fuel rem
    | none => c :: scanAttrF attr ext repl fuel rest

/-- scanAttr runs the regex_replace scan with sufficient fuel. -/
def scanAttr (attr ext : Str) (repl : Str → Str) (s : Str) : Str :=
  scanAttrF attr ext repl s.length s

/-!
Fixed constants from the top of `article_publisher.cpp`.
-/

/-- GCS_PUBLIC_URL as in the source. -/
def GCS_PUBLIC_URL : Str := "https://storage.googleapis.com/".toList

/-- GCS_PUBLIC_BUCKET as in the source. -/
def GCS_PUBLIC_BUCKET : Str := "grabbiel-media-public".toList

/-- gcsBase is GCS_PUBLIC_URL ++ GCS_PUBLIC_BUCKET ++ "/", the prefix of
every canonical media URL built by the pipeline. -/
def gcsBase : Str := GCS_PUBLIC_URL ++ GCS_PUBLIC_BUCKET ++ ['/']

/-- IMAGE_EXTENSIONS as in the source (exact, case-sensitive match). -/
def IMAGE_EXTENSIONS : List Str :=
  [".jpg", ".jpeg", ".png", ".gif", ".webp", ".heic", ".bmp", ".tiff"].map String.toList

/-- VIDEO_EXTENSIONS as in the source. -/
def VIDEO_EXTENSIONS : List Str :=
  [".mp4", ".mov", ".webm", ".avi", ".mkv"].map String.toList

/-- VM_ALLOWED as in the source: file types copied to the durable tree. -/
def VM_ALLOWED : List Str := ["html", "css", "js"].map String.toList

/-- regex_escape as in the source: prefixes a backslash to every character
of the class [-[\]{}()*+?.,\^$|#\s].  (Note the class does not contain the
backslash itself.) -/
def regex_escape (s : Str) : Str :=
  s.flatMap (fun c =>
    if c ∈ ['-', '[', ']', '{', '}', '(', ')', '*', '+', '?', '.', ',', '^', '$', '|', '#']
        ∨ wsChar c then ['\\', c] else [c])

/-!
Filesystem and metadata model.  A content directory is an association list
from relative path (e.g. "index.html", "media/pic.jpg", "thumbnail/t.png")
to file content, in directory-iteration order.  Metadata maps are
association lists with `std::unordered_map`-style overwrite-on-assign.
-/

/-- FileSys models the files below one content directory. -/
abbrev FileSys := List (Str × Str)

/-- Meta models a string-keyed map (std::unordered_map) as an association
list; metaInsert gives operator[]-assignment semantics. -/
abbrev Meta := List (Str × Str)

/-- metaFind is map lookup. -/
def metaFind (m : Meta) (k : Str) : Option Str := (m.find? (fun e => e.1 == k)).map (·.2)

/-- metaInsert is operator[]-assignment: overwrite the existing entry in
place, or append a new one. -/
def metaInsert : Meta → Str → Str → Meta
  | [], k, v => [(k, v)]
  | e :: rest, k, v => if e.1 == k then (k, v) :: rest else e :: metaInsert rest k v

/-- fsLookup reads a file of the content directory by relative path. -/
def fsLookup (fs : FileSys) (p : Str) : Option Str := (fs.find? (fun e => e.1 == p)).map (·.2)

/-- fsWrite overwrites an existing file in place (the rewriter only writes
paths it has just read). -/
def fsWrite (fs : FileSys) (p c : Str) : FileSys :=
  fs.map (fun e => if e.1 == p then (p, c) else e)

/-- fileNameOf extracts the filename component of a relative path, like
fs::path::filename. -/
def fileNameOf (p : Str) : Str := (p.reverse.takeWhile (fun c => !(c = '/'))).reverse

/-- extOf extracts the extension (including the dot) of the filename
component, like fs::path::extension: the part from the last dot onwards,
empty when the filename has no dot beyond a leading one. -/
def extOf (p : Str) : Str :=
  let fn := fileNameOf p
  if (fn.drop 1).contains '.' then
    '.' :: (fn.reverse.takeWhile (fun c => !(c = '.'))).reverse
  else []

/-- parseLine splits a line at its first '=' into key and value (everything
after, unmodified), as the parse_metadata loop does; a line without '='
yields none. -/
def parseLine : Str → Option (Str × Str)
  | [] => none
  | c :: rest =>
    if c = '=' then some ([], rest)
    else (parseLine rest).map (fun kv => (c :: kv.1, kv.2))

/-- getlineGo is the std::getline-with-delimiter loop: it reads tokens up to
each delimiter; at end of input a non-empty pending token is produced and an
empty one is not (getline fails when it extracts no characters). -/
def getlineGo (delim : Char) (cur : Str) : Str → List Str
  | [] => if cur.isEmpty then [] else [cur.reverse]
  | c :: rest =>
    if c = delim then cur.reverse :: getlineGo delim [] rest
    else getlineGo delim (c :: cur) rest

/-- getlineBy splits a string with std::getline semantics. -/
def getlineBy (delim : Char) (s : Str) : List Str := getlineGo delim [] s

/-- parseLines folds the metadata lines into a map, later lines overwriting
earlier ones for the same key; lines without '=' contribute nothing. -/
def parseLines (lines : List Str) : Meta :=
  lines.foldl (fun m line =>
    match parseLine line with
    | some kv => metaInsert m kv.1 kv.2
    | none => m) []

/-- parse_metadata models parse_metadata of the source: read the metadata
file line by line, split each line at its first '=', assign into the map.
(The required-key check in the C++ function only logs and does not alter the
result; an unopenable file is the same as an empty one.) -/
def parse_metadata (content : Str) : Meta := parseLines (getlineBy '\n' content)

/-- trimTag trims leading and trailing spaces and tabs from a tag token,
as the two erase calls in process_tags do. -/
def trimTag (s : Str) : Str :=
  ((s.dropWhile (fun c => c = ' ' || c = '\t')).reverse.dropWhile
    (fun c => c = ' ' || c = '\t')).reverse

/-!
Database model.
-/

/-- CBRow is one row of content_blocks. -/
structure CBRow where
  id : Nat
  title : Str
  url_slug : Str
  type_id : Nat
  site_id : Str
  status : Str
  language : Str
  thumbnail_url : Option Str
deriving DecidableEq, Repr

/-- TimeVal distinguishes the two kinds of value the pipeline can leave in
articles.published_at: the SQL expression CURRENT_TIMESTAMP evaluated at
update time (clk, tagged with the model clock), and the literal nine-byte
text "CURRENT_TIMESTAMP" that the insert path binds with sqlite3_bind_text
(litCT). -/
inductive TimeVal where
  | litCT : TimeVal
  | clk : Nat → TimeVal
deriving DecidableEq, Repr

/-- ArticleRow is one row of articles (last_edited is none when the column
has never been set by this pipeline). -/
structure ArticleRow where
  content_id : Nat
  summary : Str
  last_edited : Option Nat
  published_at : Option TimeVal
deriving DecidableEq, Repr

/-- TagRow is one row of tags. -/
structure TagRow where
  id : Nat
  name : Str
deriving DecidableEq, Repr

/-- ContentTagRow is one row of content_tags. -/
structure ContentTagRow where
  content_id : Nat
  tag_id : Nat
deriving DecidableEq, Repr

/-- ImageRow is one row of images.  content_id is an Int because the
new-content path of update_article_metadata calls process_thumbnail with the
caller's still-unset content id, -1. -/
structure ImageRow where
  id : Nat
  original_url : Str
  filename : Str
  mime_type : Str
  size : Nat
  width : Nat
  height : Nat
  content_id : Int
  image_type : Str
  processing_status : Str
deriving DecidableEq, Repr

/-- VideoRow is one row of videos. -/
structure VideoRow where
  id : Nat
  title : Str
  gcs_path : Str
  mime_type : Str
  size_bytes : Nat
  duration_seconds : Nat
  content_id : Int
  is_reel : Bool
  processing_status : Str
deriving DecidableEq, Repr

/-- FileRow is one row of content_files (is_main is always bound to 0). -/
structure FileRow where
  content_id : Nat
  file_type : Str
  file_path : Str
  is_main : Nat
deriving DecidableEq, Repr

/-- MetaRow is one row of content_metadata. -/
structure MetaRow where
  content_id : Nat
  key : Str
  value : Str
deriving DecidableEq, Repr

/-- DB is the relational store.  nextCbId / nextTagId model the rowids that
sqlite assigns to INTEGER PRIMARY KEY inserts into content_blocks / tags. -/
structure DB where
  content_blocks : List CBRow
  articles : List ArticleRow
  tags : List TagRow
  content_tags : List ContentTagRow
  images : List ImageRow
  videos : List VideoRow
  content_files : List FileRow
  content_metadata : List MetaRow
  nextCbId : Nat
  nextTagId : Nat
deriving DecidableEq, Repr

/-- St is the full mutable state threaded through a publish: the database,
the log of object-store uploads (gsutil cp destinations, as bucket keys),
and the durable local tree under STORAGE_ROOT (path relative to the root,
content). -/
structure St where
  db : DB
  uploads : List Str
  localFiles : List (Str × Str)
deriving DecidableEq, Repr

/-- Collab abstracts the external collaborators: std::hash<std::string>
(implementation-defined, hence a parameter), the ImageMagick identify probe
(width, height, format name), the ffprobe duration probe (already truncated
to whole seconds, since the float parse is outside the model), and the
success of each local copy_file in the durable-copy pass (copy failure
throws in the source, aborting store_article_files). -/
structure Collab where
  hash : Str → Nat
  probeImage : Str → Option (Nat × Nat × Str)
  probeVideo : Str → Option Nat
  copyOk : Str → Bool

/-- generate_media_uuid as in the source: hash of "<content_id>-<filename>"
reduced modulo 2147483647 (INT_MAX).  The C++ cast of that remainder to int
is value-preserving, so the result is modelled as the Nat it equals. -/
def generate_media_uuid (co : Collab) (content_id : Int) (filename : Str) : Nat :=
  co.hash (intToStr content_id ++ ['-'] ++ filename) % 2147483647

/-- format_to_mime maps an identify format name to a MIME type, falling back
to image/<format>, as extract_image_metadata does. -/
def format_to_mime (fmt : Str) : Str :=
  if fmt = "JPEG".toList ∨ fmt = "JPG".toList then "image/jpeg".toList
  else if fmt = "PNG".toList then "image/png".toList
  else if fmt = "GIF".toList then "image/gif".toList
  else if fmt = "WEBP".toList then "image/webp".toList
  else if fmt = "HEIC".toList then "image/heic".toList
  else if fmt = "BMP".toList then "image/bmp".toList
  else if fmt = "TIFF".toList then "image/tiff".toList
  else "image/".toList ++ fmt

/-- video_ext_to_mime maps a video extension to a MIME type, defaulting to
video/mp4, as extract_video_metadata does. -/
def video_ext_to_mime (ext : Str) : Str :=
  if ext = ".mp4".toList then "video/mp4".toList
  else if ext = ".mov".toList then "video/quicktime".toList
  else if ext = ".webm".toList then "video/webm".toList
  else if ext = ".avi".toList then "video/x-msvideo".toList
  else if ext = ".mkv".toList then "video/x-matroska".toList
  else "video/mp4".toList

/-- probedImage runs the identify probe with the caller's failure fallback
(zero dimensions, image/jpeg): both store_article_files and
process_thumbnail use exactly this recovery. -/
def probedImage (co : Collab) (p : Str) : Nat × Nat × Str :=
  match co.probeImage p with
  | some (w, h, fmt) => (w, h, format_to_mime fmt)
  | none => (0, 0, "image/jpeg".toList)

/-- store_image_metadata as in the source: SELECT by id; on a hit UPDATE
every column of the row, on a miss INSERT the row with its explicit id.
Both non-error paths return the id (the found id, respectively the
last-insert rowid, both equal to the uuid). -/
def store_image_metadata (st : St) (content_id : Int) (uuid : Nat)
    (url fn mime : Str) (size w h : Nat) (itype ps : Str) : Nat × St :=
  let row : ImageRow := ⟨uuid, url, fn, mime, size, w, h, content_id, itype, ps⟩
  if (st.db.images.find? (fun r => r.id == uuid)).isSome then
    (uuid, { st with db := { st.db with
      images := st.db.images.map (fun r => if r.id == uuid then row else r) } })
  else
    (uuid, { st with db := { st.db with images := st.db.images ++ [row] } })

/-- store_video_metadata as in the source, mirroring store_image_metadata on
the videos table. -/
def store_video_metadata (st : St) (content_id : Int) (uuid : Nat)
    (title url mime : Str) (size dur : Nat) (is_reel : Bool) (ps : Str) : Nat × St :=
  let row : VideoRow := ⟨uuid, title, url, mime, size, dur, content_id, is_reel, ps⟩
  if (st.db.videos.find? (fun r => r.id == uuid)).isSome then
    (uuid, { st with db := { st.db with
      videos := st.db.videos.map (fun r => if r.id == uuid then row else r) } })
  else
    (uuid, { st with db := { st.db with videos := st.db.videos ++ [row] } })

/-- store_file_reference as in the source: append a content_files row with
is_main = 0. -/
def store_file_reference (st : St) (cid : Nat) (ftype fpath : Str) : St :=
  { st with db := { st.db with
    content_files := st.db.content_files ++ [⟨cid, ftype, fpath, 0⟩] } }

/-- store_content_metadata as in the source: skip empty values, otherwise
INSERT OR REPLACE keyed by (content_id, key). -/
def store_content_metadata (st : St) (cid : Nat) (key value : Str) : St :=
  if value.isEmpty then st
  else { st with db := { st.db with
    content_metadata :=
      (st.db.content_metadata.filter
        (fun r => !(r.content_id == cid && r.key == key))) ++ [⟨cid, key, value⟩] } }

/-- isThumbEntry recognises the files enumerated by the (non-recursive)
directory iteration over the thumbnail subdirectory. -/
def isThumbEntry (p : Str) : Bool :=
  "thumbnail/".toList.isPrefixOf p && !((p.drop 10).contains '/')

/-- process_thumbnail as in the source: find the first image file in the
thumbnail subdirectory; when publishing, upload it under
images/thumbnails/<uuid><ext> and use the public GCS URL; for drafts, copy
it into the local tree and use the bare name "thumbnail<ext>"; in both
cases store an images row (image_type thumbnail, processing_status
pending) and return the chosen URL, or the empty string when there is no
thumbnail. -/
def process_thumbnail (co : Collab) (fs : FileSys) (st : St)
    (content_id : Int) (is_published : Bool) : Str × St :=
  match fs.find? (fun e => isThumbEntry e.1 && IMAGE_EXTENSIONS.contains (extOf e.1)) with
  | none => ([], st)
  | some e =>
    let ext := extOf e.1
    let filename := fileNameOf e.1
    let uuid := generate_media_uuid co content_id ("thumbnail-".toList ++ filename)
    let wh := probedImage co e.1
    let size := e.2.length
    if is_published then
      let key := "images/thumbnails/".toList ++ natToStr uuid ++ ext
      let url := gcsBase ++ key
      let st1 := { st with uploads := st.uploads ++ [key] }
      let r := store_image_metadata st1 content_id uuid url filename wh.2.2 size
        wh.1 wh.2.1 "thumbnail".toList "pending".toList
      (url, r.2)
    else
      let url := "thumbnail".toList ++ ext
      let st1 := { st with localFiles :=
        st.localFiles ++ [(intToStr content_id ++ ['/'] ++ url, e.2)] }
      let r := store_image_metadata st1 content_id uuid url filename wh.2.2 size
        wh.1 wh.2.1 "thumbnail".toList "pending".toList
      (url, r.2)

/-- ensureTag looks a tag name up in tags and inserts it when absent,
returning its id (the found id or the last-insert rowid). -/
def ensureTag (st : St) (name : Str) : Nat × St :=
  match st.db.tags.find? (fun r => r.name == name) with
  | some r => (r.id, st)
  | none =>
    let tid := st.db.nextTagId
    (tid, { st with db := { st.db with
      tags := st.db.tags ++ [⟨tid, name⟩], nextTagId := tid + 1 } })

/-- tagStep processes one comma-separated token of the tag list: trim, skip
if empty, ensure the tag row, and (for a positive tag id, as the source
checks) INSERT OR IGNORE the (content_id, tag_id) association. -/
def tagStep (cid : Nat) (st : St) (tok : Str) : St :=
  let t := trimTag tok
  if t.isEmpty then st
  else
    let r := ensureTag st t
    if 0 < r.1 then
      if r.2.db.content_tags.any (fun a => a.content_id == cid && a.tag_id == r.1) then r.2
      else { r.2 with db := { r.2.db with
        content_tags := r.2.db.content_tags ++ [⟨cid, r.1⟩] } }
    else r.2

/-- process_tags as in the source: nothing for an empty list, otherwise
split on commas with getline semantics and process each token. -/
def process_tags (st : St) (cid : Nat) (tags_list : Str) : St :=
  if tags_list.isEmpty then st
  else (getlineBy ',' tags_list).foldl (tagStep cid) st

/-!
Reference rewriter.
-/

/-- target_files as in rewrite_media_references. -/
def target_files : List Str := ["index.html", "script.js", "style.css"].map String.toList

/-- articleBaseUrl is the per-content canonical base
https://server.grabbiel.com/article/<content_id>/. -/
def articleBaseUrl (cid : Nat) : Str :=
  "https://server.grabbiel.com/article/".toList ++ natToStr cid ++ ['/']

/-- rewriteIndexHtml applies the two attribute rewrites performed for
index.html: href attributes holding .css paths, then src attributes holding
.js paths, each replaced by the quoted absolute URL rooted at the
per-content base with the captured path appended. -/
def rewriteIndexHtml (cid : Nat) (content : Str) : Str :=
  let base := articleBaseUrl cid
  let c1 := scanAttr "href".toList ".css".toList
    (fun cap => "href=".toList ++ [dquote] ++ base ++ cap ++ [dquote]) content
  scanAttr "src".toList ".js".toList
    (fun cap => "src=".toList ++ [dquote] ++ base ++ cap ++ [dquote]) c1

/-- rewriteFileContent is the per-file transformation of
rewrite_media_references: fold the escaped-literal substitution over the
media map (in map iteration order), then, for index.html only, rewrite the
css and js attribute references. -/
def rewriteFileContent (media_map : Meta) (isIndex : Bool) (cid : Nat) (content : Str) : Str :=
  let c1 := media_map.foldl (fun c kv => replaceAll kv.1 kv.2 c) content
  if isIndex then rewriteIndexHtml cid c1 else c1

/-- rewriteOneFile reads one target file (skipping it when absent), applies
rewriteFileContent, and writes the result back (the source only writes when
the content changed; writing unchanged content back gives the same
filesystem, so the write is modelled unconditionally). -/
def rewriteOneFile (media_map : Meta) (cid : Nat) (fs : FileSys) (fn : Str) : FileSys :=
  match fsLookup fs fn with
  | none => fs
  | some content =>
    fsWrite fs fn (rewriteFileContent media_map (fn == "index.html".toList) cid content)

/-- rewrite_media_references as in the source: a complete no-op for drafts;
for published content, rewrite each of the three target files in place. -/
def rewrite_media_references (fs : FileSys) (media_map : Meta)
    (cid : Nat) (is_published : Bool) : FileSys :=
  if !is_published then fs
  else target_files.foldl (rewriteOneFile media_map cid) fs

/-!
File storage writer (store_article_files).
-/

/-- mediaStep is one iteration of the first pass of store_article_files:
skip metadata.txt and the thumbnail subtree; classify by extension; for an
image or video, derive the uuid, probe metadata (with the fallback
defaults), build the canonical GCS key and URL, upsert the media row
(processing_status always "pending"), and — unless the returned id is ≤ 0 —
upload when publishing, record the media/<filename> → URL map entry, and
append a content_files row pointing at the GCS URL. -/
def mediaStep (co : Collab) (cid : Nat) (is_pub : Bool)
    (acc : St × Meta) (e : Str × Str) : St × Meta :=
  if fileNameOf e.1 == "metadata.txt".toList then acc
  else if "thumbnail/".toList.isPrefixOf e.1 then acc
  else
    let ext := extOf e.1
    if IMAGE_EXTENSIONS.contains ext then
      let fn := fileNameOf e.1
      let uuid := generate_media_uuid co (Int.ofNat cid) fn
      let wh := probedImage co e.1
      let key := "images/originals/".toList ++ natToStr uuid ++ ext
      let url := gcsBase ++ key
      let r := store_image_metadata acc.1 (Int.ofNat cid) uuid url fn wh.2.2
        e.2.length wh.1 wh.2.1 "content".toList "pending".toList
      if r.1 = 0 then (r.2, acc.2)
      else
        let st2 := if is_pub then { r.2 with uploads := r.2.uploads ++ [key] } else r.2
        let st3 := store_file_reference st2 cid (ext.drop 1) url
        (st3, metaInsert acc.2 ("media/".toList ++ fn) url)
    else if VIDEO_EXTENSIONS.contains ext then
      let fn := fileNameOf e.1
      let uuid := generate_media_uuid co (Int.ofNat cid) fn
      let dm := match co.probeVideo e.1 with
        | some d => (d, video_ext_to_mime ext)
        | none => (0, "video/mp4".toList)
      let key := "videos/originals/".toList ++ natToStr uuid ++ ext
      let url := gcsBase ++ key
      let is_reel := "reels/".toList.isPrefixOf e.1
      let r := store_video_metadata acc.1 (Int.ofNat cid) uuid fn url dm.2
        e.2.length dm.1 is_reel "pending".toList
      if r.1 = 0 then (r.2, acc.2)
      else
        let st2 := if is_pub then { r.2 with uploads := r.2.uploads ++ [key] } else r.2
        let st3 := store_file_reference st2 cid (ext.drop 1) url
        (st3, metaInsert acc.2 ("media/".toList ++ fn) url)
    else acc

/-- copyStep is one iteration of the second pass: skip metadata.txt; files
whose type (extension without the dot, or "bin") is in VM_ALLOWED are copied
into the durable tree and recorded in content_files; a copy failure throws,
aborting the pass (Except.error carries the state written so far). -/
def copyStep (co : Collab) (cid : Nat) (acc : Except St St) (e : Str × Str) : Except St St :=
  match acc with
  | Except.error st => Except.error st
  | Except.ok st =>
    if fileNameOf e.1 == "metadata.txt".toList then Except.ok st
    else
      let ext := extOf e.1
      let ftype := if ext.isEmpty then "bin".toList else ext.drop 1
      if VM_ALLOWED.contains ftype then
        if co.copyOk e.1 then
          let st1 := { st with localFiles :=
            st.localFiles ++ [(natToStr cid ++ ['/'] ++ e.1, e.2)] }
          Except.ok (store_file_reference st1 cid ftype e.1)
        else Except.error st
      else Except.ok st

/-- store_article_files as in the source: first pass over the directory
classifies and stores media and builds the media URL map; then the
reference rewriter runs on the directory; the second pass copies the
allowed static files from the rewritten directory; finally, a directory
under /tmp/ is deleted after a successful pass (returned as none).  The
Bool result is the overall success (false when a required copy threw). -/
def store_article_files (co : Collab) (dirPath : Str) (fs : FileSys)
    (cid : Nat) (is_pub : Bool) (st : St) : Bool × St × Option FileSys :=
  let first := fs.foldl (mediaStep co cid is_pub) (st, [])
  let fs1 := rewrite_media_references fs first.2 cid is_pub
  match fs1.foldl (copyStep co cid) (Except.ok first.1) with
  | Except.error st2 => (false, st2, some fs1)
  | Except.ok st2 =>
    if "/tmp/".toList.isPrefixOf dirPath then (true, st2, none)
    else (true, st2, some fs1)

/-!
Content upsert engine (update_article_metadata).
-/

/-- requiredKeys as checked at the top of update_article_metadata. -/
def requiredKeys : List Str := ["title", "slug", "site_id"].map String.toList

/-- statusOf computes the status string: "published" exactly when the
metadata carries status = "1", otherwise "draft" (also when absent). -/
def statusOf (meta : Meta) : Str :=
  match metaFind meta "status".toList with
  | some v => if v == "1".toList then "published".toList else "draft".toList
  | none => "draft".toList

/-- statusChangedFlag is the status_changed_to_published flag of
update_article_metadata: the row is read back by id (when that SELECT
returns no row the flag stays false) and compared with the incoming
status. -/
def statusChangedFlag (st : St) (cid : Nat) (status : Str) : Bool :=
  match st.db.content_blocks.find? (fun r => r.id == cid) with
  | some r2 => !(r2.status == "published".toList) && status == "published".toList
  | none => false

/-- thumbUrlOpt converts the thumbnail URL string returned by
process_thumbnail into the bound SQL value: NULL for the empty string. -/
def thumbUrlOpt (s : Str) : Option Str := if s.isEmpty then none else some s

/-- updArticlesSummary is the article UPDATE of the found-row branch: set
summary and last_edited on every articles row of the content id. -/
def updArticlesSummary (st : St) (cid : Nat) (summary : Str) (clock : Nat) : St :=
  { st with db := { st.db with
    articles := st.db.articles.map (fun a =>
      if a.content_id == cid then { a with summary := summary, last_edited := some clock }
      else a) } }

/-- updCbStatus is the content_blocks UPDATE of the found-row branch: set
status and thumbnail_url on every row of the id. -/
def updCbStatus (st : St) (cid : Nat) (status : Str) (topt : Option Str) : St :=
  { st with db := { st.db with
    content_blocks := st.db.content_blocks.map (fun r =>
      if r.id == cid then { r with status := status, thumbnail_url := topt }
      else r) } }

/-- stampPublishedAt is the published_at UPDATE run on a transition to
published: set published_at to CURRENT_TIMESTAMP on every articles row of
the content id. -/
def stampPublishedAt (st : St) (cid : Nat) (clock : Nat) : St :=
  { st with db := { st.db with
    articles := st.db.articles.map (fun a =>
      if a.content_id == cid then { a with published_at := some (TimeVal.clk clock) }
      else a) } }

/-- upsertExisting is the found-row branch of update_article_metadata:
read the old status by id, update the article summary and last_edited,
process the thumbnail, update the content block status and thumbnail URL,
and stamp published_at with CURRENT_TIMESTAMP only when the status
transitions from non-published to published. -/
def upsertExisting (co : Collab) (fs : FileSys) (st : St) (clock : Nat)
    (cid : Nat) (summary status : Str) : St :=
  let status_changed := statusChangedFlag st cid status
  let st1 := updArticlesSummary st cid summary clock
  let pt := process_thumbnail co fs st1 (Int.ofNat cid) (status == "published".toList)
  let st3 := updCbStatus pt.2 cid status (thumbUrlOpt pt.1)
  if status_changed then stampPublishedAt st3 cid clock else st3

/-- upsertNew is the miss branch of update_article_metadata: process the
thumbnail first (with the caller's still-unset content id, -1), insert the
content block (type_id 1, language en), read back the new id, and insert
the articles row; publishing immediately binds the literal text
"CURRENT_TIMESTAMP" as the published_at value. -/
def upsertNew (co : Collab) (fs : FileSys) (st : St)
    (title slug site_id summary status : Str) : Nat × St :=
  let pt := process_thumbnail co fs st (-1) (status == "published".toList)
  let cid := pt.2.db.nextCbId
  let row : CBRow := ⟨cid, title, slug, 1, site_id, status, "en".toList,
    thumbUrlOpt pt.1⟩
  let st2 := { pt.2 with db := { pt.2.db with
    content_blocks := pt.2.db.content_blocks ++ [row], nextCbId := cid + 1 } }
  let art : ArticleRow := ⟨cid, summary, none,
    if status == "published".toList then some TimeVal.litCT else none⟩
  (cid, { st2 with db := { st2.db with articles := st2.db.articles ++ [art] } })

/-- postSteps is the tail of update_article_metadata, after the transaction
commits: process the tag list when non-empty, then store the read_time
content metadata when non-empty. -/
def postSteps (st : St) (cid : Nat) (tags_list read_time : Str) : St :=
  let st5 := if tags_list.isEmpty then st else process_tags st cid tags_list
  if read_time.isEmpty then st5
  else store_content_metadata st5 cid "read_time".toList read_time

/-- update_article_metadata as in the source: fail (with no state change)
when a required key is missing; otherwise resolve the content identity by
(url_slug, site_id), run the matching branch, then process tags and the
optional read_time.  The summary comes from summary.txt in the content
directory (empty when absent). -/
def update_article_metadata (co : Collab) (fs : FileSys) (st : St)
    (clock : Nat) (meta : Meta) : Option (Nat × St) :=
  if requiredKeys.any (fun k => (metaFind meta k).isNone) then none
  else
    let title := (metaFind meta "title".toList).getD []
    let slug := (metaFind meta "slug".toList).getD []
    let site_id := (metaFind meta "site_id".toList).getD []
    let summary := (fsLookup fs "summary.txt".toList).getD []
    let status := statusOf meta
    let tags_list := (metaFind meta "tags".toList).getD []
    let read_time := (metaFind meta "read_time".toList).getD []
    let r :=
      match st.db.content_blocks.find? (fun r => r.url_slug == slug && r.site_id == site_id) with
      | some row => (row.id, upsertExisting co fs st clock row.id summary status)
      | none => upsertNew co fs st title slug site_id summary status
    some (r.1, postSteps r.2 r.1 tags_list read_time)

/-!
Publish orchestrator (handle_publish_request).
-/

/-- Request models the parsed HTTP request handed to the publish handler. -/
structure Request where
  query_params : List (Str × Str)
  body : Str
deriving DecidableEq, Repr

/-- Response models the handler's reply. -/
structure Response where
  status : Nat
  body : Str
deriving DecidableEq, Repr

/-- qlookup reads a query parameter. -/
def qlookup (req : Request) (k : Str) : Option Str :=
  (req.query_params.find? (fun e => e.1 == k)).map (·.2)

/-- resolvePath determines the content directory path: the path query
parameter if present, else a non-empty request body, else nothing. -/
def resolvePath (req : Request) : Option Str :=
  match qlookup req "path".toList with
  | some p => some p
  | none => if req.body.isEmpty then none else some req.body

/-- isPublishedParam is true exactly when the status query parameter is
present with value "1". -/
def isPublishedParam (req : Request) : Bool :=
  qlookup req "status".toList == some "1".toList

/-- metaWithStatus adds the status query parameter into the parsed metadata
map, exactly when the parameter is present. -/
def metaWithStatus (req : Request) (m : Meta) : Meta :=
  match qlookup req "status".toList with
  | some v => metaInsert m "status".toList v
  | none => m

/-- respBody is the 200 response body, ending in the content id. -/
def respBody (is_pub : Bool) (cid : Nat) : Str :=
  "Article ".toList ++
    (if is_pub then "published".toList else "saved as draft".toList) ++
    " with ID: ".toList ++ natToStr cid

/-- dirsUpdate writes the (possibly rewritten) content directory back into
the world, or removes it when store_article_files cleaned it up. -/
def dirsUpdate (dirs : List (Str × FileSys)) (p : Str) : Option FileSys → List (Str × FileSys)
  | none => dirs.filter (fun d => !(d.1 == p))
  | some fs2 => dirs.map (fun d => if d.1 == p then (p, fs2) else d)

/-- handle_publish_request as in the source: resolve the path from the
query parameter or the request body (400 when neither is present); read
is_published from the status parameter; 400 when metadata.txt or index.html
is missing under the path (a nonexistent directory has neither); parse the
metadata, merge the status parameter, run the upsert (500 on failure), then
store the files (500 on failure), else 200 with the id in the body. -/
def handle_publish_request (co : Collab) (dirs : List (Str × FileSys))
    (st : St) (clock : Nat) (req : Request) :
    Response × List (Str × FileSys) × St :=
  match resolvePath req with
  | none => (⟨400, "Missing path parameter".toList⟩, dirs, st)
  | some article_path =>
    let is_published := isPublishedParam req
    match (dirs.find? (fun d => d.1 == article_path)).map (·.2) with
    | none => (⟨400, "Missing metadata.txt".toList⟩, dirs, st)
    | some fs =>
      match fsLookup fs "metadata.txt".toList with
      | none => (⟨400, "Missing metadata.txt".toList⟩, dirs, st)
      | some mcontent =>
        if (fsLookup fs "index.html".toList).isNone then
          (⟨400, "Article is missing required file: index.html".toList⟩, dirs, st)
        else
          let metadata := metaWithStatus req (parse_metadata mcontent)
          match update_article_metadata co fs st clock metadata with
          | none => (⟨500, "Database update failed".toList⟩, dirs, st)
          | some rr =>
            match store_article_files co article_path fs rr.1 is_published rr.2 with
            | (true, st2, fsOpt2) =>
              (⟨200, respBody is_published rr.1⟩, dirsUpdate dirs article_path fsOpt2, st2)
            | (false, st2, fsOpt2) =>
              (⟨500, "File storage failed".toList⟩, dirsUpdate dirs article_path fsOpt2, st2)

/-!
Generic helper lemmas for state preservation and counting.
-/

theorem foldl_preserves {α β γ : Type _} (f : α → γ) (g : α → β → α)
    (h : ∀ a b, f (g a b) = f a) : ∀ (l : List β) (a : α), f (l.foldl g a) = f a := by
  intro l
  induction l with
  | nil => intro a; rfl
  | cons x xs ih => intro a; rw [List.foldl_cons, ih, h]

theorem countP_map_of_pointwise {α : Type _} (l : List α) (f : α → α) (p : α → Bool)
    (h : ∀ a, p (f a) = p a) : (l.map f).countP p = l.countP p := by
  induction l with
  | nil => rfl
  | cons x xs ih => simp [List.countP_cons, h, ih]

theorem map_map_of_pointwise {α β : Type _} (l : List α) (f : α → α) (g : α → β)
    (h : ∀ a, g (f a) = g a) : (l.map f).map g = l.map g := by
  induction l with
  | nil => rfl
  | cons x xs ih => simp [h, ih]

/-!
Preservation lemmas: which parts of the state each operation leaves alone.
-/

theorem store_image_metadata_cb (st : St) (ci : Int) (u : Nat) (a b c : Str)
    (s w h : Nat) (it ps : Str) :
    (store_image_metadata st ci u a b c s w h it ps).2.db.content_blocks
      = st.db.content_blocks := by
  simp only [store_image_metadata]; split <;> rfl

theorem store_image_metadata_articles (st : St) (ci : Int) (u : Nat) (a b c : Str)
    (s w h : Nat) (it ps : Str) :
    (store_image_metadata st ci u a b c s w h it ps).2.db.articles
      = st.db.articles := by
  simp only [store_image_metadata]; split <;> rfl

theorem store_image_metadata_next (st : St) (ci : Int) (u : Nat) (a b c : Str)
    (s w h : Nat) (it ps : Str) :
    (store_image_metadata st ci u a b c s w h it ps).2.db.nextCbId
      = st.db.nextCbId := by
  simp only [store_image_metadata]; split <;> rfl

theorem store_image_metadata_uploads (st : St) (ci : Int) (u : Nat) (a b c : Str)
    (s w h : Nat) (it ps : Str) :
    (store_image_metadata st ci u a b c s w h it ps).2.uploads = st.uploads := by
  simp only [store_image_metadata]; split <;> rfl

theorem store_video_metadata_uploads (st : St) (ci : Int) (u : Nat) (a b c : Str)
    (s d : Nat) (ir : Bool) (ps : Str) :
    (store_video_metadata st ci u a b c s d ir ps).2.uploads = st.uploads := by
  simp only [store_video_metadata]; split <;> rfl

theorem store_file_reference_uploads (st : St) (cid : Nat) (a b : Str) :
    (store_file_reference st cid a b).uploads = st.uploads := rfl

theorem process_thumbnail_cb (co : Collab) (fs : FileSys) (st : St)
    (ci : Int) (b : Bool) :
    (process_thumbnail co fs st ci b).2.db.content_blocks = st.db.content_blocks := by
  simp only [process_thumbnail]
  split
  · rfl
  · split <;> rw [store_image_metadata_cb]

theorem process_thumbnail_articles (co : Collab) (fs : FileSys) (st : St)
    (ci : Int) (b : Bool) :
    (process_thumbnail co fs st ci b).2.db.articles = st.db.articles := by
  simp only [process_thumbnail]
  split
  · rfl
  · split <;> rw [store_image_metadata_articles]

theorem process_thumbnail_next (co : Collab) (fs : FileSys) (st : St)
    (ci : Int) (b : Bool) :
    (process_thumbnail co fs st ci b).2.db.nextCbId = st.db.nextCbId := by
  simp only [process_thumbnail]
  split
  · rfl
  · split <;> rw [store_image_metadata_next]

theorem process_thumbnail_draft_uploads (co : Collab) (fs : FileSys) (st : St)
    (ci : Int) :
    (process_thumbnail co fs st ci false).2.uploads = st.uploads := by
  simp only [process_thumbnail]
  split
  · rfl
  · split
    · rename_i hfalse; exact absurd hfalse (by decide)
    · rw [store_image_metadata_uploads]

theorem ensureTag_cb (st : St) (n : Str) :
    (ensureTag st n).2.db.content_blocks = st.db.content_blocks := by
  simp only [ensureTag]; split <;> rfl

theorem ensureTag_articles (st : St) (n : Str) :
    (ensureTag st n).2.db.articles = st.db.articles := by
  simp only [ensureTag]; split <;> rfl

theorem ensureTag_next (st : St) (n : Str) :
    (ensureTag st n).2.db.nextCbId = st.db.nextCbId := by
  simp only [ensureTag]; split <;> rfl

theorem tagStep_cb (cid : Nat) (st : St) (tok : Str) :
    (tagStep cid st tok).db.content_blocks = st.db.content_blocks := by
  simp only [tagStep]
  split
  · rfl
  · split
    · split
      · rw [ensureTag_cb]
      · rw [show ({ (ensureTag st (trimTag tok)).2 with db := _ } : St).db.content_blocks
            = (ensureTag st (trimTag tok)).2.db.content_blocks from rfl, ensureTag_cb]
    · rw [ensureTag_cb]

theorem tagStep_articles (cid : Nat) (st : St) (tok : Str) :
    (tagStep cid st tok).db.articles = st.db.articles := by
  simp only [tagStep]
  split
  · rfl
  · split
    · split
      · rw [ensureTag_articles]
      · rw [show ({ (ensureTag st (trimTag tok)).2 with db := _ } : St).db.articles
            = (ensureTag st (trimTag tok)).2.db.articles from rfl, ensureTag_articles]
    · rw [ensureTag_articles]

theorem tagStep_next (cid : Nat) (st : St) (tok : Str) :
    (tagStep cid st tok).db.nextCbId = st.db.nextCbId := by
  simp only [tagStep]
  split
  · rfl
  · split
    · split
      · rw [ensureTag_next]
      · rw [show ({ (ensureTag st (trimTag tok)).2 with db := _ } : St).db.nextCbId
            = (ensureTag st (trimTag tok)).2.db.nextCbId from rfl, ensureTag_next]
    · rw [ensureTag_next]

theorem process_tags_cb (st : St) (cid : Nat) (l : Str) :
    (process_tags st cid l).db.content_blocks = st.db.content_blocks := by
  simp only [process_tags]
  split
  · rfl
  · exact foldl_preserves (fun s => s.db.content_blocks) (tagStep cid)
      (fun a b => tagStep_cb cid a b) _ st

theorem process_tags_articles (st : St) (cid : Nat) (l : Str) :
    (process_tags st cid l).db.articles = st.db.articles := by
  simp only [process_tags]
  split
  · rfl
  · exact foldl_preserves (fun s => s.db.articles) (tagStep cid)
      (fun a b => tagStep_articles cid a b) _ st

theorem process_tags_next (st : St) (cid : Nat) (l : Str) :
    (process_tags st cid l).db.nextCbId = st.db.nextCbId := by
  simp only [process_tags]
  split
  · rfl
  · exact foldl_preserves (fun s => s.db.nextCbId) (tagStep cid)
      (fun a b => tagStep_next cid a b) _ st

theorem store_content_metadata_cb (st : St) (cid : Nat) (k v : Str) :
    (store_content_metadata st cid k v).db.content_blocks = st.db.content_blocks := by
  simp only [store_content_metadata]; split <;> rfl

theorem store_content_metadata_articles (st : St) (cid : Nat) (k v : Str) :
    (store_content_metadata st cid k v).db.articles = st.db.articles := by
  simp only [store_content_metadata]; split <;> rfl

theorem store_content_metadata_next (st : St) (cid : Nat) (k v : Str) :
    (store_content_metadata st cid k v).db.nextCbId = st.db.nextCbId := by
  simp only [store_content_metadata]; split <;> rfl

theorem postSteps_cb (st : St) (cid : Nat) (tl rt : Str) :
    (postSteps st cid tl rt).db.content_blocks = st.db.content_blocks := by
  simp only [postSteps]
  split <;> split <;>
    simp only [store_content_metadata_cb, process_tags_cb]

theorem postSteps_articles (st : St) (cid : Nat) (tl rt : Str) :
    (postSteps st cid tl rt).db.articles = st.db.articles := by
  simp only [postSteps]
  split <;> split <;>
    simp only [store_content_metadata_articles, process_tags_articles]

theorem postSteps_next (st : St) (cid : Nat) (tl rt : Str) :
    (postSteps st cid tl rt).db.nextCbId = st.db.nextCbId := by
  simp only [postSteps]
  split <;> split <;>
    simp only [store_content_metadata_next, process_tags_next]

/-- cbKey is the identity-relevant projection of a content block row: its
surrogate id and the (url_slug, site_id) natural key. -/
def cbKey (r : CBRow) : Nat × Str × Str := (r.id, r.url_slug, r.site_id)


theorem map_ptwise {α β : Type _} (l : List α) (f g : α → β) (h : ∀ a, f a = g a) :
    l.map f = l.map g := by
  have hfg : f = g := funext h
  rw [hfg]

theorem updArticlesSummary_cb (st : St) (cid : Nat) (s : Str) (c : Nat) :
    (updArticlesSummary st cid s c).db.content_blocks = st.db.content_blocks := rfl

theorem updArticlesSummary_next (st : St) (cid : Nat) (s : Str) (c : Nat) :
    (updArticlesSummary st cid s c).db.nextCbId = st.db.nextCbId := rfl

theorem updArticlesSummary_art_cid (st : St) (cid : Nat) (s : Str) (c : Nat) :
    (updArticlesSummary st cid s c).db.articles.map (fun a => a.content_id)
      = st.db.articles.map (fun a => a.content_id) :=
  map_map_of_pointwise _ _ _ (fun a => by cases hb : (a.content_id == cid) <;> simp [hb])

theorem updArticlesSummary_art_cidpa (st : St) (cid : Nat) (s : Str) (c : Nat) :
    (updArticlesSummary st cid s c).db.articles.map (fun a => (a.content_id, a.published_at))
      = st.db.articles.map (fun a => (a.content_id, a.published_at)) :=
  map_map_of_pointwise _ _ _ (fun a => by cases hb : (a.content_id == cid) <;> simp [hb])

theorem updCbStatus_cbKey (st : St) (cid : Nat) (status : Str) (topt : Option Str) :
    (updCbStatus st cid status topt).db.content_blocks.map cbKey
      = st.db.content_blocks.map cbKey :=
  map_map_of_pointwise _ _ _ (fun r => by cases hb : (r.id == cid) <;> simp [hb, cbKey])

theorem updCbStatus_articles (st : St) (cid : Nat) (status : Str) (topt : Option Str) :
    (updCbStatus st cid status topt).db.articles = st.db.articles := rfl

theorem updCbStatus_next (st : St) (cid : Nat) (status : Str) (topt : Option Str) :
    (updCbStatus st cid status topt).db.nextCbId = st.db.nextCbId := rfl

theorem stampPublishedAt_cb (st : St) (cid c : Nat) :
    (stampPublishedAt st cid c).db.content_blocks = st.db.content_blocks := rfl

theorem stampPublishedAt_next (st : St) (cid c : Nat) :
    (stampPublishedAt st cid c).db.nextCbId = st.db.nextCbId := rfl

theorem stampPublishedAt_art_cid (st : St) (cid c : Nat) :
    (stampPublishedAt st cid c).db.articles.map (fun a => a.content_id)
      = st.db.articles.map (fun a => a.content_id) :=
  map_map_of_pointwise _ _ _ (fun a => by cases hb : (a.content_id == cid) <;> simp [hb])

theorem stampPublishedAt_art_cidpa (st : St) (cid c : Nat) :
    (stampPublishedAt st cid c).db.articles.map (fun a => (a.content_id, a.published_at))
      = st.db.articles.map (fun a =>
          (a.content_id, if a.content_id == cid then some (TimeVal.clk c) else a.published_at)) := by
  show (st.db.articles.map _).map _ = _
  rw [List.map_map]
  exact map_ptwise _ _ _ (fun a => by cases hb : (a.content_id == cid) <;> simp [Function.comp, hb])

theorem upsertNew_fst (co : Collab) (fs : FileSys) (st : St)
    (t sl si su status : Str) :
    (upsertNew co fs st t sl si su status).1 = st.db.nextCbId := by
  show (process_thumbnail co fs st (-1) (status == "published".toList)).2.db.nextCbId
    = st.db.nextCbId
  exact process_thumbnail_next co fs st (-1) (status == "published".toList)

theorem upsertNew_cb (co : Collab) (fs : FileSys) (st : St)
    (t sl si su status : Str) :
    (upsertNew co fs st t sl si su status).2.db.content_blocks
      = st.db.content_blocks ++ [⟨st.db.nextCbId, t, sl, 1, si, status, "en".toList,
          thumbUrlOpt (process_thumbnail co fs st (-1) (status == "published".toList)).1⟩] := by
  show (process_thumbnail co fs st (-1) (status == "published".toList)).2.db.content_blocks
      ++ [⟨(process_thumbnail co fs st (-1) (status == "published".toList)).2.db.nextCbId,
            t, sl, 1, si, status, "en".toList,
            thumbUrlOpt (process_thumbnail co fs st (-1) (status == "published".toList)).1⟩]
    = _
  rw [process_thumbnail_cb, process_thumbnail_next]

theorem upsertNew_articles (co : Collab) (fs : FileSys) (st : St)
    (t sl si su status : Str) :
    (upsertNew co fs st t sl si su status).2.db.articles
      = st.db.articles ++ [⟨st.db.nextCbId, su, none,
          if status == "published".toList then some TimeVal.litCT else none⟩] := by
  show (process_thumbnail co fs st (-1) (status == "published".toList)).2.db.articles
      ++ [⟨(process_thumbnail co fs st (-1) (status == "published".toList)).2.db.nextCbId,
            su, none, if status == "published".toList then some TimeVal.litCT else none⟩]
    = _
  rw [process_thumbnail_articles, process_thumbnail_next]

theorem upsertNew_next (co : Collab) (fs : FileSys) (st : St)
    (t sl si su status : Str) :
    (upsertNew co fs st t sl si su status).2.db.nextCbId = st.db.nextCbId + 1 := by
  show (process_thumbnail co fs st (-1) (status == "published".toList)).2.db.nextCbId + 1
    = st.db.nextCbId + 1
  rw [process_thumbnail_next]

theorem upsertExisting_cbKey (co : Collab) (fs : FileSys) (st : St)
    (clock cid : Nat) (summary status : Str) :
    (upsertExisting co fs st clock cid summary status).db.content_blocks.map cbKey
      = st.db.content_blocks.map cbKey := by
  simp only [upsertExisting]
  split
  · rw [stampPublishedAt_cb, updCbStatus_cbKey, process_thumbnail_cb, updArticlesSummary_cb]
  · rw [updCbStatus_cbKey, process_thumbnail_cb, updArticlesSummary_cb]

theorem upsertExisting_art_cid (co : Collab) (fs : FileSys) (st : St)
    (clock cid : Nat) (summary status : Str) :
    (upsertExisting co fs st clock cid summary status).db.articles.map (fun a => a.content_id)
      = st.db.articles.map (fun a => a.content_id) := by
  simp only [upsertExisting]
  split
  · rw [stampPublishedAt_art_cid, updCbStatus_articles, process_thumbnail_articles,
      updArticlesSummary_art_cid]
  · rw [updCbStatus_articles, process_thumbnail_articles, updArticlesSummary_art_cid]

theorem upsertExisting_next (co : Collab) (fs : FileSys) (st : St)
    (clock cid : Nat) (summary status : Str) :
    (upsertExisting co fs st clock cid summary status).db.nextCbId = st.db.nextCbId := by
  simp only [upsertExisting]
  split
  · rw [stampPublishedAt_next, updCbStatus_next, process_thumbnail_next,
      updArticlesSummary_next]
  · rw [updCbStatus_next, process_thumbnail_next, updArticlesSummary_next]

theorem updArticlesSummary_art_pa (st : St) (cid : Nat) (s : Str) (c : Nat) :
    (updArticlesSummary st cid s c).db.articles.map (fun a => a.published_at)
      = st.db.articles.map (fun a => a.published_at) :=
  map_map_of_pointwise _ _ _ (fun a => by cases hb : (a.content_id == cid) <;> simp [hb])

theorem upsertExisting_pa_keep (co : Collab) (fs : FileSys) (st : St)
    (clock cid : Nat) (summary status : Str)
    (hflag : statusChangedFlag st cid status = false) :
    (upsertExisting co fs st clock cid summary status).db.articles.map
        (fun a => a.published_at)
      = st.db.articles.map (fun a => a.published_at) := by
  simp only [upsertExisting, hflag, Bool.false_eq_true, if_false]
  rw [updCbStatus_articles, process_thumbnail_articles, updArticlesSummary_art_pa]

theorem upsertExisting_pa_stamp (co : Collab) (fs : FileSys) (st : St)
    (clock cid : Nat) (summary status : Str)
    (hflag : statusChangedFlag st cid status = true) :
    (upsertExisting co fs st clock cid summary status).db.articles.map
        (fun a => (a.content_id, a.published_at))
      = st.db.articles.map (fun a =>
          (a.content_id, if a.content_id == cid then some (TimeVal.clk clock)
            else a.published_at)) := by
  simp only [upsertExisting, hflag, if_true]
  rw [stampPublishedAt_art_cidpa]
  rw [show (updCbStatus (process_thumbnail co fs (updArticlesSummary st cid summary clock)
        (Int.ofNat cid) (status == "published".toList)).2 cid status
        (thumbUrlOpt (process_thumbnail co fs (updArticlesSummary st cid summary clock)
          (Int.ofNat cid) (status == "published".toList)).1)).db.articles
      = (process_thumbnail co fs (updArticlesSummary st cid summary clock)
          (Int.ofNat cid) (status == "published".toList)).2.db.articles from rfl]
  rw [process_thumbnail_articles]
  show ((st.db.articles.map _).map _) = _
  rw [List.map_map]
  exact map_ptwise _ _ _ (fun a => by cases hb : (a.content_id == cid) <;>
    simp [Function.comp, hb])

theorem update_new_facts (co : Collab) (fs : FileSys) (st : St) (clock : Nat)
    (meta : Meta) (slug site title : Str)
    (hti : metaFind meta "title".toList = some title)
    (hs : metaFind meta "slug".toList = some slug)
    (hsi : metaFind meta "site_id".toList = some site)
    (hfind : st.db.content_blocks.find?
      (fun r => r.url_slug == slug && r.site_id == site) = none) :
    ∃ stOut,
      update_article_metadata co fs st clock meta = some (st.db.nextCbId, stOut) ∧
      stOut.db.content_blocks = st.db.content_blocks ++
        [⟨st.db.nextCbId, title, slug, 1, site, statusOf meta, "en".toList,
          thumbUrlOpt (process_thumbnail co fs st (-1)
            (statusOf meta == "published".toList)).1⟩] ∧
      stOut.db.articles = st.db.articles ++ [⟨st.db.nextCbId,
        (fsLookup fs "summary.txt".toList).getD [], none,
        if statusOf meta == "published".toList then some TimeVal.litCT else none⟩] ∧
      stOut.db.nextCbId = st.db.nextCbId + 1 := by
  have hAny : (requiredKeys.any (fun k => (metaFind meta k).isNone)) = false := by
    simp only [requiredKeys, List.map_cons, List.map_nil, List.any_cons, List.any_nil,
      hti, hs, hsi, Option.isNone_some, Bool.or_self, Bool.or_false, Bool.false_or]
  refine ⟨postSteps
      (upsertNew co fs st title slug site
        ((fsLookup fs "summary.txt".toList).getD []) (statusOf meta)).2
      (upsertNew co fs st title slug site
        ((fsLookup fs "summary.txt".toList).getD []) (statusOf meta)).1
      ((metaFind meta "tags".toList).getD [])
      ((metaFind meta "read_time".toList).getD []), ?_, ?_, ?_, ?_⟩
  · simp only [update_article_metadata, hAny, Bool.false_eq_true, if_false,
      hti, hs, hsi, Option.getD_some, hfind]
    rw [upsertNew_fst]
  · rw [postSteps_cb, upsertNew_cb]
  · rw [postSteps_articles, upsertNew_articles]
  · rw [postSteps_next, upsertNew_next]

theorem update_existing_facts (co : Collab) (fs : FileSys) (st : St) (clock : Nat)
    (meta : Meta) (slug site title : Str) (row : CBRow)
    (hti : metaFind meta "title".toList = some title)
    (hs : metaFind meta "slug".toList = some slug)
    (hsi : metaFind meta "site_id".toList = some site)
    (hfind : st.db.content_blocks.find?
      (fun r => r.url_slug == slug && r.site_id == site) = some row) :
    ∃ stOut,
      update_article_metadata co fs st clock meta = some (row.id, stOut) ∧
      stOut.db.content_blocks.map cbKey = st.db.content_blocks.map cbKey ∧
      stOut.db.articles.map (fun a => a.content_id)
        = st.db.articles.map (fun a => a.content_id) ∧
      stOut.db.nextCbId = st.db.nextCbId := by
  have hAny : (requiredKeys.any (fun k => (metaFind meta k).isNone)) = false := by
    simp only [requiredKeys, List.map_cons, List.map_nil, List.any_cons, List.any_nil,
      hti, hs, hsi, Option.isNone_some, Bool.or_self, Bool.or_false, Bool.false_or]
  refine ⟨postSteps
      (upsertExisting co fs st clock row.id
        ((fsLookup fs "summary.txt".toList).getD []) (statusOf meta))
      row.id
      ((metaFind meta "tags".toList).getD [])
      ((metaFind meta "read_time".toList).getD []), ?_, ?_, ?_, ?_⟩
  · simp only [update_article_metadata, hAny, Bool.false_eq_true, if_false,
      hti, hs, hsi, Option.getD_some, hfind]
  · rw [postSteps_cb, upsertExisting_cbKey]
  · rw [postSteps_articles, upsertExisting_art_cid]
  · rw [postSteps_next, upsertExisting_next]

theorem update_existing_pa_keep (co : Collab) (fs : FileSys) (st : St) (clock : Nat)
    (meta : Meta) (slug site title : Str) (row : CBRow)
    (hti : metaFind meta "title".toList = some title)
    (hs : metaFind meta "slug".toList = some slug)
    (hsi : metaFind meta "site_id".toList = some site)
    (hfind : st.db.content_blocks.find?
      (fun r => r.url_slug == slug && r.site_id == site) = some row)
    (hflag : statusChangedFlag st row.id (statusOf meta) = false) :
    ∃ stOut,
      update_article_metadata co fs st clock meta = some (row.id, stOut) ∧
      stOut.db.articles.map (fun a => a.published_at)
        = st.db.articles.map (fun a => a.published_at) := by
  have hAny : (requiredKeys.any (fun k => (metaFind meta k).isNone)) = false := by
    simp only [requiredKeys, List.map_cons, List.map_nil, List.any_cons, List.any_nil,
      hti, hs, hsi, Option.isNone_some, Bool.or_self, Bool.or_false, Bool.false_or]
  refine ⟨postSteps
      (upsertExisting co fs st clock row.id
        ((fsLookup fs "summary.txt".toList).getD []) (statusOf meta))
      row.id
      ((metaFind meta "tags".toList).getD [])
      ((metaFind meta "read_time".toList).getD []), ?_, ?_⟩
  · simp only [update_article_metadata, hAny, Bool.false_eq_true, if_false,
      hti, hs, hsi, Option.getD_some, hfind]
  · rw [postSteps_articles, upsertExisting_pa_keep co fs st clock row.id _ _ hflag]

theorem update_existing_pa_stamp (co : Collab) (fs : FileSys) (st : St) (clock : Nat)
    (meta : Meta) (slug site title : Str) (row : CBRow)
    (hti : metaFind meta "title".toList = some title)
    (hs : metaFind meta "slug".toList = some slug)
    (hsi : metaFind meta "site_id".toList = some site)
    (hfind : st.db.content_blocks.find?
      (fun r => r.url_slug == slug && r.site_id == site) = some row)
    (hflag : statusChangedFlag st row.id (statusOf meta) = true) :
    ∃ stOut,
      update_article_metadata co fs st clock meta = some (row.id, stOut) ∧
      stOut.db.articles.map (fun a => (a.content_id, a.published_at))
        = st.db.articles.map (fun a =>
            (a.content_id, if a.content_id == row.id then some (TimeVal.clk clock)
              else a.published_at)) := by
  have hAny : (requiredKeys.any (fun k => (metaFind meta k).isNone)) = false := by
    simp only [requiredKeys, List.map_cons, List.map_nil, List.any_cons, List.any_nil,
      hti, hs, hsi, Option.isNone_some, Bool.or_self, Bool.or_false, Bool.false_or]
  refine ⟨postSteps
      (upsertExisting co fs st clock row.id
        ((fsLookup fs "summary.txt".toList).getD []) (statusOf meta))
      row.id
      ((metaFind meta "tags".toList).getD [])
      ((metaFind meta "read_time".toList).getD []), ?_, ?_⟩
  · simp only [update_article_metadata, hAny, Bool.false_eq_true, if_false,
      hti, hs, hsi, Option.getD_some, hfind]
  · rw [postSteps_articles, upsertExisting_pa_stamp co fs st clock row.id _ _ hflag]

theorem countP_ptwise {α : Type _} (l : List α) (p p2 : α → Bool)
    (h : ∀ a, p a = p2 a) : l.countP p = l.countP p2 := by
  have hp : p = p2 := funext h
  rw [hp]

theorem countP_of_cbKey_eq (l1 l2 : List CBRow) (slug site : Str)
    (h : l1.map cbKey = l2.map cbKey) :
    l1.countP (fun r => r.url_slug == slug && r.site_id == site)
      = l2.countP (fun r => r.url_slug == slug && r.site_id == site) := by
  have h1 := congrArg
    (List.countP (fun t : Nat × Str × Str => t.2.1 == slug && t.2.2 == site)) h
  rw [List.countP_map, List.countP_map] at h1
  calc l1.countP (fun r => r.url_slug == slug && r.site_id == site)
      = l1.countP ((fun t : Nat × Str × Str => t.2.1 == slug && t.2.2 == site) ∘ cbKey) :=
        countP_ptwise _ _ _ (fun a => rfl)
    _ = l2.countP ((fun t : Nat × Str × Str => t.2.1 == slug && t.2.2 == site) ∘ cbKey) := h1
    _ = l2.countP (fun r => r.url_slug == slug && r.site_id == site) :=
        countP_ptwise _ _ _ (fun a => rfl)

theorem countP_of_cid_eq (l1 l2 : List ArticleRow) (cid : Nat)
    (h : l1.map (fun a => a.content_id) = l2.map (fun a => a.content_id)) :
    l1.countP (fun a => a.content_id == cid) = l2.countP (fun a => a.content_id == cid) := by
  have h1 := congrArg (List.countP (fun n : Nat => n == cid)) h
  rw [List.countP_map, List.countP_map] at h1
  calc l1.countP (fun a => a.content_id == cid)
      = l1.countP ((fun n : Nat => n == cid) ∘ (fun a => a.content_id)) :=
        countP_ptwise _ _ _ (fun a => rfl)
    _ = l2.countP ((fun n : Nat => n == cid) ∘ (fun a => a.content_id)) := h1
    _ = l2.countP (fun a => a.content_id == cid) :=
        countP_ptwise _ _ _ (fun a => rfl)

/-- C1: publishing the same content directory with the same (slug, site_id)
pair twice yields the same content_id on both calls and leaves exactly one
content_blocks row and exactly one articles row for that pair: the first
call inserts (for a store that has no row for the pair yet, with all
existing articles below the fresh rowid), and the second call finds the
existing row by (url_slug, site_id) and updates it instead of inserting. -/
theorem C1_publish_twice_idempotent
    (co : Collab) (fs : FileSys) (st : St) (c1 c2 : Nat) (meta : Meta)
    (slug site title : Str)
    (hti : metaFind meta "title".toList = some title)
    (hs : metaFind meta "slug".toList = some slug)
    (hsi : metaFind meta "site_id".toList = some site)
    (hnone : st.db.content_blocks.find?
      (fun r => r.url_slug == slug && r.site_id == site) = none)
    (hart : ∀ a ∈ st.db.articles, a.content_id ≠ st.db.nextCbId) :
    ((update_article_metadata co fs st c1 meta).bind (fun r1 =>
        (update_article_metadata co fs r1.2 c2 meta).map (fun r2 =>
          (r1.1, r2.1,
           r2.2.db.content_blocks.countP
             (fun r => r.url_slug == slug && r.site_id == site),
           r2.2.db.articles.countP (fun a => a.content_id == r1.1)))))
      = some (st.db.nextCbId, st.db.nextCbId, 1, 1) := by
  obtain ⟨stA, e1, hcbA, hartA, hnextA⟩ :=
    update_new_facts co fs st c1 meta slug site title hti hs hsi hnone
  have hfind2 : stA.db.content_blocks.find?
      (fun r => r.url_slug == slug && r.site_id == site)
      = some ⟨st.db.nextCbId, title, slug, 1, site, statusOf meta, "en".toList,
          thumbUrlOpt (process_thumbnail co fs st (-1)
            (statusOf meta == "published".toList)).1⟩ := by
    rw [hcbA, List.find?_append, hnone]
    simp [List.find?_cons]
  obtain ⟨stB, e2, hcbB, hartB, hnextB⟩ :=
    update_existing_facts co fs stA c2 meta slug site title _ hti hs hsi hfind2
  have hcount1 : stB.db.content_blocks.countP
      (fun r => r.url_slug == slug && r.site_id == site) = 1 := by
    rw [countP_of_cbKey_eq _ _ slug site hcbB, hcbA, List.countP_append]
    have hz : st.db.content_blocks.countP
        (fun r => r.url_slug == slug && r.site_id == site) = 0 :=
      List.countP_eq_zero.mpr (List.find?_eq_none.mp hnone)
    rw [hz]
    simp
  have hcount2 : stB.db.articles.countP (fun a => a.content_id == st.db.nextCbId) = 1 := by
    rw [countP_of_cid_eq _ _ st.db.nextCbId hartB, hartA, List.countP_append]
    have hz : st.db.articles.countP (fun a => a.content_id == st.db.nextCbId) = 0 :=
      List.countP_eq_zero.mpr (fun a ha hc => (hart a ha) (eq_of_beq hc))
    rw [hz]
    simp
  rw [e1, Option.some_bind, e2, Option.map_some']
  show some (st.db.nextCbId, st.db.nextCbId,
    stB.db.content_blocks.countP (fun r => r.url_slug == slug && r.site_id == site),
    stB.db.articles.countP (fun a => a.content_id == st.db.nextCbId)) = _
  rw [hcount1, hcount2]

/-!
Shared concrete objects for closed theorems: a trivial collaborator set
(constant hash 42, failing probes, successful copies), the empty store, and
small content directories and metadata maps.
-/

/-- co0 is a concrete collaborator set with constant hash 42, failing
probes and successful copies. -/
def co0 : Collab := ⟨fun _ => 42, fun _ => none, fun _ => none, fun _ => true⟩

/-- st0 is the empty store (next rowids 1). -/
def st0 : St := ⟨⟨[], [], [], [], [], [], [], [], 1, 1⟩, [], []⟩

/-- fs0 is a minimal content directory. -/
def fs0 : FileSys := [("index.html".toList, "x".toList)]

/-- mW is a metadata map publishing slug s on site 1 with status 1. -/
def mW : Meta := [("title".toList, "T".toList), ("slug".toList, "s".toList),
  ("site_id".toList, "1".toList), ("status".toList, "1".toList)]

/-- mDraft is mW without the status key (hence draft). -/
def mDraft : Meta := [("title".toList, "T".toList), ("slug".toList, "s".toList),
  ("site_id".toList, "1".toList)]

/-- C1 witness: two publishes of slug s / site 1 against the empty store
both return content id 1 and leave one content_blocks row and one articles
row for the pair. -/
theorem C1_publish_twice_idempotent_witness :
    ((update_article_metadata co0 fs0 st0 1 mW).bind (fun r1 =>
        (update_article_metadata co0 fs0 r1.2 2 mW).map (fun r2 =>
          (r1.1, r2.1,
           r2.2.db.content_blocks.countP
             (fun r => r.url_slug == "s".toList && r.site_id == "1".toList),
           r2.2.db.articles.countP (fun a => a.content_id == r1.1)))))
      = some (1, 1, 1, 1) :=
  C1_publish_twice_idempotent co0 fs0 st0 1 2 mW "s".toList "1".toList "T".toList
    (by decide) (by decide) (by decide) (by decide) (by decide)

/-- C4: for every draft publish the reference rewriter performs no writes:
the content directory is byte-for-byte unchanged. -/
theorem C4_draft_rewrite_noop (fs : FileSys) (media_map : Meta) (cid : Nat) :
    rewrite_media_references fs media_map cid false = fs := rfl

/-- C8: processing the tag list "a, b, a" for content id 7 yields exactly
the two tag rows a and b and exactly the two associations (7,1) and (7,2);
re-running it is a no-op (tags are reused and duplicate associations are
ignored); and whitespace/tab variation with empty tokens gives the same
result (tokens are trimmed of spaces and tabs and empty tokens skipped). -/
theorem C8_tags_dedup :
    (process_tags st0 7 "a, b, a".toList).db.tags
      = [⟨1, "a".toList⟩, ⟨2, "b".toList⟩] ∧
    (process_tags st0 7 "a, b, a".toList).db.content_tags = [⟨7, 1⟩, ⟨7, 2⟩] ∧
    process_tags (process_tags st0 7 "a, b, a".toList) 7 "a, b, a".toList
      = process_tags st0 7 "a, b, a".toList ∧
    process_tags st0 7 " a ,\tb,a,,  ".toList = process_tags st0 7 "a, b, a".toList := by
  decide

/-- C2 (amended): published_at is stamped at every transition of status
from non-published to published (and, at creation as published, set to the
literal text CURRENT_TIMESTAMP); a republish with status=1 of content that
is already published leaves every published_at unchanged.  (As stated the
claim fails: a republish as draft followed by a republish as published
re-stamps published_at; see the counterexample.) -/
theorem C2_published_at_transitions :
    (∀ (co : Collab) (fs : FileSys) (st : St) (clock : Nat) (meta : Meta)
        (slug site title : Str) (row : CBRow),
      metaFind meta "title".toList = some title →
      metaFind meta "slug".toList = some slug →
      metaFind meta "site_id".toList = some site →
      st.db.content_blocks.find?
        (fun r => r.url_slug == slug && r.site_id == site) = some row →
      statusChangedFlag st row.id (statusOf meta) = false →
      (update_article_metadata co fs st clock meta).map (fun r =>
          (r.1, r.2.db.articles.map (fun a => a.published_at)))
        = some (row.id, st.db.articles.map (fun a => a.published_at))) ∧
    (∀ (co : Collab) (fs : FileSys) (st : St) (clock : Nat) (meta : Meta)
        (slug site title : Str) (row : CBRow),
      metaFind meta "title".toList = some title →
      metaFind meta "slug".toList = some slug →
      metaFind meta "site_id".toList = some site →
      st.db.content_blocks.find?
        (fun r => r.url_slug == slug && r.site_id == site) = some row →
      statusChangedFlag st row.id (statusOf meta) = true →
      (update_article_metadata co fs st clock meta).map (fun r =>
          (r.1, r.2.db.articles.map (fun a => (a.content_id, a.published_at))))
        = some (row.id, st.db.articles.map (fun a =>
            (a.content_id, if a.content_id == row.id then some (TimeVal.clk clock)
              else a.published_at)))) ∧
    (∀ (co : Collab) (fs : FileSys) (st : St) (clock : Nat) (meta : Meta)
        (slug site title : Str),
      metaFind meta "title".toList = some title →
      metaFind meta "slug".toList = some slug →
      metaFind meta "site_id".toList = some site →
      st.db.content_blocks.find?
        (fun r => r.url_slug == slug && r.site_id == site) = none →
      statusOf meta = "published".toList →
      (update_article_metadata co fs st clock meta).map (fun r =>
          (r.1, r.2.db.articles.map (fun a => a.published_at)))
        = some (st.db.nextCbId,
            st.db.articles.map (fun a => a.published_at) ++ [some TimeVal.litCT])) := by
  refine ⟨?_, ?_, ?_⟩
  · intro co fs st clock meta slug site title row hti hs hsi hfind hflag
    obtain ⟨stOut, e, hpa⟩ :=
      update_existing_pa_keep co fs st clock meta slug site title row hti hs hsi hfind hflag
    rw [e, Option.map_some', hpa]
  · intro co fs st clock meta slug site title row hti hs hsi hfind hflag
    obtain ⟨stOut, e, hpa⟩ :=
      update_existing_pa_stamp co fs st clock meta slug site title row hti hs hsi hfind hflag
    rw [e, Option.map_some', hpa]
  · intro co fs st clock meta slug site title hti hs hsi hfind hpub
    obtain ⟨stOut, e, _, hart, _⟩ :=
      update_new_facts co fs st clock meta slug site title hti hs hsi hfind
    rw [e, Option.map_some', hart]
    simp [hpub, List.map_append]

/-- c2run1 publishes slug s as published at clock 10 against the empty store. -/
def c2run1 : Option (Nat × St) := update_article_metadata co0 fs0 st0 10 mW

/-- c2run2 republishes the same pair as draft at clock 11. -/
def c2run2 : Option (Nat × St) :=
  c2run1.bind (fun r => update_article_metadata co0 fs0 r.2 11 mDraft)

/-- c2run3 republishes the same pair with status=1 at clock 12. -/
def c2run3 : Option (Nat × St) :=
  c2run2.bind (fun r => update_article_metadata co0 fs0 r.2 12 mW)

/-- paAfter projects the published_at column after a publish call. -/
def paAfter (o : Option (Nat × St)) : List (Option TimeVal) :=
  match o with
  | some r => r.2.db.articles.map (fun a => a.published_at)
  | none => []

/-- C2 counterexample: publishing as published, then republishing as draft,
then republishing with status=1 changes published_at at the third call
(from the creation value to CURRENT_TIMESTAMP of clock 12), contradicting
the claim that published_at is set exactly once and never changed by any
later publish. -/
theorem C2_counterexample :
    paAfter c2run1 = [some TimeVal.litCT] ∧
    paAfter c2run2 = [some TimeVal.litCT] ∧
    paAfter c2run3 = [some (TimeVal.clk 12)] ∧
    (some (TimeVal.clk 12) ≠ (some TimeVal.litCT : Option TimeVal)) := by decide

/-- stPub is a store holding one already-published content block for
slug s / site 1 with its articles row. -/
def stPub : St :=
  ⟨⟨[⟨1, "T".toList, "s".toList, 1, "1".toList, "published".toList, "en".toList, none⟩],
    [⟨1, [], none, some TimeVal.litCT⟩], [], [], [], [], [], [], 2, 1⟩, [], []⟩

/-- C2 witness: a republish with status=1 of already-published content
leaves published_at unchanged. -/
theorem C2_published_at_transitions_witness :
    (update_article_metadata co0 fs0 stPub 5 mW).map (fun r =>
        (r.1, r.2.db.articles.map (fun a => a.published_at)))
      = some (1, [some TimeVal.litCT]) :=
  C2_published_at_transitions.1 co0 fs0 stPub 5 mW "s".toList "1".toList "T".toList
    ⟨1, "T".toList, "s".toList, 1, "1".toList, "published".toList, "en".toList, none⟩
    (by decide) (by decide) (by decide) (by decide) (by decide)

/-- C3 (amended): for every publish request whose metadata (after merging
the status parameter) is missing a required key (title, slug, or site_id),
the pipeline fails with a validation error before any database write, but
it is surfaced to the caller as HTTP 500 with body "Database update failed"
(handle_publish_request folds the validation failure into the generic
database-failure response), not as 400; the store and the directories are
unchanged. -/
theorem C3_missing_key_500_no_writes
    (co : Collab) (dirs : List (Str × FileSys)) (st : St) (clock : Nat)
    (req : Request) (p : Str) (fs : FileSys) (mcontent : Str)
    (hres : resolvePath req = some p)
    (hdir : (dirs.find? (fun d => d.1 == p)).map (·.2) = some fs)
    (hmeta : fsLookup fs "metadata.txt".toList = some mcontent)
    (hidx : (fsLookup fs "index.html".toList).isNone = false)
    (hmiss : ∃ k, k ∈ requiredKeys ∧
      metaFind (metaWithStatus req (parse_metadata mcontent)) k = none) :
    handle_publish_request co dirs st clock req
      = (⟨500, "Database update failed".toList⟩, dirs, st) := by
  have hupd : update_article_metadata co fs st clock
      (metaWithStatus req (parse_metadata mcontent)) = none := by
    obtain ⟨k, hk, hn⟩ := hmiss
    simp only [update_article_metadata]
    rw [if_pos]
    exact List.any_eq_true.mpr ⟨k, hk, by simp [hn]⟩
  simp only [handle_publish_request, hres, hdir, hmeta, hidx, Bool.false_eq_true,
    if_false, hupd]

/-- Instance stepping stones: the nested product of the handler result is
too deep for automatic DecidableEq synthesis in one step. -/
instance : DecidableEq (List (Str × FileSys) × St) :=
  @instDecidableEqProd _ _ inferInstance inferInstance

instance : DecidableEq (Response × List (Str × FileSys) × St) :=
  @instDecidableEqProd _ _ inferInstance inferInstance

/-- dirs3 is a world with one content directory whose metadata lacks the
required title key. -/
def dirs3 : List (Str × FileSys) :=
  [("/d".toList, [("metadata.txt".toList, "slug=s\nsite_id=1".toList),
    ("index.html".toList, "x".toList)])]

/-- req3 requests a publish of that directory. -/
def req3 : Request := ⟨[("path".toList, "/d".toList)], []⟩

/-- C3 counterexample: a publish whose metadata is missing the required
title key is answered with HTTP 500 (body "Database update failed"), not
the claimed 400; no state changes. -/
theorem C3_counterexample :
    handle_publish_request co0 dirs3 st0 0 req3
      = (⟨500, "Database update failed".toList⟩, dirs3, st0) ∧
    (handle_publish_request co0 dirs3 st0 0 req3).1.status ≠ 400 := by decide

/-- C3 witness: the amended theorem applied to the concrete missing-title
request. -/
theorem C3_missing_key_500_no_writes_witness :
    handle_publish_request co0 dirs3 st0 7 req3
      = (⟨500, "Database update failed".toList⟩, dirs3, st0) :=
  C3_missing_key_500_no_writes co0 dirs3 st0 7 req3 "/d".toList
    [("metadata.txt".toList, "slug=s\nsite_id=1".toList),
      ("index.html".toList, "x".toList)]
    "slug=s\nsite_id=1".toList
    (by decide) (by decide) (by decide) (by decide)
    ⟨"title".toList, by decide, by decide⟩

theorem isPrefixOf_self (l : Str) : l.isPrefixOf l = true :=
  List.isPrefixOf_iff_prefix.mpr (List.prefix_refl l)

theorem containsSub_append_self (needle : Str) :
    ∀ front : Str, containsSub needle (front ++ needle) = true := by
  intro front
  induction front with
  | nil =>
    cases needle with
    | nil => rfl
    | cons c t =>
      show containsSub (c :: t) (c :: t) = true
      simp only [containsSub, isPrefixOf_self, Bool.true_or]
  | cons c rest ih =>
    show (needle.isPrefixOf (c :: (rest ++ needle)) || containsSub needle (rest ++ needle)) = true
    rw [ih, Bool.or_true]

theorem respBody_contains_id (b : Bool) (cid : Nat) :
    containsSub (natToStr cid) (respBody b cid) = true := by
  show containsSub (natToStr cid)
    ("Article ".toList ++ (if b then "published".toList else "saved as draft".toList)
      ++ " with ID: ".toList ++ natToStr cid) = true
  exact containsSub_append_self (natToStr cid) _

/-- C9: the publish endpoint's response codes — a request providing no path
gets 400; a path whose directory or metadata.txt is missing gets 400; a
directory lacking index.html gets 400; in all three cases the store and the
directory world are untouched (no database row is created).  After
validation, an upsert failure yields 500 "Database update failed" and a
file-storage failure yields 500 "File storage failed".  A successful publish
yields 200 with a body that contains the resulting content id. -/
theorem C9_response_codes :
    (∀ (co : Collab) (dirs : List (Str × FileSys)) (st : St) (clock : Nat)
        (req : Request), resolvePath req = none →
      handle_publish_request co dirs st clock req
        = (⟨400, "Missing path parameter".toList⟩, dirs, st)) ∧
    (∀ (co : Collab) (dirs : List (Str × FileSys)) (st : St) (clock : Nat)
        (req : Request) (p : Str), resolvePath req = some p →
      (dirs.find? (fun d => d.1 == p)).map (·.2) = none →
      handle_publish_request co dirs st clock req
        = (⟨400, "Missing metadata.txt".toList⟩, dirs, st)) ∧
    (∀ (co : Collab) (dirs : List (Str × FileSys)) (st : St) (clock : Nat)
        (req : Request) (p : Str) (fs : FileSys), resolvePath req = some p →
      (dirs.find? (fun d => d.1 == p)).map (·.2) = some fs →
      fsLookup fs "metadata.txt".toList = none →
      handle_publish_request co dirs st clock req
        = (⟨400, "Missing metadata.txt".toList⟩, dirs, st)) ∧
    (∀ (co : Collab) (dirs : List (Str × FileSys)) (st : St) (clock : Nat)
        (req : Request) (p : Str) (fs : FileSys) (mcontent : Str),
      resolvePath req = some p →
      (dirs.find? (fun d => d.1 == p)).map (·.2) = some fs →
      fsLookup fs "metadata.txt".toList = some mcontent →
      (fsLookup fs "index.html".toList).isNone = true →
      handle_publish_request co dirs st clock req
        = (⟨400, "Article is missing required file: index.html".toList⟩, dirs, st)) ∧
    (∀ (co : Collab) (dirs : List (Str × FileSys)) (st : St) (clock : Nat)
        (req : Request) (p : Str) (fs : FileSys) (mcontent : Str),
      resolvePath req = some p →
      (dirs.find? (fun d => d.1 == p)).map (·.2) = some fs →
      fsLookup fs "metadata.txt".toList = some mcontent →
      (fsLookup fs "index.html".toList).isNone = false →
      update_article_metadata co fs st clock
        (metaWithStatus req (parse_metadata mcontent)) = none →
      handle_publish_request co dirs st clock req
        = (⟨500, "Database update failed".toList⟩, dirs, st)) ∧
    (∀ (co : Collab) (dirs : List (Str × FileSys)) (st : St) (clock : Nat)
        (req : Request) (p : Str) (fs : FileSys) (mcontent : Str) (cid : Nat)
        (st1 st2 : St) (f2 : Option FileSys),
      resolvePath req = some p →
      (dirs.find? (fun d => d.1 == p)).map (·.2) = some fs →
      fsLookup fs "metadata.txt".toList = some mcontent →
      (fsLookup fs "index.html".toList).isNone = false →
      update_article_metadata co fs st clock
        (metaWithStatus req (parse_metadata mcontent)) = some (cid, st1) →
      store_article_files co p fs cid (isPublishedParam req) st1 = (false, st2, f2) →
      handle_publish_request co dirs st clock req
        = (⟨500, "File storage failed".toList⟩, dirsUpdate dirs p f2, st2)) ∧
    (∀ (co : Collab) (dirs : List (Str × FileSys)) (st : St) (clock : Nat)
        (req : Request) (p : Str) (fs : FileSys) (mcontent : Str) (cid : Nat)
        (st1 st2 : St) (f2 : Option FileSys),
      resolvePath req = some p →
      (dirs.find? (fun d => d.1 == p)).map (·.2) = some fs →
      fsLookup fs "metadata.txt".toList = some mcontent →
      (fsLookup fs "index.html".toList).isNone = false →
      update_article_metadata co fs st clock
        (metaWithStatus req (parse_metadata mcontent)) = some (cid, st1) →
      store_article_files co p fs cid (isPublishedParam req) st1 = (true, st2, f2) →
      handle_publish_request co dirs st clock req
        = (⟨200, respBody (isPublishedParam req) cid⟩, dirsUpdate dirs p f2, st2) ∧
      containsSub (natToStr cid)
        (handle_publish_request co dirs st clock req).1.body = true) := by
  refine ⟨?_, ?_, ?_, ?_, ?_, ?_, ?_⟩
  · intro co dirs st clock req h
    simp only [handle_publish_request, h]
  · intro co dirs st clock req p h1 h2
    simp only [handle_publish_request, h1, h2]
  · intro co dirs st clock req p fs h1 h2 h3
    simp only [handle_publish_request, h1, h2, h3]
  · intro co dirs st clock req p fs mcontent h1 h2 h3 h4
    simp only [handle_publish_request, h1, h2, h3, h4, if_true]
  · intro co dirs st clock req p fs mcontent h1 h2 h3 h4 h5
    simp only [handle_publish_request, h1, h2, h3, h4, Bool.false_eq_true, if_false, h5]
  · intro co dirs st clock req p fs mcontent cid st1 st2 f2 h1 h2 h3 h4 h5 h6
    simp only [handle_publish_request, h1, h2, h3, h4, Bool.false_eq_true, if_false, h5, h6]
  · intro co dirs st clock req p fs mcontent cid st1 st2 f2 h1 h2 h3 h4 h5 h6
    constructor
    · simp only [handle_publish_request, h1, h2, h3, h4, Bool.false_eq_true, if_false, h5, h6]
    · simp only [handle_publish_request, h1, h2, h3, h4, Bool.false_eq_true, if_false, h5, h6]
      exact respBody_contains_id (isPublishedParam req) cid

/-- C9 witness: a request with no path parameter and an empty body is
answered 400 with the store untouched. -/
theorem C9_response_codes_witness :
    handle_publish_request co0 [] st0 0 ⟨[], []⟩
      = (⟨400, "Missing path parameter".toList⟩, [], st0) :=
  C9_response_codes.1 co0 [] st0 0 ⟨[], []⟩ (by decide)

/-- dirsE is the end-to-end scenario directory of the spec: metadata,
markup referencing media/pic.jpg, and the media file. -/
def dirsE : List (Str × FileSys) := [("/d".toList, [
  ("metadata.txt".toList, "title=Hello\nslug=hello\nsite_id=1".toList),
  ("index.html".toList, "<img src=\"media/pic.jpg\">".toList),
  ("media/pic.jpg".toList, "IMG".toList)])]

/-- reqE publishes that directory with status=1. -/
def reqE : Request := ⟨[("path".toList, "/d".toList), ("status".toList, "1".toList)], []⟩

/-- runE is the end-to-end publish run. -/
def runE : Response × List (Str × FileSys) × St :=
  handle_publish_request co0 dirsE st0 3 reqE

/-- End-to-end check: the scenario yields 200, a published content block,
and markup free of the literal media/pic.jpg reference. -/
theorem end_to_end_publish_eval :
    runE.1.status = 200 ∧
    runE.2.2.db.content_blocks.map (fun r => r.status) = ["published".toList] ∧
    containsSub "media/pic.jpg".toList
      ((fsLookup (((runE.2.1.find? (fun d => d.1 == "/d".toList)).map (·.2)).getD [])
        "index.html".toList).getD []) = false := by decide

/-- cexU1 and cexU2 are the canonical URLs of two media files whose map
keys overlap: media/a.jpg is a prefix of media/a.jpg.jpg. -/
def cexU1 : Str := gcsBase ++ "images/originals/1.jpg".toList

/-- cexU2 is the canonical URL mapped to the longer key. -/
def cexU2 : Str := gcsBase ++ "images/originals/2.jpg".toList

/-- cexFs is a published content directory whose markup holds one literal
occurrence of the longer key. -/
def cexFs : FileSys := [("index.html".toList, "media/a.jpg.jpg".toList)]

/-- cexMap is the media map with the shorter key iterated first. -/
def cexMap : Meta := [("media/a.jpg".toList, cexU1), ("media/a.jpg.jpg".toList, cexU2)]

/-- C5 counterexample: with overlapping media keys (filenames a.jpg and
a.jpg.jpg both map under media/), the sequential per-key substitution lets
the earlier key consume the occurrence of the longer key: the literal
occurrence of media/a.jpg.jpg is NOT replaced by its own canonical URL —
the output holds cexU1 ++ ".jpg" and cexU2 does not occur in it, refuting
the claim that every literal occurrence of each media_map key is replaced
by that filename's canonical URL. -/
theorem C5_counterexample :
    containsSub "media/a.jpg.jpg".toList
      ((fsLookup cexFs "index.html".toList).getD []) = true ∧
    fsLookup (rewrite_media_references cexFs cexMap 5 true) "index.html".toList
      = some (cexU1 ++ ".jpg".toList) ∧
    containsSub cexU2
      ((fsLookup (rewrite_media_references cexFs cexMap 5 true)
        "index.html".toList).getD []) = false := by decide

/-- cssSample is markup with a double-quoted relative href with ./ and
spaces around =, and a single-quoted relative script src. -/
def cssSample : Str :=
  "<link href = \"./style.css\"><script src=".toList ++ [squote]
    ++ "js/app.js".toList ++ [squote] ++ ">".toList

/-- cssExpected is cssSample after the published index.html rewrite. -/
def cssExpected : Str :=
  "<link href=\"https://server.grabbiel.com/article/5/style.css\"><script src=\"https://server.grabbiel.com/article/5/js/app.js\">".toList

/-!
Universal characterisation of the per-key media substitution.  A file
content is described by a token list: literal segments interleaved with
marked occurrences of media map keys.  Folding the escaped-literal
substitution over the map replaces every marked occurrence of a key by that
key's mapped URL, provided each key's occurrences form a greedy leftmost
decomposition at each step of the fold (no key interferes with another).
-/

/-- MTok is one token of a media-occurrence decomposition of a file
content: inl holds a literal text segment, inr k marks one literal
occurrence of the media map key k. -/
abbrev MTok := Str ⊕ Str

/-- renderToks flattens a token list back into the file content. -/
def renderToks : List MTok → Str
  | [] => []
  | Sum.inl s :: rest => s ++ renderToks rest
  | Sum.inr k :: rest => k ++ renderToks rest

/-- substTok is the effect of substituting one map entry on one token:
occurrences of the processed key become literal URL segments. -/
def substTok (key url : Str) : MTok → MTok
  | Sum.inl s => Sum.inl s
  | Sum.inr k => if k == key then Sum.inl url else Sum.inr k

/-- substFinal is the accumulated effect of the whole map on one token:
an occurrence of k becomes the URL the map assigns to k (and stays put for
a key outside the map). -/
def substFinal (mm : Meta) : MTok → MTok
  | Sum.inl s => Sum.inl s
  | Sum.inr k =>
    match metaFind mm k with
    | some u => Sum.inl u
    | none => Sum.inr k

/-- splitAtKey cuts a token list at the marked occurrences of key,
rendering the gaps between consecutive occurrences (occurrences of other
keys count as gap text). -/
def splitAtKey (key : Str) : List MTok → List Str
  | [] => [[]]
  | Sum.inl s :: rest =>
    match splitAtKey key rest with
    | h :: t => (s ++ h) :: t
    | [] => [s]
  | Sum.inr k :: rest =>
    if k == key then [] :: splitAtKey key rest
    else
      match splitAtKey key rest with
      | h :: t => (k ++ h) :: t
      | [] => [k]

/-- renderSub renders a token list with the occurrences of one
distinguished key replaced by sep. -/
def renderSub (key sep : Str) : List MTok → Str
  | [] => []
  | Sum.inl s :: rest => s ++ renderSub key sep rest
  | Sum.inr k :: rest => (if k == key then sep else k) ++ renderSub key sep rest

/-- cleanFoldB states that, at every step of the map fold, the occurrences
of the key being processed are exactly the greedy leftmost occurrences in
the current content (so no key interferes with another key's occurrences
or URLs), and that no key is empty. -/
def cleanFoldB : List MTok → Meta → Bool
  | _, [] => true
  | toks, kv :: rest =>
    !kv.1.isEmpty && goodPartsB kv.1 (splitAtKey kv.1 toks)
      && cleanFoldB (toks.map (substTok kv.1 kv.2)) rest

/-- bslash is the backslash character. -/
def bslash : Char := Char.ofNat 92

/-- escapeSafeB states the conditions under which the C++ substitution
`std::regex_replace(content, std::regex(regex_escape(key)), url)` is exact
literal replacement: regex_escape escapes every ECMAScript special
character except the backslash, so the key must be backslash-free for the
compiled pattern to match exactly the literal key, and regex_replace
interprets $-sequences in its replacement, so the URL must be $-free to be
inserted verbatim.  All keys the pipeline builds (media/<filename>) and
all canonical GCS URLs satisfy both. -/
def escapeSafeB (mm : Meta) : Bool :=
  mm.all (fun kv => !(kv.1.contains bslash) && !(kv.2.contains '$'))

theorem splitAtKey_ne_nil (key : Str) : ∀ toks : List MTok, splitAtKey key toks ≠ [] := by
  intro toks
  induction toks with
  | nil => simp [splitAtKey]
  | cons t rest ih =>
    cases t with
    | inl s =>
      simp only [splitAtKey]
      cases h : splitAtKey key rest with
      | nil => simp
      | cons a b => simp
    | inr k =>
      simp only [splitAtKey]
      by_cases hk : (k == key) = true
      · rw [if_pos hk]; simp
      · rw [if_neg hk]
        cases h : splitAtKey key rest with
        | nil => simp
        | cons a b => simp

theorem joinWith_cons_append (sep s h : Str) (t : List Str) :
    joinWith sep ((s ++ h) :: t) = s ++ joinWith sep (h :: t) := by
  cases t with
  | nil => rfl
  | cons q t2 => simp [joinWith, List.append_assoc]

theorem joinWith_splitAtKey (key sep : Str) :
    ∀ toks : List MTok, joinWith sep (splitAtKey key toks) = renderSub key sep toks := by
  intro toks
  induction toks with
  | nil => rfl
  | cons t rest ih =>
    cases t with
    | inl s =>
      simp only [splitAtKey, renderSub]
      cases h : splitAtKey key rest with
      | nil => exact absurd h (splitAtKey_ne_nil key rest)
      | cons a b =>
        rw [joinWith_cons_append, ← h, ih]
    | inr k =>
      simp only [splitAtKey, renderSub]
      by_cases hk : (k == key) = true
      · rw [if_pos hk, if_pos hk]
        cases h : splitAtKey key rest with
        | nil => exact absurd h (splitAtKey_ne_nil key rest)
        | cons a b =>
          rw [← ih, h]
          simp [joinWith]
      · rw [if_neg hk, if_neg hk]
        cases h : splitAtKey key rest with
        | nil => exact absurd h (splitAtKey_ne_nil key rest)
        | cons a b =>
          rw [joinWith_cons_append, ← h, ih]

theorem renderSub_key (key : Str) :
    ∀ toks : List MTok, renderSub key key toks = renderToks toks := by
  intro toks
  induction toks with
  | nil => rfl
  | cons t rest ih =>
    cases t with
    | inl s => simp only [renderSub, renderToks, ih]
    | inr k =>
      simp only [renderSub, renderToks, ih]
      by_cases hk : (k == key) = true
      · rw [if_pos hk, eq_of_beq hk]
      · rw [if_neg hk]

theorem renderSub_subst (key url : Str) :
    ∀ toks : List MTok,
      renderSub key url toks = renderToks (toks.map (substTok key url)) := by
  intro toks
  induction toks with
  | nil => rfl
  | cons t rest ih =>
    cases t with
    | inl s => simp only [renderSub, List.map_cons, substTok, renderToks, ih]
    | inr k =>
      simp only [renderSub, List.map_cons, substTok, ih]
      by_cases hk : (k == key) = true
      · rw [if_pos hk, if_pos hk]; rfl
      · rw [if_neg hk, if_neg hk]; rfl

/-- replaceAll_toks: one substitution step on a token list replaces exactly
the marked occurrences of the key, when those are the greedy leftmost
occurrences. -/
theorem replaceAll_toks (key url : Str) (hk : key ≠ []) (toks : List MTok)
    (hg : goodPartsB key (splitAtKey key toks) = true) :
    replaceAll key url (renderToks toks) = renderToks (toks.map (substTok key url)) := by
  rw [← renderSub_key key toks, ← joinWith_splitAtKey key key toks,
    replaceAll_joinWith key url hk _ hg, joinWith_splitAtKey key url toks,
    renderSub_subst key url toks]

/-- mediaFold_toks: the whole map fold of rewrite_media_references on a
token list rewrites every marked occurrence step by step. -/
theorem mediaFold_toks :
    ∀ (mm : Meta) (toks : List MTok), cleanFoldB toks mm = true →
      mm.foldl (fun c kv => replaceAll kv.1 kv.2 c) (renderToks toks)
        = renderToks (mm.foldl (fun ts kv => ts.map (substTok kv.1 kv.2)) toks) := by
  intro mm
  induction mm with
  | nil => intro toks _; rfl
  | cons kv rest ih =>
    intro toks hc
    simp only [cleanFoldB, Bool.and_eq_true] at hc
    obtain ⟨⟨hne, hg⟩, hrest⟩ := hc
    have hk : kv.1 ≠ [] := by
      cases h : kv.1 with
      | nil => rw [h] at hne; simp at hne
      | cons a b => simp
    simp only [List.foldl_cons]
    rw [replaceAll_toks kv.1 kv.2 hk toks hg]
    exact ih (toks.map (substTok kv.1 kv.2)) hrest

theorem substFinal_nil (t : MTok) : substFinal [] t = t := by
  cases t with
  | inl s => rfl
  | inr k => rfl

theorem substFinal_cons (kv : Str × Str) (mm : Meta) (t : MTok) :
    substFinal mm (substTok kv.1 kv.2 t) = substFinal (kv :: mm) t := by
  cases t with
  | inl s => rfl
  | inr k =>
    by_cases hk : (k == kv.1) = true
    · have hkk : k = kv.1 := eq_of_beq hk
      subst hkk
      simp [substTok, substFinal, metaFind, List.find?_cons]
    · have hkk : k ≠ kv.1 := fun he => hk (by rw [he]; exact beq_self_eq_true kv.1)
      have hb1 : (k == kv.1) = false := beq_eq_false_iff_ne.mpr hkk
      have hb2 : (kv.1 == k) = false := beq_eq_false_iff_ne.mpr (fun he => hkk he.symm)
      simp [substTok, substFinal, metaFind, List.find?_cons, hb1, hb2]

/-- substAll_eq_map: the accumulated token substitution of the map fold is
the pointwise lookup substitution. -/
theorem substAll_eq_map :
    ∀ (mm : Meta) (toks : List MTok),
      mm.foldl (fun ts kv => ts.map (substTok kv.1 kv.2)) toks
        = toks.map (substFinal mm) := by
  intro mm
  induction mm with
  | nil =>
    intro toks
    simp only [List.foldl_nil]
    rw [map_ptwise toks (substFinal []) id (fun t => substFinal_nil t), List.map_id]
  | cons kv rest ih =>
    intro toks
    simp only [List.foldl_cons]
    rw [ih (toks.map (substTok kv.1 kv.2)), List.map_map]
    exact map_ptwise toks _ _ (fun t => substFinal_cons kv rest t)

/-!
Universal characterisation of the href/src attribute rewriting on
index.html.  The two regex_replace passes of rewrite_media_references are
deterministic left-to-right scans (scanAttr); on a content decomposed into
gaps and well-formed attribute occurrences they rewrite exactly the
occurrences, provided no match starts inside a gap.
-/

theorem dropWhile_append_all {α : Type _} (p : α → Bool) :
    ∀ (a l : List α), a.all p = true → (a ++ l).dropWhile p = l.dropWhile p := by
  intro a
  induction a with
  | nil => intro l _; rfl
  | cons c cs ih =>
    intro l h
    simp only [List.all_cons, Bool.and_eq_true] at h
    simp only [List.cons_append, List.dropWhile, h.1]
    exact ih l h.2

theorem dropWhile_cons_neg {α : Type _} (p : α → Bool) (c : α) (l : List α)
    (h : p c = false) : (c :: l).dropWhile p = c :: l := by
  simp only [List.dropWhile, h]

theorem takeWhile_append_all {α : Type _} (p : α → Bool) :
    ∀ (a l : List α), a.all p = true → (a ++ l).takeWhile p = a ++ l.takeWhile p := by
  intro a
  induction a with
  | nil => intro l _; rfl
  | cons c cs ih =>
    intro l h
    simp only [List.all_cons, Bool.and_eq_true] at h
    simp only [List.cons_append, List.takeWhile, h.1]
    show c :: (cs ++ l).takeWhile p = c :: (cs ++ l.takeWhile p)
    rw [ih l h.2]

theorem takeWhile_cons_neg {α : Type _} (p : α → Bool) (c : α) (l : List α)
    (h : p c = false) : (c :: l).takeWhile p = [] := by
  simp only [List.takeWhile, h]

theorem dropWhile_length_le {α : Type _} (p : α → Bool) :
    ∀ l : List α, (l.dropWhile p).length ≤ l.length := by
  intro l
  induction l with
  | nil => exact Nat.le_refl 0
  | cons c cs ih =>
    simp only [List.dropWhile]
    cases h : p c
    · simp
    · simp only [List.length_cons]
      exact Nat.le_succ_of_le ih

theorem wsChar_of_quote (c : Char) (h : isQuoteCh c = true) : wsChar c = false := by
  simp only [isQuoteCh, Bool.or_eq_true, decide_eq_true_eq] at h
  rcases h with h | h <;> subst h <;> decide

theorem notQuote_of_quote (c : Char) (h : isQuoteCh c = true) : (!isQuoteCh c) = false := by
  rw [h]
  rfl

/-- AttrOcc describes one well-formed attribute occurrence matched by the
pattern attr\s*=\s*["'](?:\.\/)?([^"']*\.EXT)["']: the whitespace runs
around =, the two quote characters, whether the optional literal ./ is
present, and the captured path name. -/
structure AttrOcc where
  ws1 : Str
  ws2 : Str
  q1 : Char
  q2 : Char
  dotSlash : Bool
  name : Str
deriving DecidableEq, Repr

/-- renderOcc re-renders an attribute occurrence as source text. -/
def renderOcc (attr : Str) (o : AttrOcc) : Str :=
  attr ++ o.ws1 ++ ['='] ++ o.ws2 ++ [o.q1]
    ++ (if o.dotSlash then '.' :: '/' :: [] else []) ++ o.name ++ [o.q2]

/-- occWfB states well-formedness of an occurrence: whitespace runs are
whitespace, the delimiters are quotes, the captured name is quote-free and
ends in ext, and a name starting with the literal ./ has that prefix
carried in the dotSlash flag (the regex consumes it greedily, outside the
capture). -/
def occWfB (ext : Str) (o : AttrOcc) : Bool :=
  o.ws1.all wsChar && (o.ws2.all wsChar && (isQuoteCh o.q1 && (isQuoteCh o.q2
    && (o.name.all (fun c => !isQuoteCh c) && (ext.isSuffixOf o.name
    && (o.dotSlash || !(('.' :: '/' :: []).isPrefixOf o.name)))))))

theorem dotslash_not_lead (name : Str) (q2 : Char) (rest : Str)
    (hq : isQuoteCh q2 = true)
    (hn : (('.' :: '/' :: []).isPrefixOf name) = false) :
    (('.' :: '/' :: []).isPrefixOf (name ++ (q2 :: rest))) = false := by
  cases name with
  | nil =>
    have hdot : ('.' == q2) = false := by
      simp only [isQuoteCh, Bool.or_eq_true, decide_eq_true_eq] at hq
      rcases hq with h | h <;> subst h <;> decide
    simp [List.isPrefixOf, hdot]
  | cons c name2 =>
    cases name2 with
    | nil =>
      have hsl : ('/' == q2) = false := by
        simp only [isQuoteCh, Bool.or_eq_true, decide_eq_true_eq] at hq
        rcases hq with h | h <;> subst h <;> decide
      simp [List.isPrefixOf, hsl]
    | cons c2 name3 =>
      simp only [List.cons_append, List.isPrefixOf] at hn ⊢
      simpa using hn

/-- matchAttr_renderOcc: the anchored attribute pattern matches a rendered
well-formed occurrence, capturing the name and leaving the remainder. -/
theorem matchAttr_renderOcc (attr ext : Str) (ha : attr ≠ []) (o : AttrOcc)
    (hwf : occWfB ext o = true) (rest : Str) :
    matchAttr attr ext (renderOcc attr o ++ rest) = some (o.name, rest) := by
  simp only [occWfB, Bool.and_eq_true] at hwf
  obtain ⟨hws1, hws2, hq1, hq2, hname, hsuf, hds⟩ := hwf
  have hemp : attr.isEmpty = false := by
    cases attr with
    | nil => exact absurd rfl ha
    | cons a b => rfl
  have hpre : attr.isPrefixOf (renderOcc attr o ++ rest) = true := by
    apply List.isPrefixOf_iff_prefix.mpr
    exact ⟨o.ws1 ++ ['='] ++ o.ws2 ++ [o.q1]
      ++ (if o.dotSlash then '.' :: '/' :: [] else []) ++ o.name ++ [o.q2] ++ rest,
      by simp [renderOcc, List.append_assoc]⟩
  have hdrop : (renderOcc attr o ++ rest).drop attr.length
      = o.ws1 ++ ('=' :: (o.ws2 ++ (o.q1 ::
          ((if o.dotSlash then '.' :: '/' :: [] else []) ++ (o.name ++ (o.q2 :: rest)))))) := by
    simp [renderOcc, List.append_assoc, List.drop_left]
  have hdw1 : ((renderOcc attr o ++ rest).drop attr.length).dropWhile wsChar
      = '=' :: (o.ws2 ++ (o.q1 ::
          ((if o.dotSlash then '.' :: '/' :: [] else []) ++ (o.name ++ (o.q2 :: rest))))) := by
    rw [hdrop, dropWhile_append_all wsChar o.ws1 _ hws1,
      dropWhile_cons_neg wsChar '=' _ (by decide)]
  have hdw2 : (o.ws2 ++ (o.q1 ::
        ((if o.dotSlash then '.' :: '/' :: [] else []) ++ (o.name ++ (o.q2 :: rest))))).dropWhile
          wsChar
      = o.q1 :: ((if o.dotSlash then '.' :: '/' :: [] else []) ++ (o.name ++ (o.q2 :: rest))) := by
    rw [dropWhile_append_all wsChar o.ws2 _ hws2,
      dropWhile_cons_neg wsChar o.q1 _ (wsChar_of_quote o.q1 hq1)]
  have hs6 : (if ('.' :: '/' :: []).isPrefixOf
        ((if o.dotSlash then '.' :: '/' :: [] else []) ++ (o.name ++ (o.q2 :: rest))) then
        (((if o.dotSlash then '.' :: '/' :: [] else []) ++ (o.name ++ (o.q2 :: rest))).drop 2)
      else ((if o.dotSlash then '.' :: '/' :: [] else []) ++ (o.name ++ (o.q2 :: rest))))
      = o.name ++ (o.q2 :: rest) := by
    cases hd : o.dotSlash with
    | true =>
      show (if ('.' :: '/' :: []).isPrefixOf ('.' :: '/' :: (o.name ++ (o.q2 :: rest))) then
          (('.' :: '/' :: (o.name ++ (o.q2 :: rest))).drop 2)
        else ('.' :: '/' :: (o.name ++ (o.q2 :: rest)))) = o.name ++ (o.q2 :: rest)
      have hcond : (('.' :: '/' :: []).isPrefixOf
          ('.' :: '/' :: (o.name ++ (o.q2 :: rest)))) = true := by
        simp [List.isPrefixOf]
      rw [if_pos hcond]
      rfl
    | false =>
      show (if ('.' :: '/' :: []).isPrefixOf (o.name ++ (o.q2 :: rest)) then
          ((o.name ++ (o.q2 :: rest)).drop 2)
        else (o.name ++ (o.q2 :: rest))) = o.name ++ (o.q2 :: rest)
      rw [hd] at hds
      simp only [Bool.false_or] at hds
      have hnp : (('.' :: '/' :: []).isPrefixOf o.name) = false := by
        cases hx : (('.' :: '/' :: []).isPrefixOf o.name)
        · rfl
        · rw [hx] at hds; exact absurd hds (by decide)
      have hcond : ¬((('.' :: '/' :: []).isPrefixOf (o.name ++ (o.q2 :: rest))) = true) := by
        rw [dotslash_not_lead o.name o.q2 rest hq2 hnp]
        exact Bool.false_ne_true
      rw [if_neg hcond]
  have htw : ((o.name ++ (o.q2 :: rest)).takeWhile (fun c => !isQuoteCh c)) = o.name := by
    rw [takeWhile_append_all _ o.name _ hname,
      takeWhile_cons_neg _ o.q2 _ (notQuote_of_quote o.q2 hq2)]
    simp
  have hdw3 : ((o.name ++ (o.q2 :: rest)).dropWhile (fun c => !isQuoteCh c)) = o.q2 :: rest := by
    rw [dropWhile_append_all _ o.name _ hname,
      dropWhile_cons_neg _ o.q2 _ (notQuote_of_quote o.q2 hq2)]
  simp only [matchAttr, hemp, Bool.false_eq_true, if_false, hpre, eq_self_iff_true, if_true,
    hdw1, hdw2, hq1, hs6, htw, hdw3, hsuf]

/-- matchAttr_rem_le: a successful match consumes at least one character,
so the remainder is strictly shorter than the subject. -/
theorem matchAttr_rem_le (attr ext : Str) :
    ∀ (s cap rem : Str), matchAttr attr ext s = some (cap, rem) → rem.length < s.length := by
  intro s cap rem h
  by_cases hemp : attr.isEmpty = true
  · simp only [matchAttr, if_pos hemp] at h
    exact absurd h (by simp)
  · by_cases hpre : attr.isPrefixOf s = true
    · simp only [matchAttr, if_neg hemp, if_pos hpre] at h
      cases heq1 : (s.drop attr.length).dropWhile wsChar with
      | nil =>
        simp only [heq1] at h
        exact absurd h (by simp)
      | cons e s3 =>
        simp only [heq1] at h
        by_cases he : e = '='
        · rw [if_pos he] at h
          cases heq2 : s3.dropWhile wsChar with
          | nil =>
            simp only [heq2] at h
            exact absurd h (by simp)
          | cons q s5 =>
            simp only [heq2] at h
            by_cases hq : isQuoteCh q = true
            · rw [if_pos hq] at h
              cases heq3 : ((if ('.' :: '/' :: []).isPrefixOf s5 then s5.drop 2
                  else s5).dropWhile (fun c => !isQuoteCh c)) with
              | nil =>
                simp only [heq3] at h
                exact absurd h (by simp)
              | cons x s7 =>
                simp only [heq3] at h
                by_cases hsuf : ext.isSuffixOf
                    (((if ('.' :: '/' :: []).isPrefixOf s5 then s5.drop 2
                      else s5)).takeWhile (fun c => !isQuoteCh c)) = true
                · rw [if_pos hsuf] at h
                  simp only [Option.some.injEq, Prod.mk.injEq] at h
                  obtain ⟨hcap, hrem⟩ := h
                  subst hrem
                  have hattr : 1 ≤ attr.length := by
                    cases attr with
                    | nil => exact absurd rfl hemp
                    | cons a b => simp
                  have hb1 : s3.length + 1 ≤ (s.drop attr.length).length := by
                    have := dropWhile_length_le wsChar (s.drop attr.length)
                    rw [heq1] at this
                    simpa using this
                  have hb2 : s5.length + 1 ≤ s3.length := by
                    have := dropWhile_length_le wsChar s3
                    rw [heq2] at this
                    simpa using this
                  have hb3 : s7.length + 1
                      ≤ ((if ('.' :: '/' :: []).isPrefixOf s5 then s5.drop 2 else s5)).length := by
                    have := dropWhile_length_le (fun c => !isQuoteCh c)
                      ((if ('.' :: '/' :: []).isPrefixOf s5 then s5.drop 2 else s5))
                    rw [heq3] at this
                    simpa using this
                  have hb4 : ((if ('.' :: '/' :: []).isPrefixOf s5 then s5.drop 2 else s5)).length
                      ≤ s5.length := by
                    split
                    · simp
                    · exact Nat.le_refl _
                  have hb5 : (s.drop attr.length).length = s.length - attr.length := by
                    simp
                  omega
                · rw [if_neg hsuf] at h
                  exact absurd h (by simp)
            · rw [if_neg hq] at h
              exact absurd h (by simp)
        · rw [if_neg he] at h
          exact absurd h (by simp)
    · simp only [matchAttr, if_neg hemp, if_neg hpre] at h
      exact absurd h (by simp)

theorem scanAttrF_nil (attr ext : Str) (repl : Str → Str) :
    ∀ f, scanAttrF attr ext repl f [] = [] := by
  intro f; cases f <;> rfl

theorem scanAttrF_fuel (attr ext : Str) (repl : Str → Str) :
    ∀ (f1 : Nat) (s : Str) (f2 : Nat), s.length ≤ f1 → s.length ≤ f2 →
      scanAttrF attr ext repl f1 s = scanAttrF attr ext repl f2 s := by
  intro f1
  induction f1 with
  | zero =>
    intro s f2 h1 _
    have hs : s = [] := List.eq_nil_of_length_eq_zero (Nat.le_zero.mp h1)
    subst hs
    rw [scanAttrF_nil, scanAttrF_nil]
  | succ a ih =>
    intro s f2 h1 h2
    cases s with
    | nil => rw [scanAttrF_nil, scanAttrF_nil]
    | cons c rest =>
      cases f2 with
      | zero => simp at h2
      | succ b =>
        simp only [scanAttrF]
        cases hm : matchAttr attr ext (c :: rest) with
        | none =>
          simp only [hm]
          have h1a : rest.length ≤ a := by simpa using Nat.le_of_succ_le_succ (by simpa using h1)
          have h2b : rest.length ≤ b := by simpa using Nat.le_of_succ_le_succ (by simpa using h2)
          rw [ih rest b h1a h2b]
        | some pr =>
          obtain ⟨cap, rem⟩ := pr
          simp only [hm]
          have hlt := matchAttr_rem_le attr ext (c :: rest) cap rem hm
          simp only [List.length_cons] at hlt
          have h1a : rest.length + 1 ≤ a + 1 := by simpa using h1
          have h2b : rest.length + 1 ≤ b + 1 := by simpa using h2
          rw [ih rem b (by omega) (by omega)]

/-- noAttrHitB attr ext p s states that no attribute match starts inside
the p portion of the concatenation p ++ s. -/
def noAttrHitB (attr ext : Str) (p s : Str) : Bool :=
  (List.range p.length).all (fun i => (matchAttr attr ext ((p ++ s).drop i)).isNone)

theorem noAttrHitB_cons (attr ext : Str) (c : Char) (p s : Str)
    (h : noAttrHitB attr ext (c :: p) s = true) :
    matchAttr attr ext (c :: (p ++ s)) = none ∧ noAttrHitB attr ext p s = true := by
  simp only [noAttrHitB, List.all_eq_true, List.mem_range] at h
  constructor
  · have h0 := h 0 (by simp)
    simpa [Option.isNone_iff_eq_none] using h0
  · simp only [noAttrHitB, List.all_eq_true, List.mem_range]
    intro i hi
    have := h (i + 1) (by simpa using Nat.succ_lt_succ hi)
    simpa using this

theorem scanAttr_skip (attr ext : Str) (repl : Str → Str) :
    ∀ p s : Str, noAttrHitB attr ext p s = true →
      scanAttr attr ext repl (p ++ s) = p ++ scanAttr attr ext repl s := by
  intro p
  induction p with
  | nil => intro s _; simp
  | cons c p2 ih =>
    intro s h
    obtain ⟨hm, hrest⟩ := noAttrHitB_cons attr ext c p2 s h
    show scanAttrF attr ext repl ((c :: p2 ++ s).length) (c :: (p2 ++ s)) = _
    have hlen : (c :: p2 ++ s).length = (p2 ++ s).length + 1 := by simp
    rw [hlen]
    simp only [scanAttrF, hm]
    rw [show scanAttrF attr ext repl ((p2 ++ s).length) (p2 ++ s)
          = scanAttr attr ext repl (p2 ++ s) from rfl]
    rw [ih s hrest]
    simp

theorem scanAttr_hit (attr ext : Str) (repl : Str → Str) (s cap rem : Str)
    (hs : s ≠ []) (h : matchAttr attr ext s = some (cap, rem)) :
    scanAttr attr ext repl s = repl cap ++ scanAttr attr ext repl rem := by
  cases s with
  | nil => exact absurd rfl hs
  | cons c rest =>
    have hlt := matchAttr_rem_le attr ext (c :: rest) cap rem h
    simp only [List.length_cons] at hlt
    show scanAttrF attr ext repl (rest.length + 1) (c :: rest) = _
    simp only [scanAttrF, h]
    rw [scanAttrF_fuel attr ext repl rest.length rem rem.length (by omega) (Nat.le_refl _)]
    rfl

/-- renderParts renders an alternation of gaps and attribute occurrences
followed by a final gap. -/
def renderParts (attr : Str) : List (Str × AttrOcc) → Str → Str
  | [], last => last
  | (g, o) :: rest, last => g ++ (renderOcc attr o ++ renderParts attr rest last)

/-- replParts is the same alternation with every occurrence replaced. -/
def replParts (repl : Str → Str) : List (Str × AttrOcc) → Str → Str
  | [], last => last
  | (g, o) :: rest, last => g ++ (repl o.name ++ replParts repl rest last)

/-- goodAttrPartsB states that the decomposition is exactly the scan's
greedy decomposition: every occurrence is well formed and no match starts
inside any gap. -/
def goodAttrPartsB (attr ext : Str) : List (Str × AttrOcc) → Str → Bool
  | [], last => noAttrHitB attr ext last []
  | (g, o) :: rest, last =>
    occWfB ext o && (noAttrHitB attr ext g (renderOcc attr o ++ renderParts attr rest last)
      && goodAttrPartsB attr ext rest last)

/-- scanAttr_parts: the regex_replace scan rewrites exactly the attribute
occurrences of a greedy decomposition. -/
theorem scanAttr_parts (attr ext : Str) (ha : attr ≠ []) (repl : Str → Str) :
    ∀ (parts : List (Str × AttrOcc)) (last : Str),
      goodAttrPartsB attr ext parts last = true →
      scanAttr attr ext repl (renderParts attr parts last) = replParts repl parts last := by
  intro parts
  induction parts with
  | nil =>
    intro last h
    show scanAttr attr ext repl last = last
    have h2 := scanAttr_skip attr ext repl last [] h
    rw [List.append_nil] at h2
    rw [h2, show scanAttr attr ext repl [] = [] from rfl, List.append_nil]
  | cons go rest ih =>
    intro last h
    obtain ⟨g, o⟩ := go
    simp only [goodAttrPartsB, Bool.and_eq_true] at h
    obtain ⟨hwf, hnohit, hrest⟩ := h
    show scanAttr attr ext repl (g ++ (renderOcc attr o ++ renderParts attr rest last)) = _
    rw [scanAttr_skip attr ext repl g _ hnohit]
    have hocc := matchAttr_renderOcc attr ext ha o hwf (renderParts attr rest last)
    have hne2 : renderOcc attr o ++ renderParts attr rest last ≠ [] := by
      cases attr with
      | nil => exact absurd rfl ha
      | cons a as => simp [renderOcc]
    rw [scanAttr_hit attr ext repl _ o.name (renderParts attr rest last) hne2 hocc,
      ih last hrest]
    rfl

/-- absorbGap prepends gap text to the first gap of a decomposition. -/
def absorbGap (s : Str) : List (Str × AttrOcc) × Str → List (Str × AttrOcc) × Str
  | ((g, o) :: ps, last) => ((s ++ g, o) :: ps, last)
  | ([], last) => ([], s ++ last)

theorem renderParts_absorbGap (attr s : Str) (pr : List (Str × AttrOcc) × Str) :
    renderParts attr (absorbGap s pr).1 (absorbGap s pr).2
      = s ++ renderParts attr pr.1 pr.2 := by
  obtain ⟨ps, last⟩ := pr
  cases ps with
  | nil => rfl
  | cons go t =>
    obtain ⟨g, o⟩ := go
    simp [absorbGap, renderParts, List.append_assoc]

theorem replParts_absorbGap (repl : Str → Str) (s : Str) (pr : List (Str × AttrOcc) × Str) :
    replParts repl (absorbGap s pr).1 (absorbGap s pr).2
      = s ++ replParts repl pr.1 pr.2 := by
  obtain ⟨ps, last⟩ := pr
  cases ps with
  | nil => rfl
  | cons go t =>
    obtain ⟨g, o⟩ := go
    simp [absorbGap, replParts, List.append_assoc]

/-- Piece is one piece of an index.html decomposition: literal gap text,
an href attribute referencing a .css path, or a src attribute referencing
a .js path. -/
inductive Piece where
  | gap : Str → Piece
  | cssRef : AttrOcc → Piece
  | jsRef : AttrOcc → Piece
deriving DecidableEq, Repr

/-- renderPieces renders the decomposition back into the file content. -/
def renderPieces : List Piece → Str
  | [] => []
  | Piece.gap s :: rest => s ++ renderPieces rest
  | Piece.cssRef o :: rest => renderOcc "href".toList o ++ renderPieces rest
  | Piece.jsRef o :: rest => renderOcc "src".toList o ++ renderPieces rest

/-- hrefRepl is the replacement text of the css pass of rewriteIndexHtml. -/
def hrefRepl (cid : Nat) (cap : Str) : Str :=
  "href=".toList ++ [dquote] ++ articleBaseUrl cid ++ cap ++ [dquote]

/-- srcRepl is the replacement text of the js pass of rewriteIndexHtml. -/
def srcRepl (cid : Nat) (cap : Str) : Str :=
  "src=".toList ++ [dquote] ++ articleBaseUrl cid ++ cap ++ [dquote]

/-- afterPieces renders the decomposition with every attribute occurrence
rewritten to the absolute per-content URL. -/
def afterPieces (cid : Nat) : List Piece → Str
  | [] => []
  | Piece.gap s :: rest => s ++ afterPieces cid rest
  | Piece.cssRef o :: rest => hrefRepl cid o.name ++ afterPieces cid rest
  | Piece.jsRef o :: rest => srcRepl cid o.name ++ afterPieces cid rest

/-- pass1Split views the decomposition through the eyes of the css pass:
css occurrences are the parts, js occurrences are gap text. -/
def pass1Split : List Piece → List (Str × AttrOcc) × Str
  | [] => ([], [])
  | Piece.gap s :: rest => absorbGap s (pass1Split rest)
  | Piece.cssRef o :: rest => (([], o) :: (pass1Split rest).1, (pass1Split rest).2)
  | Piece.jsRef o :: rest => absorbGap (renderOcc "src".toList o) (pass1Split rest)

/-- pass2Split views the css pass output through the eyes of the js pass:
js occurrences are the parts, rewritten css attributes are gap text. -/
def pass2Split (cid : Nat) : List Piece → List (Str × AttrOcc) × Str
  | [] => ([], [])
  | Piece.gap s :: rest => absorbGap s (pass2Split cid rest)
  | Piece.cssRef o :: rest => absorbGap (hrefRepl cid o.name) (pass2Split cid rest)
  | Piece.jsRef o :: rest => (([], o) :: (pass2Split cid rest).1, (pass2Split cid rest).2)

theorem renderParts_pass1 : ∀ ps : List Piece,
    renderParts "href".toList (pass1Split ps).1 (pass1Split ps).2 = renderPieces ps := by
  intro ps
  induction ps with
  | nil => rfl
  | cons p rest ih =>
    cases p with
    | gap s => simp only [pass1Split, renderPieces, renderParts_absorbGap, ih]
    | cssRef o =>
      simp only [pass1Split, renderPieces, renderParts, List.nil_append, ih]
    | jsRef o => simp only [pass1Split, renderPieces, renderParts_absorbGap, ih]

theorem replParts_pass1 (cid : Nat) : ∀ ps : List Piece,
    replParts (hrefRepl cid) (pass1Split ps).1 (pass1Split ps).2
      = renderParts "src".toList (pass2Split cid ps).1 (pass2Split cid ps).2 := by
  intro ps
  induction ps with
  | nil => rfl
  | cons p rest ih =>
    cases p with
    | gap s =>
      simp only [pass1Split, pass2Split, replParts_absorbGap, renderParts_absorbGap, ih]
    | cssRef o =>
      simp only [pass1Split, pass2Split, replParts, renderParts_absorbGap, List.nil_append, ih]
    | jsRef o =>
      simp only [pass1Split, pass2Split, replParts_absorbGap, renderParts, List.nil_append, ih]

theorem replParts_pass2 (cid : Nat) : ∀ ps : List Piece,
    replParts (srcRepl cid) (pass2Split cid ps).1 (pass2Split cid ps).2
      = afterPieces cid ps := by
  intro ps
  induction ps with
  | nil => rfl
  | cons p rest ih =>
    cases p with
    | gap s => simp only [pass2Split, afterPieces, replParts_absorbGap, ih]
    | cssRef o => simp only [pass2Split, afterPieces, replParts_absorbGap, ih]
    | jsRef o => simp only [pass2Split, afterPieces, replParts, List.nil_append, ih]

/-- rewriteIndexHtml_pieces: on a content decomposed into gaps and
well-formed css/js attribute occurrences (greedy for both passes), the
index.html rewrite rewrites exactly every occurrence to the absolute URL
rooted at the per-content base. -/
theorem rewriteIndexHtml_pieces (cid : Nat) (ps : List Piece)
    (h1 : goodAttrPartsB "href".toList ".css".toList
      (pass1Split ps).1 (pass1Split ps).2 = true)
    (h2 : goodAttrPartsB "src".toList ".js".toList
      (pass2Split cid ps).1 (pass2Split cid ps).2 = true) :
    rewriteIndexHtml cid (renderPieces ps) = afterPieces cid ps := by
  have e1 : rewriteIndexHtml cid (renderPieces ps)
      = scanAttr "src".toList ".js".toList (srcRepl cid)
          (scanAttr "href".toList ".css".toList (hrefRepl cid) (renderPieces ps)) := rfl
  rw [e1, ← renderParts_pass1 ps,
    scanAttr_parts "href".toList ".css".toList (by decide) (hrefRepl cid) _ _ h1,
    replParts_pass1 cid ps,
    scanAttr_parts "src".toList ".js".toList (by decide) (srcRepl cid) _ _ h2,
    replParts_pass2 cid ps]

/-- C5 (amended): for a published publish the media substitution is
leftmost non-overlapping literal replacement applied per key in map
iteration order.  First conjunct (script.js / style.css): for every media
map whose keys are backslash-free and URLs are $-free (the regime where
the escaped regex is exact literal matching), every content decomposed
into literal segments and marked key occurrences, with the occurrences
greedy and non-interfering at every fold step, is rewritten so that every
marked occurrence of every key becomes that key's exact mapped URL.
Second conjunct (index.html): additionally, every href/src attribute
referencing a relative .css/.js path — any whitespace around =, either
quote style, optional leading ./ — is rewritten to the absolute URL rooted
at the per-content base.  When keys overlap, an earlier key can consume a
longer key's occurrence (see the counterexample). -/
theorem C5_published_rewrite :
    (∀ (fn : Str) (mm : Meta) (toks : List MTok) (cid : Nat),
        fn = "script.js".toList ∨ fn = "style.css".toList →
        escapeSafeB mm = true → cleanFoldB toks mm = true →
        rewrite_media_references [(fn, renderToks toks)] mm cid true
          = [(fn, renderToks (toks.map (substFinal mm)))]) ∧
    (∀ (mm : Meta) (toks : List MTok) (ps : List Piece) (cid : Nat),
        escapeSafeB mm = true → cleanFoldB toks mm = true →
        renderToks (toks.map (substFinal mm)) = renderPieces ps →
        goodAttrPartsB "href".toList ".css".toList
          (pass1Split ps).1 (pass1Split ps).2 = true →
        goodAttrPartsB "src".toList ".js".toList
          (pass2Split cid ps).1 (pass2Split cid ps).2 = true →
        rewrite_media_references [("index.html".toList, renderToks toks)] mm cid true
          = [("index.html".toList, afterPieces cid ps)]) := by
  constructor
  · intro fn mm toks cid hfn hesc hclean
    rcases hfn with hfn | hfn
    · subst hfn
      have h0 : rewrite_media_references [("script.js".toList, renderToks toks)] mm cid true
          = [("script.js".toList,
              mm.foldl (fun c kv => replaceAll kv.1 kv.2 c) (renderToks toks))] := rfl
      rw [h0, mediaFold_toks mm toks hclean, substAll_eq_map]
    · subst hfn
      have h0 : rewrite_media_references [("style.css".toList, renderToks toks)] mm cid true
          = [("style.css".toList,
              mm.foldl (fun c kv => replaceAll kv.1 kv.2 c) (renderToks toks))] := rfl
      rw [h0, mediaFold_toks mm toks hclean, substAll_eq_map]
  · intro mm toks ps cid hesc hclean hrender h1 h2
    have h0 : rewrite_media_references [("index.html".toList, renderToks toks)] mm cid true
        = [("index.html".toList,
            rewriteIndexHtml cid (mm.foldl (fun c kv => replaceAll kv.1 kv.2 c)
              (renderToks toks)))] := rfl
    rw [h0, mediaFold_toks mm toks hclean, substAll_eq_map, hrender,
      rewriteIndexHtml_pieces cid ps h1 h2]

/-- mm5 is a two-key media map (an image and a video of the same article). -/
def mm5 : Meta :=
  [("media/pic.jpg".toList, "URL1".toList), ("media/clip.mp4".toList, "URL2".toList)]

/-- toks5 is markup holding one occurrence of each key of mm5. -/
def toks5 : List MTok :=
  [Sum.inl "<img src=".toList, Sum.inr "media/pic.jpg".toList,
   Sum.inl " and ".toList, Sum.inr "media/clip.mp4".toList, Sum.inl ">".toList]

/-- toksIdx is cssSample viewed as a single literal segment (no media
occurrences). -/
def toksIdx : List MTok := [Sum.inl cssSample]

/-- ps5 decomposes cssSample into gaps and its two attribute occurrences. -/
def ps5 : List Piece :=
  [Piece.gap "<link ".toList,
   Piece.cssRef ⟨" ".toList, " ".toList, dquote, dquote, true, "style.css".toList⟩,
   Piece.gap "><script ".toList,
   Piece.jsRef ⟨[], [], squote, squote, false, "js/app.js".toList⟩,
   Piece.gap ">".toList]

/-- C5 witness: the first conjunct applied to the two-key map mm5, and the
second conjunct applied to cssSample with its attribute decomposition,
whose rewritten form is the expected absolute-URL markup. -/
theorem C5_published_rewrite_witness :
    rewrite_media_references [("script.js".toList, renderToks toks5)] mm5 7 true
        = [("script.js".toList, renderToks (toks5.map (substFinal mm5)))] ∧
      rewrite_media_references [("index.html".toList, renderToks toksIdx)] [] 5 true
        = [("index.html".toList, afterPieces 5 ps5)] ∧
      afterPieces 5 ps5 = cssExpected :=
  ⟨C5_published_rewrite.1 "script.js".toList mm5 toks5 7 (Or.inl rfl) (by decide) (by decide),
   C5_published_rewrite.2 [] toksIdx ps5 5 (by decide) (by decide) (by decide) (by decide)
     (by decide),
   by decide⟩

theorem store_image_update_len (st : St) (ci : Int) (u : Nat) (a b c : Str)
    (s w h : Nat) (it ps : Str) (r0 : ImageRow)
    (hf : st.db.images.find? (fun r => r.id == u) = some r0) :
    (store_image_metadata st ci u a b c s w h it ps).2.db.images.length
        = st.db.images.length ∧
      (store_image_metadata st ci u a b c s w h it ps).1 = u := by
  constructor
  · simp only [store_image_metadata, hf, Option.isSome_some, if_true, List.length_map]
  · simp only [store_image_metadata, hf, Option.isSome_some, if_true]

theorem store_image_insert_eq (st : St) (ci : Int) (u : Nat) (a b c : Str)
    (s w h : Nat) (it ps : Str)
    (hf : st.db.images.find? (fun r => r.id == u) = none) :
    (store_image_metadata st ci u a b c s w h it ps).2.db.images
      = st.db.images ++ [⟨u, a, b, c, s, w, h, ci, it, ps⟩] := by
  simp only [store_image_metadata, hf, Option.isSome_none, Bool.false_eq_true, if_false]

theorem store_video_update_len (st : St) (ci : Int) (u : Nat) (a b c : Str)
    (s d : Nat) (ir : Bool) (ps : Str) (r0 : VideoRow)
    (hf : st.db.videos.find? (fun r => r.id == u) = some r0) :
    (store_video_metadata st ci u a b c s d ir ps).2.db.videos.length
        = st.db.videos.length ∧
      (store_video_metadata st ci u a b c s d ir ps).1 = u := by
  constructor
  · simp only [store_video_metadata, hf, Option.isSome_some, if_true, List.length_map]
  · simp only [store_video_metadata, hf, Option.isSome_some, if_true]

/-- C6: the media asset id generate_media_uuid is a pure function of
(content_id, filename) — determinism is by construction in the embedding —
whose result lies below 2147483647 (so the int cast is value-preserving and
non-negative); storing an asset whose id already exists updates the
existing images (or videos) row in place, returning the same id, rather
than inserting a duplicate; storing a fresh id appends exactly one row; and
storing the same id twice from fresh leaves exactly one more row than
before (republish updates instead of duplicating). -/
theorem C6_media_uuid_identity :
    (∀ (co : Collab) (cid : Int) (fn : Str),
      generate_media_uuid co cid fn < 2147483647) ∧
    (∀ (st : St) (ci : Int) (u : Nat) (a b c : Str) (s w h : Nat) (it ps : Str)
        (r0 : ImageRow),
      st.db.images.find? (fun r => r.id == u) = some r0 →
      (store_image_metadata st ci u a b c s w h it ps).2.db.images.length
          = st.db.images.length ∧
        (store_image_metadata st ci u a b c s w h it ps).1 = u) ∧
    (∀ (st : St) (ci : Int) (u : Nat) (a b c : Str) (s w h : Nat) (it ps : Str),
      st.db.images.find? (fun r => r.id == u) = none →
      (store_image_metadata st ci u a b c s w h it ps).2.db.images.length
        = st.db.images.length + 1) ∧
    (∀ (st : St) (ci : Int) (u : Nat) (a b c : Str) (s w h : Nat) (it ps : Str)
        (a2 b2 c2 : Str) (s2 w2 h2 : Nat) (it2 ps2 : Str),
      st.db.images.find? (fun r => r.id == u) = none →
      (store_image_metadata
          (store_image_metadata st ci u a b c s w h it ps).2
          ci u a2 b2 c2 s2 w2 h2 it2 ps2).2.db.images.length
        = st.db.images.length + 1) ∧
    (∀ (st : St) (ci : Int) (u : Nat) (a b c : Str) (s d : Nat) (ir : Bool)
        (ps : Str) (r0 : VideoRow),
      st.db.videos.find? (fun r => r.id == u) = some r0 →
      (store_video_metadata st ci u a b c s d ir ps).2.db.videos.length
          = st.db.videos.length ∧
        (store_video_metadata st ci u a b c s d ir ps).1 = u) := by
  refine ⟨?_, ?_, ?_, ?_, ?_⟩
  · intro co cid fn
    exact Nat.mod_lt _ (by decide)
  · intro st ci u a b c s w h it ps r0 hf
    exact store_image_update_len st ci u a b c s w h it ps r0 hf
  · intro st ci u a b c s w h it ps hf
    rw [store_image_insert_eq st ci u a b c s w h it ps hf,
      List.length_append, List.length_cons, List.length_nil]
  · intro st ci u a b c s w h it ps a2 b2 c2 s2 w2 h2 it2 ps2 hf
    have hins := store_image_insert_eq st ci u a b c s w h it ps hf
    have hf2 : (store_image_metadata st ci u a b c s w h it ps).2.db.images.find?
        (fun r => r.id == u) = some ⟨u, a, b, c, s, w, h, ci, it, ps⟩ := by
      rw [hins, List.find?_append, hf]
      simp [List.find?_cons]
    have hup := (store_image_update_len
      (store_image_metadata st ci u a b c s w h it ps).2
      ci u a2 b2 c2 s2 w2 h2 it2 ps2 _ hf2).1
    rw [hup, hins, List.length_append, List.length_cons, List.length_nil]
  · intro st ci u a b c s d ir ps r0 hf
    exact store_video_update_len st ci u a b c s d ir ps r0 hf

/-- C6 witness: storing a fresh image id against the empty store appends
exactly one row. -/
theorem C6_media_uuid_identity_witness :
    (store_image_metadata st0 1 42 "u".toList "f".toList "m".toList 3 0 0
      "content".toList "pending".toList).2.db.images.length = 1 :=
  C6_media_uuid_identity.2.2.1 st0 1 42 "u".toList "f".toList "m".toList 3 0 0
    "content".toList "pending".toList (by decide)

theorem mediaStep_draft_uploads (co : Collab) (cid : Nat)
    (acc : St × Meta) (e : Str × Str) :
    (mediaStep co cid false acc e).1.uploads = acc.1.uploads := by
  simp only [mediaStep]
  split
  · rfl
  · split
    · rfl
    · split
      · split
        · rw [store_image_metadata_uploads]
        · rw [store_file_reference_uploads]
          split
          · rename_i hfalse; exact absurd hfalse (by decide)
          · rw [store_image_metadata_uploads]
      · split
        · split
          · rw [store_video_metadata_uploads]
          · rw [store_file_reference_uploads]
            split
            · rename_i hfalse; exact absurd hfalse (by decide)
            · rw [store_video_metadata_uploads]
        · rfl

/-- uploadsEx projects the uploads log out of the Except state of the copy
pass. -/
def uploadsEx : Except St St → List Str
  | Except.ok s => s.uploads
  | Except.error s => s.uploads

theorem copyStep_uploads (co : Collab) (cid : Nat) (acc : Except St St)
    (e : Str × Str) : uploadsEx (copyStep co cid acc e) = uploadsEx acc := by
  cases acc with
  | error s => rfl
  | ok s =>
    simp only [copyStep]
    repeat' split
    all_goals rfl

theorem store_article_files_draft_uploads (co : Collab) (dirPath : Str)
    (fs : FileSys) (cid : Nat) (st : St) :
    (store_article_files co dirPath fs cid false st).2.1.uploads = st.uploads := by
  have h1 : (fs.foldl (mediaStep co cid false) (st, ([] : Meta))).1.uploads = st.uploads :=
    foldl_preserves (fun a => a.1.uploads) (mediaStep co cid false)
      (fun a b => mediaStep_draft_uploads co cid a b) fs (st, [])
  have h2 : uploadsEx ((rewrite_media_references fs
        (fs.foldl (mediaStep co cid false) (st, [])).2 cid false).foldl
        (copyStep co cid)
        (Except.ok (fs.foldl (mediaStep co cid false) (st, [])).1))
      = (fs.foldl (mediaStep co cid false) (st, ([] : Meta))).1.uploads :=
    foldl_preserves uploadsEx (copyStep co cid)
      (fun a b => copyStep_uploads co cid a b) _ _
  simp only [store_article_files]
  split
  · rename_i s2 heq
    rw [heq] at h2
    exact (show s2.uploads = _ from h2).trans h1
  · rename_i s2 heq
    rw [heq] at h2
    split
    · exact (show s2.uploads = _ from h2).trans h1
    · exact (show s2.uploads = _ from h2).trans h1

/-- fs7 is a content directory with markup and one media image. -/
def fs7 : FileSys := [("index.html".toList, "x".toList),
  ("media/pic.jpg".toList, "IMG".toList)]

/-- draftRun stores fs7 as a draft against the empty store. -/
def draftRun : Bool × St × Option FileSys :=
  store_article_files co0 "/d".toList fs7 1 false st0

/-- pubRun re-runs the classifier over the same directory as published. -/
def pubRun : Bool × St × Option FileSys :=
  store_article_files co0 "/d".toList ((draftRun.2.2).getD []) 1 true draftRun.2.1

/-!
Universal facts about the media classifier (store_article_files): every
stored media file's row carries the canonical GCS URL and processing_status
"pending"; published runs append each asset's bucket key to the uploads
log; and no part of the pipeline ever writes a processing_status other
than "pending".
-/

/-- isImageEntry recognises a path stored as an image (classification is by
extension, exactly as the source's IMAGE_EXTENSIONS loop). -/
def isImageEntry (p : Str) : Bool := IMAGE_EXTENSIONS.contains (extOf p)

/-- isVideoEntry recognises a path stored as a video. -/
def isVideoEntry (p : Str) : Bool := VIDEO_EXTENSIONS.contains (extOf p)

/-- storedCandB recognises the directory entries that reach a media-row
store: not metadata.txt, not under thumbnail/, and of a recognised image or
video extension. -/
def storedCandB (p : Str) : Bool :=
  !(fileNameOf p == "metadata.txt".toList)
    && (!("thumbnail/".toList.isPrefixOf p) && (isImageEntry p || isVideoEntry p))

/-- mediaUuidOf is the asset id the classifier derives for a path. -/
def mediaUuidOf (co : Collab) (cid : Nat) (p : Str) : Nat :=
  generate_media_uuid co (Int.ofNat cid) (fileNameOf p)

/-- mediaKeyOf is the canonical GCS bucket key the classifier builds for a
path (the canonical URL is gcsBase ++ mediaKeyOf). -/
def mediaKeyOf (co : Collab) (cid : Nat) (p : Str) : Str :=
  (if isImageEntry p then "images/originals/".toList else "videos/originals/".toList)
    ++ natToStr (mediaUuidOf co cid p) ++ extOf p

/-- mediaRowOk states that the store holds a media row for the path with
its id, its canonical URL, and processing_status "pending". -/
def mediaRowOk (co : Collab) (cid : Nat) (st : St) (p : Str) : Bool :=
  if isImageEntry p then
    st.db.images.any (fun r => r.id == mediaUuidOf co cid p
      && (r.original_url == gcsBase ++ mediaKeyOf co cid p
        && r.processing_status == "pending".toList))
  else
    st.db.videos.any (fun r => r.id == mediaUuidOf co cid p
      && (r.gcs_path == gcsBase ++ mediaKeyOf co cid p
        && r.processing_status == "pending".toList))

/-- mediaCompatB p q states that q's row cannot be clobbered by storing p:
either they do not collide (different store, or different ids), or they
agree on the canonical key (so the overwrite writes the same URL). -/
def mediaCompatB (co : Collab) (cid : Nat) (p q : Str) : Bool :=
  !(storedCandB p && (storedCandB q && ((isImageEntry p == isImageEntry q)
      && (mediaUuidOf co cid p == mediaUuidOf co cid q))))
    || mediaKeyOf co cid p == mediaKeyOf co cid q

/-- uuidCoherentB: pairwise compatibility of all entries of a directory
(trivially true when the derived asset ids do not collide). -/
def uuidCoherentB (co : Collab) (cid : Nat) (fs : FileSys) : Bool :=
  fs.all (fun e1 => fs.all (fun e2 => mediaCompatB co cid e1.1 e2.1))

/-- pendingOnlyB states that every stored media row (image and video) has
processing_status "pending". -/
def pendingOnlyB (st : St) : Bool :=
  st.db.images.all (fun r => r.processing_status == "pending".toList)
    && st.db.videos.all (fun r => r.processing_status == "pending".toList)

/-- probedVideo is the classifier's ffprobe result with its fallback
(duration 0, video/mp4). -/
def probedVideo (co : Collab) (p : Str) : Nat × Str :=
  match co.probeVideo p with
  | some d => (d, video_ext_to_mime (extOf p))
  | none => (0, "video/mp4".toList)

/-- imageStoreOf abbreviates the store_image_metadata call the classifier
makes for an image entry. -/
def imageStoreOf (co : Collab) (cid : Nat) (st : St) (e : Str × Str) : Nat × St :=
  store_image_metadata st (Int.ofNat cid) (mediaUuidOf co cid e.1)
    (gcsBase ++ ("images/originals/".toList ++ natToStr (mediaUuidOf co cid e.1) ++ extOf e.1))
    (fileNameOf e.1) (probedImage co e.1).2.2 e.2.length (probedImage co e.1).1
    (probedImage co e.1).2.1 "content".toList "pending".toList

/-- videoStoreOf abbreviates the store_video_metadata call the classifier
makes for a video entry. -/
def videoStoreOf (co : Collab) (cid : Nat) (st : St) (e : Str × Str) : Nat × St :=
  store_video_metadata st (Int.ofNat cid) (mediaUuidOf co cid e.1) (fileNameOf e.1)
    (gcsBase ++ ("videos/originals/".toList ++ natToStr (mediaUuidOf co cid e.1) ++ extOf e.1))
    (probedVideo co e.1).2 e.2.length (probedVideo co e.1).1
    ("reels/".toList.isPrefixOf e.1) "pending".toList

theorem find?_prop {α : Type _} (p : α → Bool) :
    ∀ (l : List α) (a : α), l.find? p = some a → p a = true := by
  intro l
  induction l with
  | nil => intro a h; exact absurd h (by simp)
  | cons x xs ih =>
    intro a h
    cases hx : p x with
    | true =>
      simp only [List.find?, hx] at h
      simp only [Option.some.injEq] at h
      subst h
      exact hx
    | false =>
      simp only [List.find?, hx] at h
      exact ih a h

theorem mediaRowOk_of (co : Collab) (cid : Nat) (p : Str) (st st2 : St)
    (hi : st2.db.images = st.db.images) (hv : st2.db.videos = st.db.videos)
    (h : mediaRowOk co cid st p = true) : mediaRowOk co cid st2 p = true := by
  simp only [mediaRowOk, hi, hv]
  exact h

theorem pendingOnlyB_of (st st2 : St)
    (hi : st2.db.images = st.db.images) (hv : st2.db.videos = st.db.videos)
    (h : pendingOnlyB st = true) : pendingOnlyB st2 = true := by
  simp only [pendingOnlyB, hi, hv]
  exact h

theorem store_image_metadata_videos (st : St) (ci : Int) (u : Nat) (a b c : Str)
    (s w h : Nat) (it ps : Str) :
    (store_image_metadata st ci u a b c s w h it ps).2.db.videos = st.db.videos := by
  simp only [store_image_metadata]; split <;> rfl

theorem store_video_metadata_images (st : St) (ci : Int) (u : Nat) (a b c : Str)
    (s d : Nat) (ir : Bool) (ps : Str) :
    (store_video_metadata st ci u a b c s d ir ps).2.db.images = st.db.images := by
  simp only [store_video_metadata]; split <;> rfl

theorem store_image_metadata_fst (st : St) (ci : Int) (u : Nat) (a b c : Str)
    (s w h : Nat) (it ps : Str) :
    (store_image_metadata st ci u a b c s w h it ps).1 = u := by
  simp only [store_image_metadata]; split <;> rfl

theorem store_video_metadata_fst (st : St) (ci : Int) (u : Nat) (a b c : Str)
    (s d : Nat) (ir : Bool) (ps : Str) :
    (store_video_metadata st ci u a b c s d ir ps).1 = u := by
  simp only [store_video_metadata]; split <;> rfl

theorem store_file_reference_images (st : St) (cid : Nat) (a b : Str) :
    (store_file_reference st cid a b).db.images = st.db.images := rfl

theorem store_file_reference_videos (st : St) (cid : Nat) (a b : Str) :
    (store_file_reference st cid a b).db.videos = st.db.videos := rfl

/-- store_image_metadata_any: after a store with status "pending", some
images row has the stored id, URL and "pending" (the updated row on a hit,
the inserted row on a miss). -/
theorem store_image_metadata_any (st : St) (ci : Int) (u : Nat) (url fn mime : Str)
    (s w h : Nat) (it : Str) :
    (store_image_metadata st ci u url fn mime s w h it "pending".toList).2.db.images.any
      (fun r => r.id == u && (r.original_url == url
        && r.processing_status == "pending".toList)) = true := by
  simp only [store_image_metadata]
  split
  · rename_i hf
    obtain ⟨r0, hr0⟩ := Option.isSome_iff_exists.mp hf
    have hmem : r0 ∈ st.db.images := List.mem_of_find?_eq_some hr0
    have hid : (r0.id == u) = true := find?_prop (fun r => r.id == u) st.db.images r0 hr0
    refine List.any_eq_true.mpr ⟨_, List.mem_map_of_mem _ hmem, ?_⟩
    rw [if_pos hid]
    simp
  · refine List.any_eq_true.mpr
      ⟨⟨u, url, fn, mime, s, w, h, ci, it, "pending".toList⟩,
        List.mem_append_right _ (by simp), ?_⟩
    simp

theorem store_video_metadata_any (st : St) (ci : Int) (u : Nat) (fn url mime : Str)
    (s d : Nat) (ir : Bool) :
    (store_video_metadata st ci u fn url mime s d ir "pending".toList).2.db.videos.any
      (fun r => r.id == u && (r.gcs_path == url
        && r.processing_status == "pending".toList)) = true := by
  simp only [store_video_metadata]
  split
  · rename_i hf
    obtain ⟨r0, hr0⟩ := Option.isSome_iff_exists.mp hf
    have hmem : r0 ∈ st.db.videos := List.mem_of_find?_eq_some hr0
    have hid : (r0.id == u) = true := find?_prop (fun r => r.id == u) st.db.videos r0 hr0
    refine List.any_eq_true.mpr ⟨_, List.mem_map_of_mem _ hmem, ?_⟩
    rw [if_pos hid]
    simp
  · refine List.any_eq_true.mpr
      ⟨⟨u, fn, url, mime, s, d, ci, ir, "pending".toList⟩,
        List.mem_append_right _ (by simp), ?_⟩
    simp

/-- store_image_metadata_any_pres: a recorded (id, URL, pending) row
survives a later store, provided a colliding id writes the same URL. -/
theorem store_image_metadata_any_pres (st : St) (ci : Int) (u2 : Nat)
    (url2 fn2 mime2 : Str) (s2 w2 h2 : Nat) (it2 : Str) (u : Nat) (url : Str)
    (hcase : u2 = u → url2 = url)
    (h : st.db.images.any (fun r => r.id == u && (r.original_url == url
      && r.processing_status == "pending".toList)) = true) :
    (store_image_metadata st ci u2 url2 fn2 mime2 s2 w2 h2 it2
        "pending".toList).2.db.images.any
      (fun r => r.id == u && (r.original_url == url
        && r.processing_status == "pending".toList)) = true := by
  obtain ⟨r0, hmem, hq⟩ := List.any_eq_true.mp h
  simp only [store_image_metadata]
  split
  · refine List.any_eq_true.mpr ⟨_, List.mem_map_of_mem _ hmem, ?_⟩
    by_cases hb : (r0.id == u2) = true
    · rw [if_pos hb]
      simp only [Bool.and_eq_true] at hq
      obtain ⟨hq1, hq2, hq3⟩ := hq
      have hu : u2 = u := by
        have e1 : r0.id = u2 := eq_of_beq hb
        have e2 : r0.id = u := eq_of_beq hq1
        omega
      have hurl : url2 = url := hcase hu
      subst hu
      subst hurl
      simp
    · rw [if_neg hb]
      exact hq
  · exact List.any_eq_true.mpr ⟨r0, List.mem_append_left _ hmem, hq⟩

theorem store_video_metadata_any_pres (st : St) (ci : Int) (u2 : Nat)
    (fn2 url2 mime2 : Str) (s2 d2 : Nat) (ir2 : Bool) (u : Nat) (url : Str)
    (hcase : u2 = u → url2 = url)
    (h : st.db.videos.any (fun r => r.id == u && (r.gcs_path == url
      && r.processing_status == "pending".toList)) = true) :
    (store_video_metadata st ci u2 fn2 url2 mime2 s2 d2 ir2
        "pending".toList).2.db.videos.any
      (fun r => r.id == u && (r.gcs_path == url
        && r.processing_status == "pending".toList)) = true := by
  obtain ⟨r0, hmem, hq⟩ := List.any_eq_true.mp h
  simp only [store_video_metadata]
  split
  · refine List.any_eq_true.mpr ⟨_, List.mem_map_of_mem _ hmem, ?_⟩
    by_cases hb : (r0.id == u2) = true
    · rw [if_pos hb]
      simp only [Bool.and_eq_true] at hq
      obtain ⟨hq1, hq2, hq3⟩ := hq
      have hu : u2 = u := by
        have e1 : r0.id = u2 := eq_of_beq hb
        have e2 : r0.id = u := eq_of_beq hq1
        omega
      have hurl : url2 = url := hcase hu
      subst hu
      subst hurl
      simp
    · rw [if_neg hb]
      exact hq
  · exact List.any_eq_true.mpr ⟨r0, List.mem_append_left _ hmem, hq⟩

/-- mediaStep_skip: entries that are not stored candidates leave the state
untouched. -/
theorem mediaStep_skip (co : Collab) (cid : Nat) (is_pub : Bool)
    (acc : St × Meta) (e : Str × Str) (h : storedCandB e.1 = false) :
    (mediaStep co cid is_pub acc e).1 = acc.1 := by
  by_cases h1 : (fileNameOf e.1 == "metadata.txt".toList) = true
  · simp only [mediaStep]
    rw [if_pos h1]
  · by_cases h2 : ("thumbnail/".toList.isPrefixOf e.1) = true
    · simp only [mediaStep]
      rw [if_neg h1, if_pos h2]
    · have h1f : (fileNameOf e.1 == "metadata.txt".toList) = false := by
        cases hx : (fileNameOf e.1 == "metadata.txt".toList)
        · rfl
        · exact absurd hx h1
      have h2f : ("thumbnail/".toList.isPrefixOf e.1) = false := by
        cases hx : ("thumbnail/".toList.isPrefixOf e.1)
        · rfl
        · exact absurd hx h2
      simp only [storedCandB, h1f, h2f, Bool.not_false, Bool.true_and] at h
      have himg : IMAGE_EXTENSIONS.contains (extOf e.1) = false := by
        cases hx : IMAGE_EXTENSIONS.contains (extOf e.1)
        · rfl
        · rw [show isImageEntry e.1 = true from hx] at h
          simp at h
      have hvid : VIDEO_EXTENSIONS.contains (extOf e.1) = false := by
        cases hx : VIDEO_EXTENSIONS.contains (extOf e.1)
        · rfl
        · rw [show isVideoEntry e.1 = true from hx] at h
          simp at h
      simp only [mediaStep]
      rw [if_neg h1, if_neg h2, if_neg (by rw [himg]; exact Bool.false_ne_true),
        if_neg (by rw [hvid]; exact Bool.false_ne_true)]

/-- mediaStep_images_img: for an image entry, the step's images table is
the stored table and videos are untouched. -/
theorem mediaStep_images_img (co : Collab) (cid : Nat) (is_pub : Bool)
    (acc : St × Meta) (e : Str × Str)
    (h1 : (fileNameOf e.1 == "metadata.txt".toList) = false)
    (h2 : ("thumbnail/".toList.isPrefixOf e.1) = false)
    (h3 : IMAGE_EXTENSIONS.contains (extOf e.1) = true) :
    (mediaStep co cid is_pub acc e).1.db.images = (imageStoreOf co cid acc.1 e).2.db.images
      ∧ (mediaStep co cid is_pub acc e).1.db.videos = acc.1.db.videos := by
  simp only [mediaStep]
  rw [if_neg (by rw [h1]; exact Bool.false_ne_true),
    if_neg (by rw [h2]; exact Bool.false_ne_true), if_pos h3]
  constructor
  · split
    · rfl
    · split <;> rfl
  · split
    · exact store_image_metadata_videos _ _ _ _ _ _ _ _ _ _ _
    · split <;> exact store_image_metadata_videos _ _ _ _ _ _ _ _ _ _ _

/-- mediaStep_videos_vid: for a video entry, the step's videos table is the
stored table and images are untouched. -/
theorem mediaStep_videos_vid (co : Collab) (cid : Nat) (is_pub : Bool)
    (acc : St × Meta) (e : Str × Str)
    (h1 : (fileNameOf e.1 == "metadata.txt".toList) = false)
    (h2 : ("thumbnail/".toList.isPrefixOf e.1) = false)
    (h3 : IMAGE_EXTENSIONS.contains (extOf e.1) = false)
    (h4 : VIDEO_EXTENSIONS.contains (extOf e.1) = true) :
    (mediaStep co cid is_pub acc e).1.db.images = acc.1.db.images
      ∧ (mediaStep co cid is_pub acc e).1.db.videos
        = (videoStoreOf co cid acc.1 e).2.db.videos := by
  simp only [mediaStep]
  rw [if_neg (by rw [h1]; exact Bool.false_ne_true),
    if_neg (by rw [h2]; exact Bool.false_ne_true),
    if_neg (by rw [h3]; exact Bool.false_ne_true), if_pos h4]
  constructor
  · split
    · exact store_video_metadata_images _ _ _ _ _ _ _ _ _ _
    · split <;> exact store_video_metadata_images _ _ _ _ _ _ _ _ _ _
  · split
    · rfl
    · split <;> rfl

/-- mediaStep_rowOk_self: processing a stored candidate records its row
with the canonical URL and status "pending". -/
theorem mediaStep_rowOk_self (co : Collab) (cid : Nat) (is_pub : Bool)
    (acc : St × Meta) (e : Str × Str) (hc : storedCandB e.1 = true) :
    mediaRowOk co cid (mediaStep co cid is_pub acc e).1 e.1 = true := by
  have hc2 := hc
  simp only [storedCandB, Bool.and_eq_true] at hc2
  obtain ⟨hmf, hth, hcls⟩ := hc2
  have h1f : (fileNameOf e.1 == "metadata.txt".toList) = false := by
    cases hx : (fileNameOf e.1 == "metadata.txt".toList)
    · rfl
    · rw [hx] at hmf; exact absurd hmf (by decide)
  have h2f : ("thumbnail/".toList.isPrefixOf e.1) = false := by
    cases hx : ("thumbnail/".toList.isPrefixOf e.1)
    · rfl
    · rw [hx] at hth; exact absurd hth (by decide)
  by_cases himg : isImageEntry e.1 = true
  · obtain ⟨hIm, _⟩ := mediaStep_images_img co cid is_pub acc e h1f h2f himg
    have hkey : mediaKeyOf co cid e.1 = "images/originals/".toList
        ++ natToStr (mediaUuidOf co cid e.1) ++ extOf e.1 := by
      simp only [mediaKeyOf]
      rw [if_pos himg]
    simp only [mediaRowOk]
    rw [if_pos himg, hIm, hkey]
    exact store_image_metadata_any acc.1 (Int.ofNat cid) (mediaUuidOf co cid e.1)
      (gcsBase ++ ("images/originals/".toList ++ natToStr (mediaUuidOf co cid e.1)
        ++ extOf e.1)) (fileNameOf e.1) (probedImage co e.1).2.2 e.2.length
      (probedImage co e.1).1 (probedImage co e.1).2.1 "content".toList
  · have himgf : isImageEntry e.1 = false := by
      cases hx : isImageEntry e.1
      · rfl
      · exact absurd hx himg
    have hvid : VIDEO_EXTENSIONS.contains (extOf e.1) = true := by
      rw [himgf] at hcls
      simp only [Bool.false_or] at hcls
      exact hcls
    obtain ⟨_, hVd⟩ := mediaStep_videos_vid co cid is_pub acc e h1f h2f himgf hvid
    have hkey : mediaKeyOf co cid e.1 = "videos/originals/".toList
        ++ natToStr (mediaUuidOf co cid e.1) ++ extOf e.1 := by
      simp only [mediaKeyOf]
      rw [if_neg (by rw [himgf]; exact Bool.false_ne_true)]
    simp only [mediaRowOk]
    rw [if_neg (by rw [himgf]; exact Bool.false_ne_true), hVd, hkey]
    exact store_video_metadata_any acc.1 (Int.ofNat cid) (mediaUuidOf co cid e.1)
      (fileNameOf e.1)
      (gcsBase ++ ("videos/originals/".toList ++ natToStr (mediaUuidOf co cid e.1)
        ++ extOf e.1)) (probedVideo co e.1).2 e.2.length (probedVideo co e.1).1
      ("reels/".toList.isPrefixOf e.1)

/-- mediaStep_rowOk_pres: a recorded row survives the processing of any
compatible entry. -/
theorem mediaStep_rowOk_pres (co : Collab) (cid : Nat) (is_pub : Bool)
    (acc : St × Meta) (e : Str × Str) (p : Str)
    (hcompat : mediaCompatB co cid e.1 p = true)
    (hp : storedCandB p = true)
    (h : mediaRowOk co cid acc.1 p = true) :
    mediaRowOk co cid (mediaStep co cid is_pub acc e).1 p = true := by
  by_cases hc : storedCandB e.1 = true
  · have hc2 := hc
    simp only [storedCandB, Bool.and_eq_true] at hc2
    obtain ⟨hmf, hth, hcls⟩ := hc2
    have h1f : (fileNameOf e.1 == "metadata.txt".toList) = false := by
      cases hx : (fileNameOf e.1 == "metadata.txt".toList)
      · rfl
      · rw [hx] at hmf; exact absurd hmf (by decide)
    have h2f : ("thumbnail/".toList.isPrefixOf e.1) = false := by
      cases hx : ("thumbnail/".toList.isPrefixOf e.1)
      · rfl
      · rw [hx] at hth; exact absurd hth (by decide)
    have hkeys : (mediaUuidOf co cid e.1 = mediaUuidOf co cid p
        ∧ isImageEntry e.1 = isImageEntry p) → mediaKeyOf co cid e.1 = mediaKeyOf co cid p := by
      rintro ⟨hu, hie⟩
      simp only [mediaCompatB, Bool.or_eq_true] at hcompat
      rcases hcompat with hA | hK
      · exfalso
        have hAll : (storedCandB e.1 && (storedCandB p && ((isImageEntry e.1 == isImageEntry p)
            && (mediaUuidOf co cid e.1 == mediaUuidOf co cid p)))) = true := by
          simp only [Bool.and_eq_true]
          refine ⟨hc, hp, ?_, ?_⟩
          · rw [hie]
            exact beq_self_eq_true _
          · rw [hu]
            exact beq_self_eq_true _
        rw [hAll] at hA
        exact absurd hA (by decide)
      · exact eq_of_beq hK
    by_cases himg : isImageEntry e.1 = true
    · obtain ⟨hIm, hVd⟩ := mediaStep_images_img co cid is_pub acc e h1f h2f himg
      by_cases hpimg : isImageEntry p = true
      · simp only [mediaRowOk] at h ⊢
        rw [if_pos hpimg] at h ⊢
        rw [hIm]
        refine store_image_metadata_any_pres acc.1 (Int.ofNat cid) _ _ _ _ _ _ _ _
          (mediaUuidOf co cid p) (gcsBase ++ mediaKeyOf co cid p) ?_ h
        intro hu
        have hu2 : mediaUuidOf co cid e.1 = mediaUuidOf co cid p := hu
        have hkey_e : mediaKeyOf co cid e.1 = "images/originals/".toList
            ++ natToStr (mediaUuidOf co cid e.1) ++ extOf e.1 := by
          simp only [mediaKeyOf]
          rw [if_pos himg]
        rw [← hkey_e, hkeys ⟨hu2, by rw [himg, hpimg]⟩]
      · simp only [mediaRowOk] at h ⊢
        rw [if_neg hpimg] at h ⊢
        rw [hVd]
        exact h
    · have himgf : isImageEntry e.1 = false := by
        cases hx : isImageEntry e.1
        · rfl
        · exact absurd hx himg
      have hvid : VIDEO_EXTENSIONS.contains (extOf e.1) = true := by
        rw [himgf] at hcls
        simp only [Bool.false_or] at hcls
        exact hcls
      obtain ⟨hIm, hVd⟩ := mediaStep_videos_vid co cid is_pub acc e h1f h2f himgf hvid
      by_cases hpimg : isImageEntry p = true
      · simp only [mediaRowOk] at h ⊢
        rw [if_pos hpimg] at h ⊢
        rw [hIm]
        exact h
      · have hpimgf : isImageEntry p = false := by
          cases hx : isImageEntry p
          · rfl
          · exact absurd hx hpimg
        simp only [mediaRowOk] at h ⊢
        rw [if_neg hpimg] at h ⊢
        rw [hVd]
        refine store_video_metadata_any_pres acc.1 (Int.ofNat cid) _ _ _ _ _ _ _
          (mediaUuidOf co cid p) (gcsBase ++ mediaKeyOf co cid p) ?_ h
        intro hu
        have hu2 : mediaUuidOf co cid e.1 = mediaUuidOf co cid p := hu
        have hkey_e : mediaKeyOf co cid e.1 = "videos/originals/".toList
            ++ natToStr (mediaUuidOf co cid e.1) ++ extOf e.1 := by
          simp only [mediaKeyOf]
          rw [if_neg (by rw [himgf]; exact Bool.false_ne_true)]
        rw [← hkey_e, hkeys ⟨hu2, by rw [himgf, hpimgf]⟩]
  · have hcf : storedCandB e.1 = false := by
      cases hx : storedCandB e.1
      · rfl
      · exact absurd hx hc
    rw [mediaStep_skip co cid is_pub acc e hcf]
    exact h

/-- mediaFold_rowOk: the first pass of store_article_files records (and
keeps) the row of every stored candidate, under pairwise compatibility. -/
theorem mediaFold_rowOk (co : Collab) (cid : Nat) (is_pub : Bool) (p : Str)
    (hp : storedCandB p = true) :
    ∀ (fs : FileSys) (acc : St × Meta),
      (∀ e ∈ fs, mediaCompatB co cid e.1 p = true) →
      ((∃ e ∈ fs, e.1 = p) ∨ mediaRowOk co cid acc.1 p = true) →
      mediaRowOk co cid (fs.foldl (mediaStep co cid is_pub) acc).1 p = true := by
  intro fs
  induction fs with
  | nil =>
    intro acc _ hd
    rcases hd with ⟨e, he, _⟩ | hok
    · exact absurd he (List.not_mem_nil e)
    · exact hok
  | cons f rest ih =>
    intro acc hcomp hd
    simp only [List.foldl_cons]
    rcases hd with ⟨e, he, hep⟩ | hok
    · rcases List.mem_cons.mp he with heq | hmem
      · subst heq
        have hself := mediaStep_rowOk_self co cid is_pub acc e (by rw [hep]; exact hp)
        rw [hep] at hself
        exact ih (mediaStep co cid is_pub acc e)
          (fun e2 he2 => hcomp e2 (List.mem_cons_of_mem e he2)) (Or.inr hself)
      · exact ih _ (fun e2 he2 => hcomp e2 (List.mem_cons_of_mem f he2))
          (Or.inl ⟨e, hmem, hep⟩)
    · exact ih _ (fun e2 he2 => hcomp e2 (List.mem_cons_of_mem f he2))
        (Or.inr (mediaStep_rowOk_pres co cid is_pub acc f p
          (hcomp f (List.mem_cons_self f rest)) hp hok))

/-- imagesEx projects the images table out of the Except state of the copy
pass. -/
def imagesEx : Except St St → List ImageRow
  | Except.ok s => s.db.images
  | Except.error s => s.db.images

/-- videosEx projects the videos table out of the Except state of the copy
pass. -/
def videosEx : Except St St → List VideoRow
  | Except.ok s => s.db.videos
  | Except.error s => s.db.videos

theorem copyStep_imagesEx (co : Collab) (cid : Nat) (acc : Except St St)
    (e : Str × Str) : imagesEx (copyStep co cid acc e) = imagesEx acc := by
  cases acc with
  | error s => rfl
  | ok s =>
    simp only [copyStep]
    repeat' split
    all_goals rfl

theorem copyStep_videosEx (co : Collab) (cid : Nat) (acc : Except St St)
    (e : Str × Str) : videosEx (copyStep co cid acc e) = videosEx acc := by
  cases acc with
  | error s => rfl
  | ok s =>
    simp only [copyStep]
    repeat' split
    all_goals rfl

/-- store_article_files_rowOk: every stored candidate of the directory has
its row, with canonical URL and "pending", after the full file-storage run
(draft or published), provided colliding asset ids agree on their key. -/
theorem store_article_files_rowOk (co : Collab) (dirPath : Str) (fs : FileSys)
    (cid : Nat) (is_pub : Bool) (st : St) (p : Str)
    (hcoh : uuidCoherentB co cid fs = true)
    (hmem : ∃ e ∈ fs, e.1 = p) (hp : storedCandB p = true) :
    mediaRowOk co cid (store_article_files co dirPath fs cid is_pub st).2.1 p = true := by
  obtain ⟨e0, he0, he0p⟩ := hmem
  have hcomp : ∀ e ∈ fs, mediaCompatB co cid e.1 p = true := by
    intro e he
    have hall := (List.all_eq_true.mp hcoh) e he
    have h2 := (List.all_eq_true.mp hall) e0 he0
    rw [he0p] at h2
    exact h2
  have hfold := mediaFold_rowOk co cid is_pub p hp fs (st, []) hcomp
    (Or.inl ⟨e0, he0, he0p⟩)
  have hIm : imagesEx ((rewrite_media_references fs
        (fs.foldl (mediaStep co cid is_pub) (st, [])).2 cid is_pub).foldl
        (copyStep co cid)
        (Except.ok (fs.foldl (mediaStep co cid is_pub) (st, [])).1))
      = (fs.foldl (mediaStep co cid is_pub) (st, ([] : Meta))).1.db.images :=
    foldl_preserves imagesEx (copyStep co cid)
      (fun a b => copyStep_imagesEx co cid a b) _ _
  have hVd : videosEx ((rewrite_media_references fs
        (fs.foldl (mediaStep co cid is_pub) (st, [])).2 cid is_pub).foldl
        (copyStep co cid)
        (Except.ok (fs.foldl (mediaStep co cid is_pub) (st, [])).1))
      = (fs.foldl (mediaStep co cid is_pub) (st, ([] : Meta))).1.db.videos :=
    foldl_preserves videosEx (copyStep co cid)
      (fun a b => copyStep_videosEx co cid a b) _ _
  simp only [store_article_files]
  split
  · rename_i s2 heq
    rw [heq] at hIm hVd
    exact mediaRowOk_of co cid p _ s2 (show s2.db.images = _ from hIm)
      (show s2.db.videos = _ from hVd) hfold
  · rename_i s2 heq
    rw [heq] at hIm hVd
    split
    · exact mediaRowOk_of co cid p _ s2 (show s2.db.images = _ from hIm)
        (show s2.db.videos = _ from hVd) hfold
    · exact mediaRowOk_of co cid p _ s2 (show s2.db.images = _ from hIm)
        (show s2.db.videos = _ from hVd) hfold

/-- mediaStep_uploads_mem: the uploads log only grows. -/
theorem mediaStep_uploads_mem (co : Collab) (cid : Nat) (b : Bool)
    (acc : St × Meta) (e : Str × Str) (x : Str) (hx : x ∈ acc.1.uploads) :
    x ∈ (mediaStep co cid b acc e).1.uploads := by
  simp only [mediaStep]
  split
  · exact hx
  · split
    · exact hx
    · split
      · split
        · dsimp only
          rw [store_image_metadata_uploads]
          exact hx
        · dsimp only
          rw [store_file_reference_uploads]
          split
          · dsimp only
            rw [store_image_metadata_uploads]
            exact List.mem_append_left _ hx
          · rw [store_image_metadata_uploads]
            exact hx
      · split
        · split
          · dsimp only
            rw [store_video_metadata_uploads]
            exact hx
          · dsimp only
            rw [store_file_reference_uploads]
            split
            · dsimp only
              rw [store_video_metadata_uploads]
              exact List.mem_append_left _ hx
            · rw [store_video_metadata_uploads]
              exact hx
        · exact hx

/-- mediaStep_uploads_key: publishing a stored candidate with non-zero
asset id appends its canonical bucket key to the uploads log. -/
theorem mediaStep_uploads_key (co : Collab) (cid : Nat)
    (acc : St × Meta) (e : Str × Str) (hc : storedCandB e.1 = true)
    (hu : mediaUuidOf co cid e.1 ≠ 0) :
    mediaKeyOf co cid e.1 ∈ (mediaStep co cid true acc e).1.uploads := by
  have hc2 := hc
  simp only [storedCandB, Bool.and_eq_true] at hc2
  obtain ⟨hmf, hth, hcls⟩ := hc2
  have h1f : (fileNameOf e.1 == "metadata.txt".toList) = false := by
    cases hx : (fileNameOf e.1 == "metadata.txt".toList)
    · rfl
    · rw [hx] at hmf; exact absurd hmf (by decide)
  have h2f : ("thumbnail/".toList.isPrefixOf e.1) = false := by
    cases hx : ("thumbnail/".toList.isPrefixOf e.1)
    · rfl
    · rw [hx] at hth; exact absurd hth (by decide)
  by_cases himg : isImageEntry e.1 = true
  · have hkey : mediaKeyOf co cid e.1 = "images/originals/".toList
        ++ natToStr (mediaUuidOf co cid e.1) ++ extOf e.1 := by
      simp only [mediaKeyOf]
      rw [if_pos himg]
    rw [hkey]
    simp only [mediaStep]
    rw [if_neg (by rw [h1f]; exact Bool.false_ne_true),
      if_neg (by rw [h2f]; exact Bool.false_ne_true),
      if_pos (show IMAGE_EXTENSIONS.contains (extOf e.1) = true from himg)]
    split
    · rename_i hzero
      rw [store_image_metadata_fst] at hzero
      exact absurd hzero hu
    · dsimp only
      rw [store_file_reference_uploads]
      split
      · dsimp only
        rw [store_image_metadata_uploads]
        exact List.mem_append_right _ (List.mem_singleton.mpr rfl)
      · rename_i hfalse
        exact absurd (by trivial) hfalse
  · have himgf : isImageEntry e.1 = false := by
      cases hx : isImageEntry e.1
      · rfl
      · exact absurd hx himg
    have hvid : VIDEO_EXTENSIONS.contains (extOf e.1) = true := by
      rw [himgf] at hcls
      simp only [Bool.false_or] at hcls
      exact hcls
    have hkey : mediaKeyOf co cid e.1 = "videos/originals/".toList
        ++ natToStr (mediaUuidOf co cid e.1) ++ extOf e.1 := by
      simp only [mediaKeyOf]
      rw [if_neg (by rw [himgf]; exact Bool.false_ne_true)]
    rw [hkey]
    simp only [mediaStep]
    have himg3 : IMAGE_EXTENSIONS.contains (extOf e.1) = false := himgf
    rw [if_neg (by rw [h1f]; exact Bool.false_ne_true),
      if_neg (by rw [h2f]; exact Bool.false_ne_true),
      if_neg (by rw [himg3]; exact Bool.false_ne_true),
      if_pos hvid]
    split
    · rename_i hzero
      rw [store_video_metadata_fst] at hzero
      exact absurd hzero hu
    · dsimp only
      rw [store_file_reference_uploads]
      split
      · dsimp only
        rw [store_video_metadata_uploads]
        exact List.mem_append_right _ (List.mem_singleton.mpr rfl)
      · rename_i hfalse
        exact absurd (by trivial) hfalse

/-- mediaFold_uploads: the published first pass uploads every stored
candidate with non-zero id. -/
theorem mediaFold_uploads (co : Collab) (cid : Nat) (x : Str) :
    ∀ (fs : FileSys) (acc : St × Meta),
      ((∃ e ∈ fs, storedCandB e.1 = true ∧ mediaUuidOf co cid e.1 ≠ 0
          ∧ x = mediaKeyOf co cid e.1)
        ∨ x ∈ acc.1.uploads) →
      x ∈ (fs.foldl (mediaStep co cid true) acc).1.uploads := by
  intro fs
  induction fs with
  | nil =>
    intro acc hd
    rcases hd with ⟨e, he, _⟩ | hok
    · exact absurd he (List.not_mem_nil e)
    · exact hok
  | cons f rest ih =>
    intro acc hd
    simp only [List.foldl_cons]
    rcases hd with ⟨e, he, hcand, hu, hxe⟩ | hok
    · rcases List.mem_cons.mp he with heq | hmem
      · subst heq
        subst hxe
        exact ih (mediaStep co cid true acc e)
          (Or.inr (mediaStep_uploads_key co cid acc e hcand hu))
      · exact ih _ (Or.inl ⟨e, hmem, hcand, hu, hxe⟩)
    · exact ih _ (Or.inr (mediaStep_uploads_mem co cid true acc f x hok))

/-- store_article_files_uploaded: a published run uploads the canonical
bucket key of every stored candidate with non-zero asset id. -/
theorem store_article_files_uploaded (co : Collab) (dirPath : Str) (fs : FileSys)
    (cid : Nat) (st : St) (e : Str × Str)
    (he : e ∈ fs) (hc : storedCandB e.1 = true) (hu : mediaUuidOf co cid e.1 ≠ 0) :
    mediaKeyOf co cid e.1 ∈ (store_article_files co dirPath fs cid true st).2.1.uploads := by
  have hfold := mediaFold_uploads co cid (mediaKeyOf co cid e.1) fs (st, [])
    (Or.inl ⟨e, he, hc, hu, rfl⟩)
  have hUp : uploadsEx ((rewrite_media_references fs
        (fs.foldl (mediaStep co cid true) (st, [])).2 cid true).foldl
        (copyStep co cid)
        (Except.ok (fs.foldl (mediaStep co cid true) (st, [])).1))
      = (fs.foldl (mediaStep co cid true) (st, ([] : Meta))).1.uploads :=
    foldl_preserves uploadsEx (copyStep co cid)
      (fun a b => copyStep_uploads co cid a b) _ _
  simp only [store_article_files]
  split
  · rename_i s2 heq
    rw [heq] at hUp
    dsimp only
    rw [show s2.uploads = _ from hUp]
    exact hfold
  · rename_i s2 heq
    rw [heq] at hUp
    split
    · dsimp only
      rw [show s2.uploads = _ from hUp]
      exact hfold
    · dsimp only
      rw [show s2.uploads = _ from hUp]
      exact hfold

/-- foldl_invar: a Boolean invariant preserved by each step is preserved by
the fold. -/
theorem foldl_invar {α β : Type _} (P : α → Bool) (g : α → β → α)
    (h : ∀ a b, P a = true → P (g a b) = true) :
    ∀ (l : List β) (a : α), P a = true → P (l.foldl g a) = true := by
  intro l
  induction l with
  | nil => intro a ha; exact ha
  | cons x xs ih =>
    intro a ha
    rw [List.foldl_cons]
    exact ih _ (h a x ha)

/-- store_image_metadata_pending: storing with status "pending" keeps every
media row pending. -/
theorem store_image_metadata_pending (st : St) (ci : Int) (u : Nat) (a b c : Str)
    (s w h : Nat) (it : Str) (hst : pendingOnlyB st = true) :
    pendingOnlyB (store_image_metadata st ci u a b c s w h it "pending".toList).2 = true := by
  simp only [pendingOnlyB, Bool.and_eq_true] at hst ⊢
  obtain ⟨hi, hv⟩ := hst
  simp only [store_image_metadata]
  split
  · refine ⟨?_, hv⟩
    refine List.all_eq_true.mpr ?_
    intro r hr
    obtain ⟨r0, hr0, hre⟩ := List.mem_map.mp hr
    subst hre
    by_cases hb : (r0.id == u) = true
    · rw [if_pos hb]
      rfl
    · rw [if_neg hb]
      exact List.all_eq_true.mp hi r0 hr0
  · refine ⟨?_, hv⟩
    rw [List.all_append, hi]
    simp

theorem store_video_metadata_pending (st : St) (ci : Int) (u : Nat) (a b c : Str)
    (s d : Nat) (ir : Bool) (hst : pendingOnlyB st = true) :
    pendingOnlyB (store_video_metadata st ci u a b c s d ir "pending".toList).2 = true := by
  simp only [pendingOnlyB, Bool.and_eq_true] at hst ⊢
  obtain ⟨hi, hv⟩ := hst
  simp only [store_video_metadata]
  split
  · refine ⟨hi, ?_⟩
    refine List.all_eq_true.mpr ?_
    intro r hr
    obtain ⟨r0, hr0, hre⟩ := List.mem_map.mp hr
    subst hre
    by_cases hb : (r0.id == u) = true
    · rw [if_pos hb]
      rfl
    · rw [if_neg hb]
      exact List.all_eq_true.mp hv r0 hr0
  · refine ⟨hi, ?_⟩
    rw [List.all_append, hv]
    simp

theorem imageStoreOf_pending (co : Collab) (cid : Nat) (st : St) (e : Str × Str)
    (hst : pendingOnlyB st = true) : pendingOnlyB (imageStoreOf co cid st e).2 = true :=
  store_image_metadata_pending st (Int.ofNat cid) (mediaUuidOf co cid e.1)
    (gcsBase ++ ("images/originals/".toList ++ natToStr (mediaUuidOf co cid e.1) ++ extOf e.1))
    (fileNameOf e.1) (probedImage co e.1).2.2 e.2.length (probedImage co e.1).1
    (probedImage co e.1).2.1 "content".toList hst

theorem videoStoreOf_pending (co : Collab) (cid : Nat) (st : St) (e : Str × Str)
    (hst : pendingOnlyB st = true) : pendingOnlyB (videoStoreOf co cid st e).2 = true :=
  store_video_metadata_pending st (Int.ofNat cid) (mediaUuidOf co cid e.1) (fileNameOf e.1)
    (gcsBase ++ ("videos/originals/".toList ++ natToStr (mediaUuidOf co cid e.1) ++ extOf e.1))
    (probedVideo co e.1).2 e.2.length (probedVideo co e.1).1
    ("reels/".toList.isPrefixOf e.1) hst

/-- mediaStep_pending: one classifier step keeps every media row pending. -/
theorem mediaStep_pending (co : Collab) (cid : Nat) (is_pub : Bool)
    (acc : St × Meta) (e : Str × Str) (hst : pendingOnlyB acc.1 = true) :
    pendingOnlyB (mediaStep co cid is_pub acc e).1 = true := by
  by_cases hc : storedCandB e.1 = true
  · have hc2 := hc
    simp only [storedCandB, Bool.and_eq_true] at hc2
    obtain ⟨hmf, hth, hcls⟩ := hc2
    have h1f : (fileNameOf e.1 == "metadata.txt".toList) = false := by
      cases hx : (fileNameOf e.1 == "metadata.txt".toList)
      · rfl
      · rw [hx] at hmf; exact absurd hmf (by decide)
    have h2f : ("thumbnail/".toList.isPrefixOf e.1) = false := by
      cases hx : ("thumbnail/".toList.isPrefixOf e.1)
      · rfl
      · rw [hx] at hth; exact absurd hth (by decide)
    by_cases himg : isImageEntry e.1 = true
    · obtain ⟨hIm, hVd⟩ := mediaStep_images_img co cid is_pub acc e h1f h2f himg
      have hp := imageStoreOf_pending co cid acc.1 e hst
      simp only [pendingOnlyB, Bool.and_eq_true] at hst hp ⊢
      refine ⟨?_, ?_⟩
      · rw [hIm]; exact hp.1
      · rw [hVd]; exact hst.2
    · have himgf : isImageEntry e.1 = false := by
        cases hx : isImageEntry e.1
        · rfl
        · exact absurd hx himg
      have hvid : VIDEO_EXTENSIONS.contains (extOf e.1) = true := by
        rw [himgf] at hcls
        simp only [Bool.false_or] at hcls
        exact hcls
      obtain ⟨hIm, hVd⟩ := mediaStep_videos_vid co cid is_pub acc e h1f h2f himgf hvid
      have hp := videoStoreOf_pending co cid acc.1 e hst
      simp only [pendingOnlyB, Bool.and_eq_true] at hst hp ⊢
      refine ⟨?_, ?_⟩
      · rw [hIm]; exact hst.1
      · rw [hVd]; exact hp.2
  · have hcf : storedCandB e.1 = false := by
      cases hx : storedCandB e.1
      · rfl
      · exact absurd hx hc
    rw [mediaStep_skip co cid is_pub acc e hcf]
    exact hst

/-- store_article_files_pending: a full file-storage run keeps every media
row pending (draft or published). -/
theorem store_article_files_pending (co : Collab) (dirPath : Str) (fs : FileSys)
    (cid : Nat) (is_pub : Bool) (st : St) (hst : pendingOnlyB st = true) :
    pendingOnlyB (store_article_files co dirPath fs cid is_pub st).2.1 = true := by
  have hfold : pendingOnlyB (fs.foldl (mediaStep co cid is_pub) (st, ([] : Meta))).1 = true :=
    foldl_invar (fun a => pendingOnlyB a.1) (mediaStep co cid is_pub)
      (fun a b ha => mediaStep_pending co cid is_pub a b ha) fs (st, []) hst
  have hIm : imagesEx ((rewrite_media_references fs
        (fs.foldl (mediaStep co cid is_pub) (st, [])).2 cid is_pub).foldl
        (copyStep co cid)
        (Except.ok (fs.foldl (mediaStep co cid is_pub) (st, [])).1))
      = (fs.foldl (mediaStep co cid is_pub) (st, ([] : Meta))).1.db.images :=
    foldl_preserves imagesEx (copyStep co cid)
      (fun a b => copyStep_imagesEx co cid a b) _ _
  have hVd : videosEx ((rewrite_media_references fs
        (fs.foldl (mediaStep co cid is_pub) (st, [])).2 cid is_pub).foldl
        (copyStep co cid)
        (Except.ok (fs.foldl (mediaStep co cid is_pub) (st, [])).1))
      = (fs.foldl (mediaStep co cid is_pub) (st, ([] : Meta))).1.db.videos :=
    foldl_preserves videosEx (copyStep co cid)
      (fun a b => copyStep_videosEx co cid a b) _ _
  simp only [store_article_files]
  split
  · rename_i s2 heq
    rw [heq] at hIm hVd
    exact pendingOnlyB_of _ s2 (show s2.db.images = _ from hIm)
      (show s2.db.videos = _ from hVd) hfold
  · rename_i s2 heq
    rw [heq] at hIm hVd
    split
    · exact pendingOnlyB_of _ s2 (show s2.db.images = _ from hIm)
        (show s2.db.videos = _ from hVd) hfold
    · exact pendingOnlyB_of _ s2 (show s2.db.images = _ from hIm)
        (show s2.db.videos = _ from hVd) hfold

theorem ensureTag_images (st : St) (n : Str) :
    (ensureTag st n).2.db.images = st.db.images := by
  simp only [ensureTag]; split <;> rfl

theorem ensureTag_videos (st : St) (n : Str) :
    (ensureTag st n).2.db.videos = st.db.videos := by
  simp only [ensureTag]; split <;> rfl

theorem tagStep_images (cid : Nat) (st : St) (tok : Str) :
    (tagStep cid st tok).db.images = st.db.images := by
  simp only [tagStep]
  split
  · rfl
  · split
    · split
      · rw [ensureTag_images]
      · rw [show ({ (ensureTag st (trimTag tok)).2 with db := _ } : St).db.images
            = (ensureTag st (trimTag tok)).2.db.images from rfl, ensureTag_images]
    · rw [ensureTag_images]

theorem tagStep_videos (cid : Nat) (st : St) (tok : Str) :
    (tagStep cid st tok).db.videos = st.db.videos := by
  simp only [tagStep]
  split
  · rfl
  · split
    · split
      · rw [ensureTag_videos]
      · rw [show ({ (ensureTag st (trimTag tok)).2 with db := _ } : St).db.videos
            = (ensureTag st (trimTag tok)).2.db.videos from rfl, ensureTag_videos]
    · rw [ensureTag_videos]

theorem process_tags_images (st : St) (cid : Nat) (l : Str) :
    (process_tags st cid l).db.images = st.db.images := by
  simp only [process_tags]
  split
  · rfl
  · exact foldl_preserves (fun s => s.db.images) (tagStep cid)
      (fun a b => tagStep_images cid a b) _ st

theorem process_tags_videos (st : St) (cid : Nat) (l : Str) :
    (process_tags st cid l).db.videos = st.db.videos := by
  simp only [process_tags]
  split
  · rfl
  · exact foldl_preserves (fun s => s.db.videos) (tagStep cid)
      (fun a b => tagStep_videos cid a b) _ st

theorem store_content_metadata_images (st : St) (cid : Nat) (k v : Str) :
    (store_content_metadata st cid k v).db.images = st.db.images := by
  simp only [store_content_metadata]; split <;> rfl

theorem store_content_metadata_videos (st : St) (cid : Nat) (k v : Str) :
    (store_content_metadata st cid k v).db.videos = st.db.videos := by
  simp only [store_content_metadata]; split <;> rfl

theorem postSteps_images (st : St) (cid : Nat) (tl rt : Str) :
    (postSteps st cid tl rt).db.images = st.db.images := by
  simp only [postSteps]
  split <;> split <;>
    simp only [store_content_metadata_images, process_tags_images]

theorem postSteps_videos (st : St) (cid : Nat) (tl rt : Str) :
    (postSteps st cid tl rt).db.videos = st.db.videos := by
  simp only [postSteps]
  split <;> split <;>
    simp only [store_content_metadata_videos, process_tags_videos]

/-- process_thumbnail_pending: the thumbnail path also stores only
"pending" rows. -/
theorem process_thumbnail_pending (co : Collab) (fs : FileSys) (st : St)
    (ci : Int) (ip : Bool) (hst : pendingOnlyB st = true) :
    pendingOnlyB (process_thumbnail co fs st ci ip).2 = true := by
  simp only [process_thumbnail]
  split
  · exact hst
  · split
    · exact store_image_metadata_pending _ _ _ _ _ _ _ _ _ _
        (pendingOnlyB_of st _ rfl rfl hst)
    · exact store_image_metadata_pending _ _ _ _ _ _ _ _ _ _
        (pendingOnlyB_of st _ rfl rfl hst)

theorem upsertExisting_pending (co : Collab) (fs : FileSys) (st : St) (clock : Nat)
    (cid : Nat) (summary status : Str) (hst : pendingOnlyB st = true) :
    pendingOnlyB (upsertExisting co fs st clock cid summary status) = true := by
  simp only [upsertExisting]
  split
  · exact pendingOnlyB_of _ _ rfl rfl
      (process_thumbnail_pending co fs _ (Int.ofNat cid) _
        (pendingOnlyB_of st _ rfl rfl hst))
  · exact pendingOnlyB_of _ _ rfl rfl
      (process_thumbnail_pending co fs _ (Int.ofNat cid) _
        (pendingOnlyB_of st _ rfl rfl hst))

theorem upsertNew_pending (co : Collab) (fs : FileSys) (st : St)
    (title slug site_id summary status : Str) (hst : pendingOnlyB st = true) :
    pendingOnlyB (upsertNew co fs st title slug site_id summary status).2 = true :=
  pendingOnlyB_of _ _ rfl rfl (process_thumbnail_pending co fs st (-1) _ hst)

theorem postSteps_pending (st : St) (cid : Nat) (tl rt : Str)
    (hst : pendingOnlyB st = true) : pendingOnlyB (postSteps st cid tl rt) = true :=
  pendingOnlyB_of st _ (by rw [postSteps_images]) (by rw [postSteps_videos]) hst

theorem update_article_metadata_pending (co : Collab) (fs : FileSys) (st : St)
    (clock : Nat) (meta : Meta) (r : Nat × St)
    (h : update_article_metadata co fs st clock meta = some r)
    (hst : pendingOnlyB st = true) : pendingOnlyB r.2 = true := by
  simp only [update_article_metadata] at h
  split at h
  · exact absurd h (by simp)
  · split at h
    · rename_i row hrow
      simp only [Option.some.injEq] at h
      subst h
      exact postSteps_pending _ _ _ _
        (upsertExisting_pending co fs st clock row.id _ _ hst)
    · simp only [Option.some.injEq] at h
      subst h
      exact postSteps_pending _ _ _ _
        (upsertNew_pending co fs st _ _ _ _ _ hst)

/-- handle_publish_request_pending: the whole publish pipeline never writes
a processing_status other than "pending" — in particular it never writes
"complete". -/
theorem handle_publish_request_pending (co : Collab) (dirs : List (Str × FileSys))
    (st : St) (clock : Nat) (req : Request) (hst : pendingOnlyB st = true) :
    pendingOnlyB (handle_publish_request co dirs st clock req).2.2 = true := by
  simp only [handle_publish_request]
  split
  · exact hst
  · rename_i article_path hpath
    split
    · exact hst
    · rename_i fs0 hfs0
      split
      · exact hst
      · rename_i mcontent hmc
        split
        · exact hst
        · split
          · exact hst
          · rename_i rr hrr
            have h1 : pendingOnlyB rr.2 = true :=
              update_article_metadata_pending co fs0 st clock _ rr hrr hst
            have h2 := store_article_files_pending co article_path fs0 rr.1
              (isPublishedParam req) rr.2 h1
            split
            · rename_i st2 fsOpt2 heq
              rw [heq] at h2
              exact h2
            · rename_i st2 fsOpt2 heq
              rw [heq] at h2
              exact h2



/-- C7 (amended): (1) a draft store_article_files run performs no upload,
and (2) neither does a draft thumbnail pass; (3) for every media file of
the directory (any entry that is not metadata.txt, not under thumbnail/,
and has a recognised image or video extension), after any run — draft or
published — the store holds its asset row with the canonical GCS URL and
processing_status "pending", provided colliding asset ids agree on their
canonical key (true in particular when the derived ids are pairwise
distinct); (4) a published (re)run uploads every such file's canonical
bucket key (when its id is non-zero, as the source checks); and (5) the
whole pipeline preserves the invariant that every stored media row is
"pending" — it never writes "complete" (see the counterexample). -/
theorem C7_draft_no_upload_pending :
    (∀ (co : Collab) (dirPath : Str) (fs : FileSys) (cid : Nat) (st : St),
      (store_article_files co dirPath fs cid false st).2.1.uploads = st.uploads) ∧
    (∀ (co : Collab) (fs : FileSys) (st : St) (ci : Int),
      (process_thumbnail co fs st ci false).2.uploads = st.uploads) ∧
    (∀ (co : Collab) (dirPath : Str) (fs : FileSys) (cid : Nat) (is_pub : Bool)
        (st : St) (e : Str × Str),
      uuidCoherentB co cid fs = true → e ∈ fs → storedCandB e.1 = true →
      mediaRowOk co cid (store_article_files co dirPath fs cid is_pub st).2.1 e.1 = true) ∧
    (∀ (co : Collab) (dirPath : Str) (fs : FileSys) (cid : Nat) (st : St) (e : Str × Str),
      e ∈ fs → storedCandB e.1 = true → mediaUuidOf co cid e.1 ≠ 0 →
      mediaKeyOf co cid e.1
        ∈ (store_article_files co dirPath fs cid true st).2.1.uploads) ∧
    (∀ (co : Collab) (dirs : List (Str × FileSys)) (st : St) (clock : Nat) (req : Request),
      pendingOnlyB st = true →
      pendingOnlyB (handle_publish_request co dirs st clock req).2.2 = true) := by
  refine ⟨?_, ?_, ?_, ?_, ?_⟩
  · intro co dirPath fs cid st
    exact store_article_files_draft_uploads co dirPath fs cid st
  · intro co fs st ci
    exact process_thumbnail_draft_uploads co fs st ci
  · intro co dirPath fs cid is_pub st e hcoh he hc
    exact store_article_files_rowOk co dirPath fs cid is_pub st e.1 hcoh ⟨e, he, rfl⟩ hc
  · intro co dirPath fs cid st e he hc hu
    exact store_article_files_uploaded co dirPath fs cid st e he hc hu
  · intro co dirs st clock req hst
    exact handle_publish_request_pending co dirs st clock req hst

/-- C7 witness: the draft run of a directory with one image performs no
upload yet records the pending row with its canonical URL; the published
run of the same directory uploads the asset's bucket key; and the
end-to-end publish of the scenario directory leaves every media row
pending. -/
theorem C7_draft_no_upload_pending_witness :
    (store_article_files co0 "/d".toList fs7 1 false st0).2.1.uploads = [] ∧
    mediaRowOk co0 1 (store_article_files co0 "/d".toList fs7 1 false st0).2.1
      "media/pic.jpg".toList = true ∧
    mediaKeyOf co0 1 "media/pic.jpg".toList
      ∈ (store_article_files co0 "/d".toList fs7 1 true st0).2.1.uploads ∧
    pendingOnlyB (handle_publish_request co0 dirsE st0 3 reqE).2.2 = true :=
  ⟨C7_draft_no_upload_pending.1 co0 "/d".toList fs7 1 st0,
   C7_draft_no_upload_pending.2.2.1 co0 "/d".toList fs7 1 false st0
     ("media/pic.jpg".toList, "IMG".toList) (by decide) (by decide) (by decide),
   C7_draft_no_upload_pending.2.2.2.1 co0 "/d".toList fs7 1 st0
     ("media/pic.jpg".toList, "IMG".toList) (by decide) (by decide) (by decide),
   C7_draft_no_upload_pending.2.2.2.2 co0 dirsE st0 3 reqE (by decide)⟩

/-- C7 counterexample: after the draft publish and the published republish
of the same directory, the stored image row's processing_status is still
"pending" — the pipeline never writes "complete", refuting the claimed
status flip. -/
theorem C7_counterexample :
    pubRun.2.1.db.images.map (fun i => i.processing_status) = ["pending".toList] ∧
    "pending".toList ≠ "complete".toList := by decide

theorem metaFind_insert_self (m : Meta) (k v : Str) :
    metaFind (metaInsert m k v) k = some v := by
  induction m with
  | nil => simp [metaInsert, metaFind, List.find?_cons]
  | cons e rest ih =>
    simp only [metaInsert]
    split
    · simp [metaFind, List.find?_cons]
    · rename_i hne
      simp only [metaFind, List.find?_cons]
      have hb : (e.1 == k) = false := by
        cases hx : (e.1 == k)
        · rfl
        · exact absurd hx hne
      rw [hb]
      exact ih

/-- parseStep is the per-line action of parseLines. -/
def parseStep (m : Meta) (line : Str) : Meta :=
  match parseLine line with
  | some kv => metaInsert m kv.1 kv.2
  | none => m

theorem parseLines_eq_foldl (lines : List Str) :
    parseLines lines = lines.foldl parseStep [] := rfl

/-- C10: when the metadata file holds the same key on multiple lines, the
value of the last such line wins (appending a line key=value makes the
lookup of key return value regardless of earlier lines), and a line without
an = character contributes nothing to the mapping (it can be dropped
anywhere without changing the result); concretely,
parse_metadata "a=1\nxx\na=2" maps a to 2. -/
theorem C10_parse_metadata_last_wins :
    (∀ (ls : List Str) (k v line : Str), parseLine line = some (k, v) →
      metaFind (parseLines (ls ++ [line])) k = some v) ∧
    (∀ (ls1 ls2 : List Str) (line : Str), parseLine line = none →
      parseLines (ls1 ++ line :: ls2) = parseLines (ls1 ++ ls2)) ∧
    metaFind (parse_metadata "a=1\nxx\na=2".toList) "a".toList = some "2".toList := by
  refine ⟨?_, ?_, by decide⟩
  · intro ls k v line hline
    rw [parseLines_eq_foldl, List.foldl_append, List.foldl_cons, List.foldl_nil]
    show metaFind (parseStep (ls.foldl parseStep []) line) k = some v
    rw [show parseStep (ls.foldl parseStep []) line
        = metaInsert (ls.foldl parseStep []) k v by
      simp only [parseStep, hline]]
    exact metaFind_insert_self _ k v
  · intro ls1 ls2 line hline
    rw [parseLines_eq_foldl, parseLines_eq_foldl, List.foldl_append, List.foldl_append,
      List.foldl_cons]
    rw [show parseStep (ls1.foldl parseStep []) line = ls1.foldl parseStep [] by
      simp only [parseStep, hline]]

/-- C10 witness: the last-wins conjunct applied to lines a=1, xx, a=2, and
the no-equals conjunct applied to the middle line. -/
theorem C10_parse_metadata_last_wins_witness :
    metaFind (parseLines (["a=1".toList, "xx".toList] ++ ["a=2".toList])) "a".toList
        = some "2".toList ∧
      parseLines (["a=1".toList] ++ "xx".toList :: ["b=2".toList])
        = parseLines (["a=1".toList] ++ ["b=2".toList]) :=
  ⟨C10_parse_metadata_last_wins.1 ["a=1".toList, "xx".toList] "a".toList "2".toList
      "a=2".toList (by decide),
    C10_parse_metadata_last_wins.2.1 ["a=1".toList] ["b=2".toList] "xx".toList (by decide)⟩
